import Mathlib

/-!
# SMASHServer: job scheduler, registry, dispatcher and frame codec

A shallow embedding of the server side of SMASHServer (`jobs.c`, `server.c`,
`conn.c`, `proto.c`, `parse.c`) and the properties of its specification.

Conventions of the embedding.

* Pointers are addresses (`Nat`); `NULL` is `none`.  The records the pointers
  refer to live in `clientmem` and `jobmem`; `malloc` hands out the next unused
  address.  A linked list (`next`, `snext`) is the list of the addresses of its
  nodes, head first.  A `conn_t *` is the position of the node in `connlist`.
* Every answer of the operating system is an input: `os_t`.
* A function that may end the server process (`exit`, a `NULL` dereference, the
  child side of `fork`) returns `none` there.
* Everything the server does to the outside (frames sent, signals, ...) is
  appended to `trace`.
* C strings and buffers are the lists of their byte values.
-/

set_option autoImplicit false

namespace SMASH

/-! ## Constants (jobs.h, proto.h) -/

abbrev NEW : Nat := 0
abbrev RUNNING : Nat := 1
abbrev SUSPENDED : Nat := 2
abbrev EXITED : Nat := 3
abbrev ABORTED : Nat := 4
abbrev CANCELED : Nat := 5

abbrev ACK : Nat := 1
abbrev NACK : Nat := 2
abbrev LOGIN : Nat := 3
abbrev JOB_SUBMIT : Nat := 4
abbrev JOB_STATUS : Nat := 5
abbrev JOB_SIGNAL : Nat := 6
abbrev JOB_SET_PRI : Nat := 7
abbrev JOB_GET_STDOUT : Nat := 8
abbrev JOB_GET_STDERR : Nat := 9
abbrev JOB_LIST_ALL : Nat := 10
abbrev JOB_EXPUNGE : Nat := 11
abbrev JOB_SUBMIT_SUCCESS : Nat := 12
abbrev JOB_STATUS_RESP : Nat := 13
abbrev JOB_UPDATE : Nat := 14
abbrev JOB_LIST_ALL_RESP : Nat := 15
abbrev JOB_RESULTS : Nat := 16

abbrev EINVAL : Int := 22
abbrev ENOMEM : Int := 12
abbrev SIGKILL : Nat := 9
abbrev SIGCONT : Nat := 18
abbrev INT_MAX : Int := 2147483647
abbrev NAME_MAX : Nat := 255

/-- Bytes of a buffer or of a C string. -/
abbrev bytes := List Nat

/-! ## Data model -/

/-- The struct timeval of the host. -/
structure timeval where
  tv_sec : Int
  tv_usec : Int
deriving DecidableEq

/-- The struct rusage of the host: the three members the program reads, and the
bytes of the remaining members (never looked at). -/
structure rusage where
  ru_utime : timeval
  ru_stime : timeval
  ru_maxrss : Int
  ru_rest : bytes
deriving DecidableEq

/-- A command of parse.h: its text and its components in order (the `next`
chain of component_t). The two descriptors in_fd and out_fd are never set. -/
structure command_t where
  command : bytes
  components : List bytes
deriving DecidableEq

/-- The user_input_t of parse.h: the original line and its commands. -/
structure user_input_t where
  input : bytes
  commands : List command_t
deriving DecidableEq

/-- The job_t of jobs.h. The links `next` and `snext` are the positions in the
owner's list and in the server's list. -/
structure job_t where
  ui : user_input_t
  owner : Option Nat
  ru : rusage
  status : Nat
  exitcode : Nat
  pgid : Nat
  jobid : Nat
  maxmem : Nat
  maxcpu : Nat
  usedmem : Nat
  usedcpu : Nat
  priority : Int
  envpc : Nat
  envp : List (Option bytes)
  stdoutfile : Option bytes
  stderrfile : Option bytes
deriving DecidableEq

/-- The client_t of client.h; `jobs` is the chain of the client's jobs. -/
structure client_t where
  clientfd : Int
  name : bytes
  connected : Int
  jobs : List Nat
  numjobs : Int
deriving DecidableEq

/-- The conn_t of conn.h. -/
structure conn_t where
  fd : Int
  client : Option Nat
deriving DecidableEq

/-- The result of the wait-status macros of the host on one wait status. -/
structure wait_status where
  WIFSTOPPED : Bool
  WIFCONTINUED : Bool
  WIFSIGNALED : Bool
  WIFEXITED : Bool
  WTERMSIG : Nat
  WEXITSTATUS : Nat
deriving DecidableEq

/-! ## Frame payloads (proto.h) -/

structure submission_t where
  maxcpu : Nat
  maxmem : Nat
  priority : Int
  cmdlen : Nat
  cmdline : bytes
  envpc : Nat
  envp : List bytes
deriving DecidableEq

structure status_t where
  status : Nat
  exitcode : Int
  maxcpu : Nat
  maxmem : Nat
  priority : Int
  ru : rusage
deriving DecidableEq

structure update_t where
  jobid : Nat
  status : Nat
deriving DecidableEq

/-- One record of a listing; the chain is the list of its records. -/
structure listing_t where
  jobid : Nat
  left : Nat
  cmdlen : Nat
  cmdline : bytes
  status : Nat
  exitcode : Int
deriving DecidableEq

structure priority_t where
  jobid : Nat
  priority : Int
deriving DecidableEq

structure signal_t where
  jobid : Nat
  signal : Nat
deriving DecidableEq

structure results_t where
  length : Nat
  results : bytes
deriving DecidableEq

/-- What the `void *payload` of send_pkt and recv_pkt points to. -/
inductive payload_t where
  | null
  | name (n : bytes)
  | update (u : update_t)
  | submission (s : submission_t)
  | jobid (id : Nat)
  | status (s : status_t)
  | listing (l : List listing_t)
  | priority (p : priority_t)
  | signal (s : signal_t)
  | results (r : results_t)
deriving DecidableEq

/-- What the server does to the outside world. -/
inductive effect where
  | send (fd : Int) (packet_type : Nat) (payload : payload_t)
  | killpg (pgid : Nat) (sig : Nat)
  | setpriority (pgid : Nat) (prio : Int)
  | fork (pid : Int)
  | close (fd : Int)
  | unlink (path : bytes)
deriving DecidableEq

/-- The answers of the operating system. -/
structure os_t where
  fork : Nat → Int
  tv : timeval
  setpriority : Int
  getpriority : Int
  stat : Int
  open_fd : Int
  st_size : Nat
  mmap : Option bytes
  waitpid : Nat → Option wait_status

/-- The server_t of server.h, the memory its pointers refer to, the number of
fork calls made so far and the trace of effects. -/
structure server_t where
  maxjobs : Int
  numjobs : Int
  clientlist : List Nat
  connlist : List conn_t
  joblist : List Nat
  clientmem : Nat → client_t
  jobmem : Nat → job_t
  next_client : Nat
  next_job : Nat
  nfork : Nat
  trace : List effect

/-! ## Memory and integer conversions -/

/-- Store `v` at address `a`. -/
def upd {α : Type} (m : Nat → α) (a : Nat) (v : α) : Nat → α :=
  fun b => if b = a then v else m b

/-- Conversion of an int to uint32_t. -/
def to_u32 (x : Int) : Nat := (x % 4294967296).toNat

/-- Conversion of a uint32_t to int32_t (two's complement). -/
def to_i32 (n : Nat) : Int :=
  if n % 4294967296 < 2147483648 then ((n % 4294967296 : Nat) : Int)
  else ((n % 4294967296 : Nat) : Int) - 4294967296

/-- The bytes of a C string held in a buffer: those before the first NUL. -/
def cstr (b : bytes) : bytes := b.takeWhile (fun x => x ≠ 0)

/-- The decimal digits printf writes for `%ld`. -/
def decimal (n : Int) : bytes :=
  if n < 0 then 45 :: (Nat.toDigits 10 (-n).toNat).map Char.toNat
  else (Nat.toDigits 10 n.toNat).map Char.toNat

/-- Append one effect to the trace. -/
def emit (s : server_t) (e : effect) : server_t :=
  { s with trace := s.trace ++ [e] }

/-- The job record memset to 0 by jobs_create. -/
def job_zero : job_t :=
  { ui := ⟨[], []⟩, owner := none, ru := ⟨⟨0, 0⟩, ⟨0, 0⟩, 0, []⟩, status := 0,
    exitcode := 0, pgid := 0, jobid := 0, maxmem := 0, maxcpu := 0, usedmem := 0,
    usedcpu := 0, priority := 0, envpc := 0, envp := [], stdoutfile := none,
    stderrfile := none }

/-- The client record memset to 0 by MALLOC. -/
def client_zero : client_t :=
  { clientfd := 0, name := [], connected := 0, jobs := [], numjobs := 0 }

/-! ## conn.c -/

/-- conn_find_by_client (conn.c): the first connection whose client is `cl`. -/
def conn_find_by_client (s : server_t) (cl : Option Nat) : Option conn_t :=
  match cl with
  | none => none
  | some c => s.connlist.find? (fun k => k.client = some c)

/-! ## jobs.c -/

/-- run_in_background (jobs.c) on the job at address `job`. -/
def run_in_background (s : server_t) (job : Nat) (cont : Int) : server_t × Int :=
  let j := s.jobmem job
  if ¬ (j.status = NEW ∨ j.status = SUSPENDED) then (s, -1)
  else
    let s1 := { s with jobmem := upd s.jobmem job { j with status := RUNNING } }
    if cont ≠ 0 then (emit s1 (effect.killpg j.pgid SIGCONT), 0) else (s1, 0)

/-- exec_job (jobs.c), as seen by the server process: `none` where the server
exits (fork failed) and on the child side of fork. The body of the child
(setrlimit, setpriority, launch_child) runs in the child process only. -/
def exec_job (os : os_t) (s : server_t) (c : Option Nat) (job : Nat) :
    Option (server_t × Int) :=
  match c with
  | none => some (s, -1)
  | some c =>
    if ¬ (s.numjobs < s.maxjobs) then some (s, 0)
    else
      match (s.jobmem job).ui.commands with
      | [] => some (s, -1)
      | _ :: _ =>
        let ppid := os.fork s.nfork
        if ppid < 0 then none
        else if ppid = 0 then none
        else
          let s1 := emit { s with nfork := s.nfork + 1 } (effect.fork ppid)
          let s2 := { s1 with jobmem := upd s1.jobmem job { s1.jobmem job with pgid := to_u32 ppid } }
          let s3 := { s2 with numjobs := s2.numjobs + 1 }
          let s4 := (run_in_background s3 job 0).1
          match conn_find_by_client s4 (some c) with
          | none => some (s4, 0)
          | some conn =>
            some (emit s4 (effect.send conn.fd JOB_UPDATE
              (payload_t.update ⟨(s4.jobmem job).jobid, (s4.jobmem job).status⟩)), 0)

/-- job_update_status (jobs.c) on a job record. -/
def job_update_status (j : job_t) (status : wait_status) : job_t :=
  if status.WIFSTOPPED then { j with status := SUSPENDED }
  else if status.WIFCONTINUED then { j with status := RUNNING }
  else if status.WIFSIGNALED then { j with status := ABORTED, exitcode := status.WTERMSIG }
  else if status.WIFEXITED then { j with status := EXITED, exitcode := status.WEXITSTATUS }
  else j

/-- free_job (jobs.c): the two output files are unlinked; the storage is
released (the record is no longer reachable from any list). -/
def free_job (s : server_t) (job : Nat) : server_t :=
  let j := s.jobmem job
  let s1 := match j.stdoutfile with
    | some f => emit s (effect.unlink f)
    | none => s
  match j.stderrfile with
  | some f => emit s1 (effect.unlink f)
  | none => s1

/-- jobs_create (jobs.c): a new zeroed job record holding `ui`. -/
def jobs_create (s : server_t) (ui : Option user_input_t) : server_t × Option Nat :=
  match ui with
  | none => (s, none)
  | some ui =>
    ({ s with jobmem := upd s.jobmem s.next_job { job_zero with ui := ui },
              next_job := s.next_job + 1 }, some s.next_job)

/-- The output file name snprintf builds in jobs_insert (at most NAME_MAX-2
characters are kept). -/
def outfile (name : bytes) (tv : timeval) (ext : bytes) : bytes :=
  (name ++ [95] ++ decimal tv.tv_sec ++ decimal tv.tv_usec ++ ext).take (NAME_MAX - 2)

/-- jobs_insert (jobs.c). -/
def jobs_insert (os : os_t) (s : server_t) (c : Option Nat) (job : Option Nat) :
    server_t × Int :=
  match c, job with
  | none, _ => (s, -EINVAL)
  | some _, none => (s, -EINVAL)
  | some c, some job =>
    let cl := s.clientmem c
    let j := s.jobmem job
    let j1 := { j with owner := some c, jobid := to_u32 cl.numjobs,
                       stdoutfile := some (outfile cl.name os.tv [46, 111, 117, 116]),
                       stderrfile := some (outfile cl.name os.tv [46, 101, 114, 114]) }
    ({ s with clientmem := upd s.clientmem c
                { cl with jobs := cl.jobs ++ [job], numjobs := cl.numjobs + 1 },
              joblist := s.joblist ++ [job],
              jobmem := upd s.jobmem job j1 }, 0)

/-- jobs_remove (jobs.c): `none` where the C code dereferences NULL (the
server's list is empty). -/
def jobs_remove (s : server_t) (c : Option Nat) (job : Option Nat) :
    Option (server_t × Int) :=
  match c, job with
  | none, _ => some (s, -EINVAL)
  | some _, none => some (s, -EINVAL)
  | some c, some job =>
    let cl := s.clientmem c
    let retval : Int := if job ∈ cl.jobs then 0 else -EINVAL
    let s1 := { s with clientmem := upd s.clientmem c { cl with jobs := cl.jobs.erase job } }
    match s1.joblist with
    | [] => none
    | j :: rest =>
      if j = job then some (free_job { s1 with joblist := rest } job, 0)
      else if job ∈ rest then
        some (free_job { s1 with joblist := j :: rest.erase job } job, 0)
      else some (s1, retval)

/-- jobs_lookup_by_jobid (jobs.c). -/
def jobs_lookup_by_jobid (s : server_t) (c : Option Nat) (jobid : Nat) : Option Nat :=
  match c with
  | none => none
  | some c => (s.clientmem c).jobs.find? (fun a => (s.jobmem a).jobid = jobid)

/-- jobs_lookup_by_pid (jobs.c). -/
def jobs_lookup_by_pid (s : server_t) (joblist : List Nat) (pid : Int) : Option Nat :=
  joblist.find? (fun a => ((s.jobmem a).pgid : Int) = pid)

/-- The loop of cancel_all_jobs (jobs.c) over the client's chain. -/
def cancel_all_jobs_loop : server_t → List Nat → server_t
  | s, [] => s
  | s, a :: rest =>
    let j := s.jobmem a
    if j.status = RUNNING ∨ j.status = SUSPENDED then
      cancel_all_jobs_loop
        { emit s (effect.killpg j.pgid SIGKILL) with
          jobmem := upd s.jobmem a { j with status := CANCELED } } rest
    else if j.status = NEW then
      cancel_all_jobs_loop { s with jobmem := upd s.jobmem a { j with status := ABORTED } } rest
    else cancel_all_jobs_loop s rest

/-- cancel_all_jobs (jobs.c). -/
def cancel_all_jobs (s : server_t) (c : Option Nat) : server_t × Int :=
  match c with
  | none => (s, -EINVAL)
  | some c => (cancel_all_jobs_loop s (s.clientmem c).jobs, 0)

/-- The loop of wait_for_all (jobs.c); `none` where waitpid fails and the server
calls _exit. -/
def wait_for_all_loop (os : os_t) : server_t → List Nat → Option server_t
  | s, [] => some s
  | s, a :: rest =>
    let j := s.jobmem a
    if j.status = RUNNING ∨ j.status = SUSPENDED ∨ j.status = CANCELED then
      match os.waitpid j.pgid with
      | none => none
      | some status =>
        let j1 :=
          if status.WIFEXITED then { j with status := EXITED, exitcode := status.WEXITSTATUS }
          else if status.WIFSIGNALED then
            { j with status := ABORTED, exitcode := status.WTERMSIG }
          else j
        wait_for_all_loop os { s with jobmem := upd s.jobmem a j1 } rest
    else wait_for_all_loop os s rest

/-- wait_for_all (jobs.c). -/
def wait_for_all (os : os_t) (s : server_t) (c : Option Nat) : Option (server_t × Int) :=
  match c with
  | none => some (s, -EINVAL)
  | some c => (wait_for_all_loop os s (s.clientmem c).jobs).map (fun s1 => (s1, 0))

/-! ## server.c: the reaper -/

/-- The backfill loop of handle_all_signals: walks the server's job list and
starts NEW jobs while numjobs < maxjobs. -/
def backfill (os : os_t) : server_t → List Nat → Option server_t
  | s, [] => some s
  | s, j :: rest =>
    if s.numjobs < s.maxjobs then
      if (s.jobmem j).status = NEW then
        match exec_job os s (s.jobmem j).owner j with
        | none => none
        | some (s1, _) => backfill os s1 rest
      else backfill os s rest
    else some s

/-- The state of the reaper after the rusage copy and job_update_status on the
job `j` found for the reported pid. -/
def reaped (s : server_t) (j : Nat) (status : wait_status) (ru : rusage) : server_t :=
  { s with jobmem := upd s.jobmem j (job_update_status { s.jobmem j with ru := ru } status) }

/-- The body of the wait4 loop of handle_all_signals for one reported child. -/
def reap (os : os_t) (s : server_t) (pid : Int) (status : wait_status) (ru : rusage) :
    Option server_t :=
  match jobs_lookup_by_pid s s.joblist pid with
  | none => some s
  | some j =>
    let s2 := reaped s j status ru
    let st := (s2.jobmem j).status
    let s3 : Option server_t :=
      if st = RUNNING then some { s2 with numjobs := s2.numjobs + 1 }
      else if st = SUSPENDED ∨ st = EXITED ∨ st = ABORTED then
        backfill os { s2 with numjobs := s2.numjobs - 1 } s2.joblist
      else some s2
    match s3 with
    | none => none
    | some s4 =>
      match conn_find_by_client s4 (s4.jobmem j).owner with
      | none => some s4
      | some conn =>
        match conn.client with
        | none => some s4
        | some c =>
          if (s4.clientmem c).connected ≠ 0 then
            some (emit s4 (effect.send conn.fd JOB_UPDATE
              (payload_t.update ⟨(s4.jobmem j).jobid, (s4.jobmem j).status⟩)))
          else some s4

/-- The wait4 loop of handle_all_signals: `wait4` lists what successive calls
report; the loop ends at the first pid that is not positive. -/
def reap_loop (os : os_t) : server_t → List (Int × wait_status × rusage) → Option server_t
  | s, [] => some s
  | s, (pid, status, ru) :: rest =>
    if pid > 0 then
      match reap os s pid status ru with
      | none => none
      | some s1 => reap_loop os s1 rest
    else some s

/-- handle_all_signals (server.c) without the shutdown branch. -/
def handle_all_signals (os : os_t) (s : server_t) (need_to_reap : Bool)
    (wait4 : List (Int × wait_status × rusage)) : Option server_t :=
  if need_to_reap then reap_loop os s wait4 else some s

/-! ## server.c: clients and connections -/

/-- server_init (server.c). -/
def server_init : server_t :=
  { maxjobs := INT_MAX, numjobs := 0, clientlist := [], connlist := [], joblist := [],
    clientmem := fun _ => client_zero, jobmem := fun _ => job_zero,
    next_client := 0, next_job := 0, nfork := 0, trace := [] }

/-- The option `-n maxjobs` of main (server_main.c): `none` where usage exits. -/
def set_maxjobs (s : server_t) (n : Int) : Option server_t :=
  if n < 1 then none else some { s with maxjobs := n }

/-- The name test of server_login_client: equal strlen and strncmp = 0. -/
def name_matches (clname name : bytes) : Bool :=
  decide (name.length = clname.length ∧ clname.take clname.length = name.take clname.length)

/-- server_login_client (server.c); `name` is the buffer received. -/
def server_login_client (s : server_t) (name : Option bytes) : server_t × Option Nat :=
  match name with
  | none => (s, none)
  | some buf =>
    let nm := cstr buf
    if ¬ (nm.length > 0) then (s, none)
    else
      match s.clientlist.find? (fun a => name_matches (s.clientmem a).name nm) with
      | some cl =>
        if (s.clientmem cl).connected = 1 then (s, none)
        else ({ s with clientmem := upd s.clientmem cl { s.clientmem cl with connected := 1 } },
              some cl)
      | none =>
        ({ s with clientmem := upd s.clientmem s.next_client
                    { client_zero with connected := 1, name := nm },
                  next_client := s.next_client + 1,
                  clientlist := s.next_client :: s.clientlist }, some s.next_client)

/-- server_register_conn (server.c): the new connection is the head. -/
def server_register_conn (s : server_t) (fd : Int) : server_t × Option Nat :=
  ({ s with connlist := ⟨fd, none⟩ :: s.connlist }, some 0)

/-- server_disconnect_client (server.c) on the connection at position `c`. -/
def server_disconnect_client (s : server_t) (c : Option Nat) : server_t × Int :=
  match c with
  | none => (s, -1)
  | some i =>
    match s.connlist[i]? with
    | none => (s, -1)
    | some conn =>
      if conn.fd > 0 then
        let s1 := emit s (effect.close conn.fd)
        let s2 := match conn.client with
          | some cl =>
            { s1 with clientmem := upd s1.clientmem cl { s1.clientmem cl with connected := 0 } }
          | none => s1
        ({ s2 with connlist := s2.connlist.eraseIdx i }, 0)
      else (s, 0)

/-! ## proto.c: the frame codec

The descriptor is the list of the bytes still to be read from it.  Integers are
written in the byte order of the host (little endian). -/

/-- The `k` bytes of the value `n` in memory. -/
def le_bytes : Nat → Nat → bytes
  | 0, _ => []
  | k + 1, n => n % 256 :: le_bytes k (n / 256)

/-- The value held by a run of bytes in memory. -/
def le_val : bytes → Nat
  | [] => 0
  | b :: bs => b + 256 * le_val bs

/-- The value of a long held in 8 bytes. -/
def i64_val (b : bytes) : Int :=
  if le_val b < 9223372036854775808 then (le_val b : Int)
  else (le_val b : Int) - 18446744073709551616

/-- The 8 bytes of a long. -/
def i64_bytes (x : Int) : bytes := le_bytes 8 (x % 18446744073709551616).toNat

/-- The first `n` bytes of a buffer handed to write; bytes past the end of the
list read as 0. -/
def buf (b : bytes) (n : Nat) : bytes :=
  b.take n ++ List.replicate (n - (b.take n).length) 0

/-- The READ macro (common.h) on an open descriptor: read returns 0, and the
macro makes the caller return -1, when no byte is asked for or none is left;
otherwise the bytes read (a short read leaves the zeroed tail of the buffer). -/
def READ (fd : bytes) (len : Nat) : Option (bytes × bytes) :=
  if len = 0 ∨ fd = [] then none
  else some (buf fd len, fd.drop len)

/-- The memory image of struct rusage (144 bytes). -/
def rusage_bytes (ru : rusage) : bytes :=
  i64_bytes ru.ru_utime.tv_sec ++ i64_bytes ru.ru_utime.tv_usec ++
  i64_bytes ru.ru_stime.tv_sec ++ i64_bytes ru.ru_stime.tv_usec ++
  i64_bytes ru.ru_maxrss ++ buf ru.ru_rest 104

/-- The struct rusage held by 144 bytes. -/
def rusage_of (b : bytes) : rusage :=
  { ru_utime := ⟨i64_val (b.take 8), i64_val ((b.drop 8).take 8)⟩,
    ru_stime := ⟨i64_val ((b.drop 16).take 8), i64_val ((b.drop 24).take 8)⟩,
    ru_maxrss := i64_val ((b.drop 32).take 8),
    ru_rest := (b.drop 40).take 104 }

/-- The memory image of a status_t (168 bytes, 4 of them padding). -/
def status_bytes (st : status_t) : bytes :=
  le_bytes 4 st.status ++ le_bytes 4 (to_u32 st.exitcode) ++ le_bytes 4 st.maxcpu ++
  le_bytes 4 st.maxmem ++ le_bytes 4 (to_u32 st.priority) ++ [0, 0, 0, 0] ++
  rusage_bytes st.ru

/-- The status_t held by 168 bytes. -/
def status_of (b : bytes) : status_t :=
  { status := le_val (b.take 4), exitcode := to_i32 (le_val ((b.drop 4).take 4)),
    maxcpu := le_val ((b.drop 8).take 4), maxmem := le_val ((b.drop 12).take 4),
    priority := to_i32 (le_val ((b.drop 16).take 4)), ru := rusage_of (b.drop 24) }

/-- The bytes send_pkt writes for the environment strings. -/
def send_envp : List bytes → bytes
  | [] => []
  | e :: es => le_bytes 4 (cstr e).length ++ cstr e ++ send_envp es

/-- The bytes send_pkt writes for a chain of listing records. -/
def send_listing : List listing_t → bytes
  | [] => []
  | l :: ls =>
    le_bytes 4 l.jobid ++ le_bytes 4 l.left ++ le_bytes 4 l.cmdlen ++ buf l.cmdline l.cmdlen ++
    le_bytes 4 l.status ++ le_bytes 4 (to_u32 l.exitcode) ++ send_listing ls

/-- send_pkt (proto.c): the bytes written to the descriptor and the value
returned; `none` where the payload is not of the kind the type is cast to, or
the environment vector is shorter than envpc. -/
def send_pkt (packet_type : Nat) (payload : payload_t) : Option (bytes × Int) :=
  if packet_type = ACK ∨ packet_type = NACK ∨ packet_type = JOB_LIST_ALL then
    some ([packet_type], 0)
  else if ¬ (3 ≤ packet_type ∧ packet_type ≤ 16) then some ([], 0)
  else
    match payload with
    | payload_t.null => some ([], -EINVAL)
    | payload_t.name n =>
      if packet_type = LOGIN then
        some ([packet_type] ++ le_bytes 4 ((cstr n).length + 1) ++ (cstr n ++ [0]), 0)
      else none
    | payload_t.update u =>
      if packet_type = JOB_UPDATE then
        some ([packet_type] ++ le_bytes 4 u.jobid ++ le_bytes 4 u.status, 0)
      else none
    | payload_t.submission sub =>
      if packet_type = JOB_SUBMIT then
        if sub.envp.length < sub.envpc then none
        else
          some ([packet_type] ++ le_bytes 4 sub.maxcpu ++ le_bytes 4 sub.maxmem ++
            le_bytes 4 (to_u32 sub.priority) ++ le_bytes 4 sub.cmdlen ++
            buf sub.cmdline sub.cmdlen ++ le_bytes 4 sub.envpc ++
            send_envp (sub.envp.take sub.envpc), 0)
      else none
    | payload_t.jobid id =>
      if packet_type = JOB_SUBMIT_SUCCESS ∨ packet_type = JOB_STATUS ∨
          packet_type = JOB_EXPUNGE ∨ packet_type = JOB_GET_STDOUT ∨
          packet_type = JOB_GET_STDERR then
        some ([packet_type] ++ le_bytes 4 id, 0)
      else none
    | payload_t.status st =>
      if packet_type = JOB_STATUS_RESP then some ([packet_type] ++ status_bytes st, 0)
      else none
    | payload_t.listing l =>
      if packet_type = JOB_LIST_ALL_RESP then some ([packet_type] ++ send_listing l, 0)
      else none
    | payload_t.priority pr =>
      if packet_type = JOB_SET_PRI then
        some ([packet_type] ++ le_bytes 4 pr.jobid ++ le_bytes 4 (to_u32 pr.priority), 0)
      else none
    | payload_t.signal sg =>
      if packet_type = JOB_SIGNAL then
        some ([packet_type] ++ le_bytes 4 sg.jobid ++ le_bytes 4 sg.signal, 0)
      else none
    | payload_t.results r =>
      if packet_type = JOB_RESULTS then
        some ([packet_type] ++ le_bytes 4 r.length ++ buf r.results r.length, 0)
      else none

/-- Outcome of a run of READs inside recv_pkt. -/
inductive rd (α : Type) where
  | ok (v : α) (rest : bytes)
  | fail (rest : bytes)
  | exit

/-- READ of one uint32_t. -/
def READ_u32 (fd : bytes) : Option (Nat × bytes) :=
  match READ fd 4 with
  | none => none
  | some (b, rest) => some (le_val b, rest)

/-- The loop of recv_pkt over the environment strings of a JOB_SUBMIT. A length
that is negative as an int cannot be allocated or read: `exit`. -/
def recv_envp : Nat → bytes → rd (List bytes)
  | 0, fd => rd.ok [] fd
  | n + 1, fd =>
    match READ_u32 fd with
    | none => rd.fail fd
    | some (len, fd1) =>
      if 2147483648 ≤ len then rd.exit
      else
        match READ fd1 len with
        | none => rd.fail fd1
        | some (e, fd2) =>
          match recv_envp n fd2 with
          | rd.ok es rest => rd.ok (cstr e :: es) rest
          | rd.fail rest => rd.fail rest
          | rd.exit => rd.exit

/-- One record of a JOB_LIST_ALL_RESP as read by recv_pkt. -/
def recv_listing_record (fd : bytes) : Option (listing_t × bytes) :=
  match READ_u32 fd with
  | none => none
  | some (jobid, fd1) =>
    match READ_u32 fd1 with
    | none => none
    | some (left, fd2) =>
      match READ_u32 fd2 with
      | none => none
      | some (cmdlen, fd3) =>
        match READ fd3 cmdlen with
        | none => none
        | some (cmdline, fd4) =>
          match READ_u32 fd4 with
          | none => none
          | some (status, fd5) =>
            match READ_u32 fd5 with
            | none => none
            | some (exitcode, fd6) =>
              some (⟨jobid, left, cmdlen, cmdline, status, to_i32 exitcode⟩, fd6)

/-- The do-while loop of recv_pkt for JOB_LIST_ALL_RESP: it reads records until
one has left = 0.  Every record takes bytes from the descriptor, so the number
of bytes left bounds the number of rounds. -/
def recv_listing : Nat → bytes → Option (List listing_t × bytes)
  | 0, _ => none
  | fuel + 1, fd =>
    match recv_listing_record fd with
    | none => none
    | some (l, rest) =>
      if l.left > 0 then
        match recv_listing fuel rest with
        | none => none
        | some (ls, rest1) => some (l :: ls, rest1)
      else some ([l], rest)

/-- The body of the JOB_SUBMIT case of recv_pkt. -/
def recv_submission (fd : bytes) : rd submission_t :=
  match READ_u32 fd with
  | none => rd.fail fd
  | some (maxcpu, fd1) =>
    match READ_u32 fd1 with
    | none => rd.fail fd1
    | some (maxmem, fd2) =>
      match READ_u32 fd2 with
      | none => rd.fail fd2
      | some (priority, fd3) =>
        match READ_u32 fd3 with
        | none => rd.fail fd3
        | some (cmdlen, fd4) =>
          if cmdlen = 4294967295 then rd.exit
          else
            match READ fd4 cmdlen with
            | none => rd.fail fd4
            | some (cmdline, fd5) =>
              match READ_u32 fd5 with
              | none => rd.fail fd5
              | some (envpc, fd6) =>
                if envpc = 4294967295 then rd.exit
                else
                  match recv_envp envpc fd6 with
                  | rd.ok envp rest =>
                    rd.ok ⟨maxcpu, maxmem, to_i32 priority, cmdlen, cmdline, envpc, envp⟩ rest
                  | rd.fail rest => rd.fail rest
                  | rd.exit => rd.exit

/-- recv_pkt (proto.c) on an open descriptor: the value returned, what
`*payload` points to afterwards (it is NULL before) and the bytes left on the
descriptor; `none` where the server exits (an allocation that cannot succeed). -/
def recv_pkt (fd : bytes) : Option (Int × payload_t × bytes) :=
  match fd with
  | [] => some (-1, payload_t.null, [])
  | c :: fd0 =>
    if c = ACK ∨ c = NACK ∨ c = JOB_LIST_ALL then some ((c : Int), payload_t.null, fd0)
    else if c = JOB_UPDATE then
      match READ fd0 8 with
      | none => some (-1, payload_t.null, fd0)
      | some (b, rest) =>
        some ((c : Int), payload_t.update ⟨le_val (b.take 4), le_val (b.drop 4)⟩, rest)
    else if c = LOGIN then
      match READ_u32 fd0 with
      | none => some (-1, payload_t.null, fd0)
      | some (len, fd1) =>
        if 2147483648 ≤ len then none
        else
          match READ fd1 len with
          | none => some (-1, payload_t.null, fd1)
          | some (name, rest) => some ((c : Int), payload_t.name (cstr name), rest)
    else if c = JOB_SUBMIT then
      match recv_submission fd0 with
      | rd.ok sub rest => some ((c : Int), payload_t.submission sub, rest)
      | rd.fail rest => some (-1, payload_t.null, rest)
      | rd.exit => none
    else if c = JOB_SUBMIT_SUCCESS ∨ c = JOB_STATUS ∨ c = JOB_EXPUNGE ∨ c = JOB_GET_STDOUT ∨
        c = JOB_GET_STDERR then
      match READ_u32 fd0 with
      | none => some (-1, payload_t.null, fd0)
      | some (id, rest) => some ((c : Int), payload_t.jobid id, rest)
    else if c = JOB_STATUS_RESP then
      match READ fd0 168 with
      | none => some (-1, payload_t.null, fd0)
      | some (b, rest) => some ((c : Int), payload_t.status (status_of b), rest)
    else if c = JOB_LIST_ALL_RESP then
      match recv_listing (fd0.length + 1) fd0 with
      | none => some (-1, payload_t.null, [])
      | some (l, rest) => some ((c : Int), payload_t.listing l, rest)
    else if c = JOB_SET_PRI then
      match READ fd0 8 with
      | none => some (-1, payload_t.null, fd0)
      | some (b, rest) =>
        some ((c : Int), payload_t.priority ⟨le_val (b.take 4), to_i32 (le_val (b.drop 4))⟩, rest)
    else if c = JOB_SIGNAL then
      match READ fd0 8 with
      | none => some (-1, payload_t.null, fd0)
      | some (b, rest) =>
        some ((c : Int), payload_t.signal ⟨le_val (b.take 4), le_val (b.drop 4)⟩, rest)
    else if c = JOB_RESULTS then
      match READ_u32 fd0 with
      | none => some (-1, payload_t.null, fd0)
      | some (len, fd1) =>
        if len = 4294967295 then none
        else
          match READ fd1 len with
          | none => some (-1, payload_t.null, fd1)
          | some (b, rest) => some ((c : Int), payload_t.results ⟨len, b⟩, rest)
    else some (0, payload_t.null, fd0)

/-! ## parse.c -/

/-- Membership in COMPONENT_DELIMS (parse.h): tab, carriage return, line feed,
space. -/
def is_delim (c : Nat) : Bool := c = 9 || c = 13 || c = 10 || c = 32

/-- One call of strtok_r with the component delimiters on the rest of the
string: the token found and the rest after it, or `none` at the end. -/
def strtok_r (p : bytes) : Option (bytes × bytes) :=
  match p.dropWhile is_delim with
  | [] => none
  | c :: q =>
    some ((c :: q).takeWhile (fun x => !is_delim x),
          ((c :: q).dropWhile (fun x => !is_delim x)).drop 1)

/-- The token loop of parse_input; every token takes at least one byte. -/
def components_loop : Nat → bytes → List bytes
  | 0, _ => []
  | fuel + 1, p =>
    match strtok_r p with
    | none => []
    | some (tok, rest) => tok :: components_loop fuel rest

/-- parse_input (parse.c); allocation is taken to succeed. -/
def parse_input (input : Option bytes) : Option user_input_t :=
  match input with
  | none => none
  | some b =>
    some { input := cstr b,
           commands := [{ command := cstr b,
                          components := components_loop ((cstr b).length + 1) (cstr b) }] }

/-! ## server.c: the dispatcher -/

/-- The guarded send of the dispatcher:
`if(conn->client && conn->client->connected) send_pkt(conn->fd, ...)`. -/
def reply (s : server_t) (conn : conn_t) (packet_type : Nat) (payload : payload_t) :
    server_t :=
  match conn.client with
  | none => s
  | some c =>
    if (s.clientmem c).connected ≠ 0 then emit s (effect.send conn.fd packet_type payload)
    else s

/-- The chain of listing records built for JOB_LIST_ALL from the jobs of the
client, `jobcount` being the length of the whole list and `i` the index of the
first job of `js`. -/
def build_listing (s : server_t) (jobcount : Nat) : Nat → List Nat → List listing_t
  | _, [] => []
  | i, j :: js =>
    { jobid := (s.jobmem j).jobid, left := jobcount - i - 1,
      cmdlen := (s.jobmem j).ui.input.length + 1,
      cmdline := (s.jobmem j).ui.input ++ [0],
      status := (s.jobmem j).status,
      exitcode := to_i32 (s.jobmem j).exitcode } :: build_listing s jobcount (i + 1) js

/-- Case LOGIN of server_handle_client. -/
def handle_login (s : server_t) (i : Nat) (conn : conn_t) (payload : payload_t) :
    Option (server_t × Int) :=
  match payload with
  | payload_t.name n =>
    let (s1, cl) := server_login_client s (some n)
    let conn1 : conn_t := { conn with client := cl }
    let s2 := { s1 with connlist := s1.connlist.set i conn1 }
    match cl with
    | none => some (s2, 0)
    | some c =>
      if (s2.clientmem c).connected ≠ 0 then some (emit s2 (effect.send conn.fd ACK payload_t.null), 0)
      else some (s2, 0)
  | _ => none

/-- Case JOB_SUBMIT of server_handle_client. -/
def handle_submit (os : os_t) (s : server_t) (conn : conn_t) (payload : payload_t) :
    Option (server_t × Int) :=
  match conn.client with
  | none => some (s, -EINVAL)
  | some c =>
    match payload with
    | payload_t.submission sub =>
      match parse_input (some sub.cmdline) with
      | none => some (reply s conn NACK payload_t.null, -1)
      | some ui =>
        match jobs_create s (some ui) with
        | (s1, none) => some (s1, -ENOMEM)
        | (s1, some j) =>
          let j1 : job_t :=
            { s1.jobmem j with maxmem := sub.maxmem, maxcpu := sub.maxcpu,
                               priority := sub.priority, envpc := sub.envpc,
                               envp := sub.envp.map some }
          let s2 := { s1 with jobmem := upd s1.jobmem j j1 }
          let (s3, r) := jobs_insert os s2 (some c) (some j)
          if r < 0 then none
          else
            let j3 : job_t := { s3.jobmem j with envp := (s3.jobmem j).envp.map (fun _ => none) }
            let s4 := { s3 with jobmem := upd s3.jobmem j j3 }
            let s5 := reply s4 conn JOB_SUBMIT_SUCCESS (payload_t.jobid (s4.jobmem j).jobid)
            match exec_job os s5 (some c) j with
            | none => none
            | some (s6, r1) =>
              if r1 < 0 then some (reply s6 conn NACK payload_t.null, -1)
              else some (s6, 0)
    | _ => none

/-- Case JOB_STATUS of server_handle_client. -/
def handle_status (os : os_t) (s : server_t) (conn : conn_t) (payload : payload_t) :
    Option (server_t × Int) :=
  match conn.client with
  | none => some (s, -EINVAL)
  | some c =>
    match payload with
    | payload_t.jobid id =>
      match jobs_lookup_by_jobid s (some c) id with
      | none => some (reply s conn NACK payload_t.null, 0)
      | some j =>
        some (reply s conn JOB_STATUS_RESP (payload_t.status
          { status := (s.jobmem j).status, exitcode := to_i32 (s.jobmem j).exitcode,
            maxcpu := (s.jobmem j).maxcpu, maxmem := (s.jobmem j).maxmem,
            priority := os.getpriority, ru := (s.jobmem j).ru }), 0)
    | _ => none

/-- Case JOB_LIST_ALL of server_handle_client. -/
def handle_list_all (s : server_t) (conn : conn_t) : Option (server_t × Int) :=
  match conn.client with
  | none => some (s, -EINVAL)
  | some c =>
    let jobs := (s.clientmem c).jobs
    if jobs.length = 0 then some (reply s conn NACK payload_t.null, 0)
    else
      some (reply s conn JOB_LIST_ALL_RESP
        (payload_t.listing (build_listing s jobs.length 0 jobs)), 0)

/-- Case JOB_SET_PRI of server_handle_client. -/
def handle_set_pri (os : os_t) (s : server_t) (conn : conn_t) (payload : payload_t) :
    Option (server_t × Int) :=
  match conn.client with
  | none => some (s, -EINVAL)
  | some c =>
    match payload with
    | payload_t.priority p =>
      match jobs_lookup_by_jobid s (some c) p.jobid with
      | none => some (reply s conn NACK payload_t.null, 0)
      | some j =>
        let s1 := emit s (effect.setpriority (s.jobmem j).pgid p.priority)
        if os.setpriority = 0 then some (reply s1 conn ACK payload_t.null, 0)
        else some (reply s1 conn NACK payload_t.null, 0)
    | _ => none

/-- Case JOB_SIGNAL of server_handle_client. -/
def handle_signal (s : server_t) (conn : conn_t) (payload : payload_t) :
    Option (server_t × Int) :=
  match conn.client with
  | none => some (s, -EINVAL)
  | some c =>
    match payload with
    | payload_t.signal sg =>
      match jobs_lookup_by_jobid s (some c) sg.jobid with
      | none => some (reply s conn NACK payload_t.null, 0)
      | some j =>
        some (emit (reply s conn ACK payload_t.null)
          (effect.killpg (s.jobmem j).pgid sg.signal), 0)
    | _ => none

/-- Case JOB_EXPUNGE of server_handle_client. -/
def handle_expunge (s : server_t) (conn : conn_t) (payload : payload_t) :
    Option (server_t × Int) :=
  match conn.client with
  | none => some (s, -EINVAL)
  | some c =>
    match payload with
    | payload_t.jobid id =>
      match jobs_lookup_by_jobid s (some c) id with
      | none => some (reply s conn NACK payload_t.null, 0)
      | some j =>
        let s1 := reply s conn ACK payload_t.null
        let s2 :=
          if (s1.jobmem j).status = RUNNING ∨ (s1.jobmem j).status = SUSPENDED then
            emit s1 (effect.killpg (s1.jobmem j).pgid SIGKILL)
          else s1
        match jobs_remove s2 (some c) (some j) with
        | none => none
        | some (s3, _) => some (s3, 0)
    | _ => none

/-- Cases JOB_GET_STDOUT and JOB_GET_STDERR of server_handle_client; `none`
where mmap fails and the server exits. -/
def handle_results (os : os_t) (s : server_t) (conn : conn_t) (payload : payload_t) :
    Option (server_t × Int) :=
  match conn.client with
  | none => some (s, -EINVAL)
  | some c =>
    match payload with
    | payload_t.jobid id =>
      match jobs_lookup_by_jobid s (some c) id with
      | none => some (reply s conn NACK payload_t.null, 0)
      | some j =>
        if (s.jobmem j).status ≠ ABORTED ∧ (s.jobmem j).status ≠ EXITED then
          some (reply s conn NACK payload_t.null, 0)
        else if os.stat < 0 then some (reply s conn NACK payload_t.null, 0)
        else if os.open_fd < 0 then some (reply s conn NACK payload_t.null, 0)
        else if os.st_size % 4294967296 = 0 then some (reply s conn NACK payload_t.null, 0)
        else
          match os.mmap with
          | none => none
          | some file =>
            some (reply s conn JOB_RESULTS
              (payload_t.results ⟨os.st_size % 4294967296, file⟩), 0)
    | _ => none

/-- The switch of server_handle_client on the value `r` returned by recv_pkt. -/
def server_dispatch (os : os_t) (s : server_t) (i : Nat) (conn : conn_t) (r : Int)
    (payload : payload_t) : Option (server_t × Int) :=
  if r = LOGIN then handle_login s i conn payload
  else if r = JOB_SUBMIT then handle_submit os s conn payload
  else if r = JOB_STATUS then handle_status os s conn payload
  else if r = JOB_LIST_ALL then handle_list_all s conn
  else if r = JOB_SET_PRI then handle_set_pri os s conn payload
  else if r = JOB_SIGNAL then handle_signal s conn payload
  else if r = JOB_EXPUNGE then handle_expunge s conn payload
  else if r = JOB_GET_STDOUT ∨ r = JOB_GET_STDERR then handle_results os s conn payload
  else some (s, 0)

/-- server_handle_client (server.c) on the connection at position `conn`, `rx`
being the bytes that can be read from its descriptor. -/
def server_handle_client (os : os_t) (s : server_t) (conn : Option Nat) (rx : bytes) :
    Option (server_t × Int) :=
  match conn with
  | none => some (s, -EINVAL)
  | some i =>
    match s.connlist[i]? with
    | none => some (s, -EINVAL)
    | some k =>
      match recv_pkt rx with
      | none => none
      | some (r, payload, _) =>
        if r < 0 then some ((server_disconnect_client s (some i)).1, 0)
        else server_dispatch os s i k r payload

/-! ## server_main.c: the main loop as a transition system -/

/-- The server after server_init and the option `-n` (if given). -/
def server_start (n : Option Int) : Option server_t :=
  match n with
  | none => some server_init
  | some m => set_maxjobs server_init m

/-- What one round of the main loop can be given: a connection accepted on a
descriptor, a frame readable on the connection at position `i`, or a child
reported by wait4. -/
inductive step where
  | accept (fd : Int)
  | request (os : os_t) (i : Nat) (rx : bytes)
  | child (os : os_t) (pid : Int) (status : wait_status) (ru : rusage)

/-- The effect of one step; `none` where the main loop does not take the step
(accept failed, the descriptor is not positive, wait4 reported nothing) or the
server ends. -/
def run_step (s : server_t) : step → Option server_t
  | step.accept fd => if 0 ≤ fd then some (server_register_conn s fd).1 else none
  | step.request os i rx =>
    match s.connlist[i]? with
    | none => none
    | some conn =>
      if conn.fd > 0 then (server_handle_client os s (some i) rx).map Prod.fst else none
  | step.child os pid status ru => handle_all_signals os s true [(pid, status, ru)]

/-- A wait status that is stopped, continued, signalled or exited. -/
def is_wait_status (w : wait_status) : Prop :=
  w.WIFSTOPPED = true ∨ w.WIFCONTINUED = true ∨ w.WIFSIGNALED = true ∨ w.WIFEXITED = true

/-- The steps the operating system can present: a child is reported with a
positive pid and a wait status of one of the four kinds. -/
def os_step (_ : server_t) : step → Prop
  | step.child _ pid status _ => pid > 0 ∧ is_wait_status status
  | _ => True

/-- The states the server reaches from its start by steps allowed by `ok`. -/
inductive reach (ok : server_t → step → Prop) : server_t → Prop where
  | start (n : Option Int) (s : server_t) : server_start n = some s → reach ok s
  | next (s s1 : server_t) (st : step) :
      reach ok s → ok s st → run_step s st = some s1 → reach ok s1

/-- The reachable states of the server. -/
def reachable (s : server_t) : Prop := reach os_step s

/-! ## Auxiliary definitions used by the statements -/

/-- The job record after a launch by exec_job with child pid `ppid`. -/
def launched (j : job_t) (ppid : Int) : job_t :=
  if j.status = NEW ∨ j.status = SUSPENDED then
    { j with pgid := to_u32 ppid, status := RUNNING }
  else { j with pgid := to_u32 ppid }

/-- The two states have the same tables: only numjobs, the job records, the fork
count and the trace may differ. -/
def same_tables (s s1 : server_t) : Prop :=
  s1.maxjobs = s.maxjobs ∧ s1.clientlist = s.clientlist ∧ s1.connlist = s.connlist ∧
  s1.joblist = s.joblist ∧ s1.clientmem = s.clientmem ∧ s1.next_client = s.next_client ∧
  s1.next_job = s.next_job

/-- The job record JOB_SUBMIT creates for the submission `sub` of client `c`,
as it is when exec_job is called. -/
def submitted_job (os : os_t) (s : server_t) (c : Nat) (sub : submission_t) : job_t :=
  { job_zero with
    ui := { input := cstr sub.cmdline,
            commands := [{ command := cstr sub.cmdline,
                           components := components_loop ((cstr sub.cmdline).length + 1)
                             (cstr sub.cmdline) }] },
    owner := some c, jobid := to_u32 (s.clientmem c).numjobs,
    maxmem := sub.maxmem, maxcpu := sub.maxcpu, priority := sub.priority,
    envpc := sub.envpc, envp := (sub.envp.map some).map (fun _ => none),
    stdoutfile := some (outfile (s.clientmem c).name os.tv [46, 111, 117, 116]),
    stderrfile := some (outfile (s.clientmem c).name os.tv [46, 101, 114, 114]) }

/-- The state of JOB_SUBMIT after jobs_insert and the FREE loop, before the
reply and exec_job. -/
def submitted (os : os_t) (s : server_t) (c : Nat) (sub : submission_t) : server_t :=
  { s with
    jobmem := upd s.jobmem s.next_job (submitted_job os s c sub),
    next_job := s.next_job + 1,
    clientmem := upd s.clientmem c
      { s.clientmem c with jobs := (s.clientmem c).jobs ++ [s.next_job],
                           numjobs := (s.clientmem c).numjobs + 1 },
    joblist := s.joblist ++ [s.next_job] }

instance : DecidablePred is_wait_status := fun w => by
  unfold is_wait_status; infer_instance

instance (s : server_t) : DecidablePred (os_step s) := fun st => by
  cases st <;> unfold os_step <;> infer_instance

/-- Run a list of steps, each one checked against `ok`. -/
def run_steps (ok : server_t → step → Prop) [∀ s, DecidablePred (ok s)] :
    server_t → List step → Option server_t
  | s, [] => some s
  | s, st :: rest =>
    if ok s st then
      match run_step s st with
      | none => none
      | some s1 => run_steps ok s1 rest
    else none

/-- Run a list of steps from the start of the server. -/
def run_from_start (ok : server_t → step → Prop) [∀ s, DecidablePred (ok s)]
    (n : Option Int) (l : List step) : Option server_t :=
  match server_start n with
  | none => none
  | some s => run_steps ok s l

/-- The number of jobs of the server's list whose status satisfies `p`. -/
def count_status (s : server_t) (p : Nat → Bool) : Nat :=
  s.joblist.countP (fun a => p (s.jobmem a).status)

/-- The second state is the first one with effects appended to the trace. -/
def trace_only (s s1 : server_t) : Prop :=
  ∃ t, s1 = { s with trace := s.trace ++ t }

/-- The state after server_login_client re-binds the record `cl`. -/
def rebound (s : server_t) (cl : Nat) : server_t :=
  { s with clientmem := upd s.clientmem cl { s.clientmem cl with connected := 1 } }

/-- The state after server_login_client creates a record for the name `nm`. -/
def created (s : server_t) (nm : bytes) : server_t :=
  { s with clientmem := upd s.clientmem s.next_client
             { client_zero with connected := 1, name := nm },
           next_client := s.next_client + 1,
           clientlist := s.next_client :: s.clientlist }

/-- The state after server_disconnect_client closes the connection `conn` at
position `i`, without the trace entry. -/
def disconnected (s : server_t) (i : Nat) (conn : conn_t) : server_t :=
  { s with
    clientmem := match conn.client with
      | some cl => upd s.clientmem cl { s.clientmem cl with connected := 0 }
      | none => s.clientmem,
    connlist := s.connlist.eraseIdx i }

/-- The state after jobs_remove unlinks `job` of client `c` from both lists,
without the trace entries. -/
def removed (s : server_t) (c : Nat) (job : Nat) : server_t :=
  { s with clientmem := upd s.clientmem c
             { s.clientmem c with jobs := (s.clientmem c).jobs.erase job },
           joblist := s.joblist.erase job }

/-! ## Concrete inputs used by the worked examples -/

/-- An operating system whose k-th fork returns pid 100 + k. -/
def os_demo : os_t :=
  { fork := fun k => 100 + (k : Int), tv := ⟨1, 2⟩, setpriority := 0, getpriority := 0,
    stat := 0, open_fd := 3, st_size := 0, mmap := some [], waitpid := fun _ => none }

/-- The frame LOGIN "a" as the client writes it. -/
def frame_login_a : bytes := [3, 2, 0, 0, 0, 97, 0]

/-- The frame LOGIN "b". -/
def frame_login_b : bytes := [3, 2, 0, 0, 0, 98, 0]

/-- The frame JOB_SUBMIT with limits 1 and 1, priority 0, command "x" and no
environment. -/
def frame_submit_x : bytes :=
  [4, 1, 0, 0, 0, 1, 0, 0, 0, 0, 0, 0, 0, 1, 0, 0, 0, 120, 0, 0, 0, 0]

/-- Wait statuses of the four kinds. -/
def ws_stopped : wait_status := ⟨true, false, false, false, 0, 0⟩
def ws_continued : wait_status := ⟨false, true, false, false, 0, 0⟩
def ws_killed : wait_status := ⟨false, false, true, false, 9, 0⟩
def ws_exited : wait_status := ⟨false, false, false, true, 0, 0⟩

/-- A zeroed rusage. -/
def ru_zero : rusage := ⟨⟨0, 0⟩, ⟨0, 0⟩, 0, []⟩

/-- Steps of the operating system in which no child is reported as continued. -/
def no_continue (s : server_t) (st : step) : Prop :=
  os_step s st ∧
  match st with
  | step.child _ _ status _ => status.WIFSTOPPED = true ∨ status.WIFCONTINUED = false
  | _ => True

instance (s : server_t) : DecidablePred (no_continue s) := fun st => by
  cases st <;> unfold no_continue <;> infer_instance

/-- With one slot: a job is started, a second one queued, the first one is
stopped (the second is started) and then continued. -/
def trace_C1 : List step :=
  [step.accept 4, step.request os_demo 0 frame_login_a,
   step.request os_demo 0 frame_submit_x, step.request os_demo 0 frame_submit_x,
   step.child os_demo 100 ws_stopped ru_zero, step.child os_demo 100 ws_continued ru_zero]

/-- Two jobs submitted with one slot, the first one exits. -/
def trace_S1 : List step :=
  [step.accept 4, step.request os_demo 0 frame_login_a,
   step.request os_demo 0 frame_submit_x, step.request os_demo 0 frame_submit_x,
   step.child os_demo 100 ws_exited ru_zero]

/-- The state after two submissions with one slot and the exit of the first job:
job 0 is EXITED, job 1 is RUNNING. -/
def state_S1 : server_t :=
  (run_from_start no_continue (some 1) trace_S1).getD server_init

/-- The steps accept, LOGIN "a" and one JOB_SUBMIT. -/
def trace_one_running : List step :=
  [step.accept 4, step.request os_demo 0 frame_login_a,
   step.request os_demo 0 frame_submit_x]

/-- The state after one submission: job 0 of client "a" is RUNNING with pgid
100. -/
def state_one_running : server_t :=
  (run_from_start os_step (some 1) trace_one_running).getD server_init

/-- An operating system whose waitpid reports every child as exited with
status 0. -/
def os_wait_exited : os_t := { os_demo with waitpid := fun _ => some ws_exited }

/-! ## The registry as a transition system -/

/-- A call on the registry: jobs_insert of a job just made by jobs_create for
the client `c`, or jobs_remove of the job at address `job` for the client `c`. -/
inductive reg_op where
  | insert (os : os_t) (c : Nat) (ui : user_input_t)
  | remove (c : Nat) (job : Nat)

/-- The effect of one registry call; `none` where jobs_remove ends the server. -/
def reg_step (s : server_t) : reg_op → Option server_t
  | reg_op.insert os c ui =>
    some (jobs_insert os (jobs_create s (some ui)).1 (some c) (jobs_create s (some ui)).2).1
  | reg_op.remove c job => (jobs_remove s (some c) (some job)).map Prod.fst

/-- Run a sequence of registry calls. -/
def reg_run : server_t → List reg_op → Option server_t
  | s, [] => some s
  | s, op :: rest =>
    match reg_step s op with
    | none => none
    | some s1 => reg_run s1 rest

/-- The number of jobs_insert calls for the client `c` in a sequence. -/
def inserts (c : Nat) : List reg_op → Nat
  | [] => 0
  | reg_op.insert _ c1 _ :: rest => (if c1 = c then 1 else 0) + inserts c rest
  | reg_op.remove _ _ :: rest => inserts c rest

/-- The jobids of the jobs in the list of client `c`, in list order. -/
def jobids (s : server_t) (c : Nat) : List Nat :=
  (s.clientmem c).jobs.map (fun a => (s.jobmem a).jobid)

/-- A parsed command line "x". -/
def ui_x : user_input_t := ⟨[120], [⟨[120], [[120]]⟩]⟩

/-- Three inserts for client 0 with the removal of the first job in between. -/
def ops_demo : List reg_op :=
  [reg_op.insert os_demo 0 ui_x, reg_op.insert os_demo 0 ui_x, reg_op.remove 0 0,
   reg_op.insert os_demo 0 ui_x]

/-- The job record after jobs_create and jobs_insert for the client `c`. -/
def inserted_job (os : os_t) (s : server_t) (c : Nat) (ui : user_input_t) : job_t :=
  { job_zero with
    ui := ui, owner := some c, jobid := to_u32 (s.clientmem c).numjobs,
    stdoutfile := some (outfile (s.clientmem c).name os.tv [46, 111, 117, 116]),
    stderrfile := some (outfile (s.clientmem c).name os.tv [46, 101, 114, 114]) }

/-- The state after jobs_create and jobs_insert for the client `c`. -/
def inserted (os : os_t) (s : server_t) (c : Nat) (ui : user_input_t) : server_t :=
  { s with
    jobmem := upd s.jobmem s.next_job (inserted_job os s c ui),
    next_job := s.next_job + 1,
    clientmem := upd s.clientmem c
      { s.clientmem c with jobs := (s.clientmem c).jobs ++ [s.next_job],
                           numjobs := (s.clientmem c).numjobs + 1 },
    joblist := s.joblist ++ [s.next_job] }

/-- The invariant of the id counter of client `c` after `n` inserts: the counter
is `n`, every job of the list is allocated and has a jobid below `n`, and the
jobids are pairwise different. -/
def ids_inv (s : server_t) (c : Nat) (n : Nat) : Prop :=
  (s.clientmem c).numjobs = (n : Int) ∧
  (∀ a ∈ (s.clientmem c).jobs, a < s.next_job ∧ (s.jobmem a).jobid < n) ∧
  (jobids s c).Nodup

/-- The registry after the calls of ops_demo on the initial server. -/
def state_ops_demo : server_t := (reg_run server_init ops_demo).getD server_init

/-- The two states have the same client and connection tables, and every client
record has the same name and connected flag. -/
def same_clients (s s1 : server_t) : Prop :=
  s1.clientlist = s.clientlist ∧ s1.connlist = s.connlist ∧
  s1.next_client = s.next_client ∧
  ∀ a, (s1.clientmem a).name = (s.clientmem a).name ∧
       (s1.clientmem a).connected = (s.clientmem a).connected

/-- Well-formed client and connection tables: the names of the records in the
client list are pairwise different, not empty and free of NUL; the records are
allocated; a connection with a bound client has a positive descriptor, its client
is in the client list and is marked connected; no two connections are bound to
the same client. -/
def wf_clients (s : server_t) : Prop :=
  (s.clientlist.map (fun a => (s.clientmem a).name)).Nodup ∧
  (∀ a ∈ s.clientlist, a < s.next_client ∧ (s.clientmem a).name ≠ [] ∧
    cstr (s.clientmem a).name = (s.clientmem a).name) ∧
  (∀ conn ∈ s.connlist, ∀ c, conn.client = some c →
    conn.fd > 0 ∧ c ∈ s.clientlist ∧ (s.clientmem c).connected = 1) ∧
  (s.connlist.filterMap (fun k => k.client)).Nodup

/-- A listing record whose fields fit their C types, whose command buffer has
the length cmdlen, and cmdlen is not 0. -/
def listing_wf (l : listing_t) : Prop :=
  l.jobid < 4294967296 ∧ l.left < 4294967296 ∧ l.cmdlen < 4294967296 ∧ 0 < l.cmdlen ∧
  l.cmdline.length = l.cmdlen ∧ l.status < 4294967296 ∧
  -2147483648 ≤ l.exitcode ∧ l.exitcode < 2147483648

/-- A chain of listing records in which exactly the last record has left = 0. -/
def chain_ok : List listing_t → Prop
  | [] => False
  | [l] => l.left = 0
  | l :: l1 :: ls => l.left > 0 ∧ chain_ok (l1 :: ls)

/-- The frame JOB_SIGNAL for jobid 0 with signal 9. -/
def frame_signal_0_9 : bytes := [6, 0, 0, 0, 0, 9, 0, 0, 0]

/-- The jobs of the list `l` that are NEW in the state `s`, in list order. -/
def new_jobs (s : server_t) (l : List Nat) : List Nat :=
  l.filter (fun a => (s.jobmem a).status = NEW)

/-- The number of NEW jobs the backfill loop starts on the list `l`: all of
them, or as many as there are free slots. -/
def backfill_count (s : server_t) (l : List Nat) : Nat :=
  min (new_jobs s l).length (s.maxjobs - s.numjobs).toNat

/-- The state after exec_job has started the job `j`, `t` being the frames it
sent after the fork. -/
def launch_state (os : os_t) (s : server_t) (j : Nat) (t : List effect) : server_t :=
  { s with numjobs := s.numjobs + 1, nfork := s.nfork + 1,
           jobmem := upd s.jobmem j (launched (s.jobmem j) (os.fork s.nfork)),
           trace := s.trace ++ effect.fork (os.fork s.nfork) :: t }

/-- The state of the reaper when the backfill loop starts: job `j` has its new
status and numjobs has been decremented. -/
def before_backfill (s : server_t) (j : Nat) (status : wait_status) (ru : rusage) :
    server_t :=
  { reaped s j status ru with numjobs := s.numjobs - 1 }

/-- The state after two submissions with one slot: job 0 is RUNNING with pgid
100 and job 1 is NEW. -/
def state_two_submitted : server_t :=
  (run_from_start os_step (some 1) (trace_S1.take 4)).getD server_init

/-- The number of RUNNING jobs in the server's list. -/
def running (s : server_t) : Nat :=
  count_status s (fun st => decide (st = RUNNING))

/-- The server's job list has no repetition and holds allocated records only. -/
def wf_jobs (s : server_t) : Prop :=
  s.joblist.Nodup ∧ ∀ a ∈ s.joblist, a < s.next_job

/-- The reported child changes whether its job is RUNNING: a report that makes
the job found for the pid RUNNING (continued) comes for a job that is not
RUNNING, and a report that makes it SUSPENDED, EXITED or ABORTED comes for a
RUNNING job. Holds when no job is found. -/
def flips_running (s : server_t) (pid : Int) (status : wait_status) : Bool :=
  match jobs_lookup_by_pid s s.joblist pid with
  | none => true
  | some j =>
    if (job_update_status (s.jobmem j) status).status = RUNNING then
      decide ((s.jobmem j).status ≠ RUNNING)
    else decide ((s.jobmem j).status = RUNNING)

/-- The frame readable on the connection at position `i` is a JOB_EXPUNGE of a
job of the bound client that is RUNNING. -/
def expunges_running (s : server_t) (i : Nat) (rx : bytes) : Bool :=
  match s.connlist[i]?, recv_pkt rx with
  | some conn, some (r, payload_t.jobid id, _) =>
    if r = JOB_EXPUNGE then
      match jobs_lookup_by_jobid s conn.client id with
      | some j => decide ((s.jobmem j).status = RUNNING)
      | none => false
    else false
  | _, _ => false

/-- Steps of the operating system and the clients in which every reported child
changes whether its job is RUNNING and no RUNNING job is expunged. -/
def lifecycle_step (s : server_t) (st : step) : Prop :=
  os_step s st ∧
  match st with
  | step.child _ pid status _ => flips_running s pid status = true
  | step.request _ i rx => expunges_running s i rx = false
  | step.accept _ => True

instance (s : server_t) : DecidablePred (lifecycle_step s) := fun st => by
  cases st <;> unfold lifecycle_step <;> infer_instance

/-- One job is started and then stopped. -/
def trace_stopped : List step :=
  trace_one_running ++ [step.child os_demo 100 ws_stopped ru_zero]

/-- The state after one job is started and then stopped. -/
def state_stopped : server_t :=
  (run_from_start lifecycle_step (some 1) trace_stopped).getD server_init

/-- The frames exec_job sends when it starts the job `job` for the client `c`:
one JOB_UPDATE(jobid, RUNNING) on the first connection bound to `c`, none if no
connection is bound to `c`. -/
def update_frames (s : server_t) (c job : Nat) : List effect :=
  match conn_find_by_client s (some c) with
  | some conn =>
    [effect.send conn.fd JOB_UPDATE (payload_t.update ⟨(s.jobmem job).jobid, RUNNING⟩)]
  | none => []

/-- The steps accept, LOGIN "a", LOGIN "b" on the same connection, and a second
accept. -/
def trace_locked_out : List step :=
  [step.accept 4, step.request os_demo 0 frame_login_a,
   step.request os_demo 0 frame_login_b, step.accept 5]

/-- The state after LOGIN "a" and LOGIN "b" on one connection and the accept of
a second connection. -/
def state_locked_out : server_t :=
  (run_from_start os_step (some 1) trace_locked_out).getD server_init

/-- The state after one accept: one connection without a client. -/
def state_accepted : server_t :=
  (run_from_start os_step (some 1) [step.accept 4]).getD server_init

/-- The frame types that ask for something about jobs. -/
def job_request (r : Int) : Prop :=
  r = JOB_SUBMIT ∨ r = JOB_STATUS ∨ r = JOB_LIST_ALL ∨ r = JOB_SIGNAL ∨ r = JOB_SET_PRI ∨
  r = JOB_EXPUNGE ∨ r = JOB_GET_STDOUT ∨ r = JOB_GET_STDERR

instance (r : Int) : Decidable (job_request r) := by
  unfold job_request; infer_instance

/-- The frame JOB_STATUS for jobid 7. -/
def frame_status_7 : bytes := [5, 7, 0, 0, 0]

/-- The frames the guarded send of the dispatcher writes. -/
def reply_frames (s : server_t) (conn : conn_t) (packet_type : Nat) (payload : payload_t) :
    List effect :=
  match conn.client with
  | none => []
  | some c =>
    if (s.clientmem c).connected ≠ 0 then [effect.send conn.fd packet_type payload] else []

/-- The unlink calls of free_job on a job record. -/
def unlinks (j : job_t) : List effect :=
  (match j.stdoutfile with
   | some f => [effect.unlink f]
   | none => []) ++
  (match j.stderrfile with
   | some f => [effect.unlink f]
   | none => [])

/-- The killpg call of the case JOB_EXPUNGE on a job record. -/
def expunge_kill (j : job_t) : List effect :=
  if j.status = RUNNING ∨ j.status = SUSPENDED then [effect.killpg j.pgid SIGKILL] else []

/-- The state of the case JOB_EXPUNGE before jobs_remove: the ACK and the killpg
call are in the trace. -/
def expunge_sent (s : server_t) (conn : conn_t) (j : Nat) : server_t :=
  { s with
    trace := s.trace ++ reply_frames s conn ACK payload_t.null ++ expunge_kill (s.jobmem j) }

/-- Scenario S1 before the first job ends: one slot, taken; the server's list
holds the jobs `j0` (jobid 0, RUNNING, process group `pid`) and `j1` (jobid 1,
NEW, with a parsed command) of the connected client `a`, whose connection is
`conn`; the next fork succeeds. -/
def scenario_S1 (os : os_t) (s : server_t) (a : Nat) (conn : conn_t) (j0 j1 : Nat)
    (pid : Int) : Prop :=
  s.maxjobs = 1 ∧ s.numjobs = 1 ∧ s.joblist = [j0, j1] ∧ j0 ≠ j1 ∧
  (s.clientmem a).connected ≠ 0 ∧ conn_find_by_client s (some a) = some conn ∧
  (s.jobmem j0).owner = some a ∧ (s.jobmem j0).jobid = 0 ∧
  (s.jobmem j0).status = RUNNING ∧ ((s.jobmem j0).pgid : Int) = pid ∧
  (s.jobmem j1).owner = some a ∧ (s.jobmem j1).jobid = 1 ∧
  (s.jobmem j1).status = NEW ∧ (s.jobmem j1).ui.commands ≠ [] ∧
  0 < os.fork s.nfork

instance (os : os_t) (s : server_t) (a : Nat) (conn : conn_t) (j0 j1 : Nat) (pid : Int) :
    Decidable (scenario_S1 os s a conn j0 j1 pid) := by
  unfold scenario_S1; infer_instance

/-- A wait status of a child that has exited. -/
def exited (w : wait_status) : Prop :=
  w.WIFSTOPPED = false ∧ w.WIFCONTINUED = false ∧ w.WIFSIGNALED = false ∧ w.WIFEXITED = true

instance (w : wait_status) : Decidable (exited w) := by
  unfold exited; infer_instance

/-- The state after one accept and LOGIN "a". -/
def state_logged_in : server_t :=
  (run_from_start os_step (some 1)
    [step.accept 4, step.request os_demo 0 frame_login_a]).getD server_init

/-- The frame JOB_SUBMIT with limits 1 and 1, priority 0, command "x" and the
one environment string "A=1". -/
def frame_submit_env : bytes :=
  [4, 1, 0, 0, 0, 1, 0, 0, 0, 0, 0, 0, 0, 1, 0, 0, 0, 120, 1, 0, 0, 0, 3, 0, 0, 0, 65, 61, 49]

/-- The frame JOB_EXPUNGE for jobid 0. -/
def frame_expunge_0 : bytes := [11, 0, 0, 0, 0]

/-- The frame JOB_SIGNAL for jobid 1 with signal 9. -/
def frame_signal_1_9 : bytes := [6, 1, 0, 0, 0, 9, 0, 0, 0]

/-- The frame JOB_SET_PRI for jobid 1 with priority 5. -/
def frame_set_pri_1_5 : bytes := [7, 1, 0, 0, 0, 5, 0, 0, 0]

/-- One job is started with one slot, expunged, its process group is reported
killed, and a second job is submitted. -/
def trace_expunged : List step :=
  trace_one_running ++
  [step.request os_demo 0 frame_expunge_0, step.child os_demo 100 ws_killed ru_zero,
   step.request os_demo 0 frame_submit_x]

/-- The state after trace_expunged. -/
def state_expunged : server_t :=
  (run_from_start os_step (some 1) trace_expunged).getD server_init

/-- One job is started with one slot, stopped, and then killed; two more jobs
are submitted. -/
def trace_stopped_killed : List step :=
  trace_one_running ++
  [step.child os_demo 100 ws_stopped ru_zero, step.child os_demo 100 ws_killed ru_zero,
   step.request os_demo 0 frame_submit_x, step.request os_demo 0 frame_submit_x]

/-- The state after the first `n` steps of trace_stopped_killed. -/
def state_stopped_killed (n : Nat) : server_t :=
  (run_from_start os_step (some 1) (trace_stopped_killed.take n)).getD server_init

/-! ## client.c: the status display -/

/-- The macro timeradd of sys/time.h. -/
def timeradd (a b : timeval) : timeval :=
  if a.tv_usec + b.tv_usec ≥ 1000000 then
    ⟨a.tv_sec + b.tv_sec + 1, a.tv_usec + b.tv_usec - 1000000⟩
  else ⟨a.tv_sec + b.tv_sec, a.tv_usec + b.tv_usec⟩

/-- The value `result_tv` client_get_status (client.c) computes from a received
JOB_STATUS_RESP. -/
def client_get_status_result_tv (s : status_t) : timeval :=
  timeradd s.ru.ru_stime s.ru.ru_stime

/-- The text client_get_status prints for the cpu time, `%ld.%ld` of result_tv,
when the status is EXITED, ABORTED or SUSPENDED; `none` when it prints none. -/
def client_get_status_cputime (s : status_t) : Option bytes :=
  if s.status = EXITED ∨ s.status = ABORTED ∨ s.status = SUSPENDED then
    some (decimal (client_get_status_result_tv s).tv_sec ++ [46] ++
      decimal (client_get_status_result_tv s).tv_usec)
  else none

/-- A status of an EXITED job with 1.5 s of user time and 2.6 s of system time. -/
def status_demo : status_t :=
  { status := EXITED, exitcode := 0, maxcpu := 10, maxmem := 10, priority := 0,
    ru := ⟨⟨1, 500000⟩, ⟨2, 600000⟩, 0, []⟩ }

/-- A client name of 253 bytes. -/
def long_name : bytes := List.replicate 253 97

/-- The frame LOGIN with the name of 253 bytes. -/
def frame_login_long : bytes := [3, 254, 0, 0, 0] ++ long_name ++ [0]

/-- The state after accept, LOGIN with the name of 253 bytes and one
JOB_SUBMIT. -/
def state_long_name : server_t :=
  (run_from_start os_step (some 1)
    [step.accept 4, step.request os_demo 0 frame_login_long,
     step.request os_demo 0 frame_submit_x]).getD server_init

/-- The components the specification asks for: the pieces between delimiters,
the empty ones left out, in left-to-right order. These are the maximal non-empty
runs of bytes that are not delimiters. -/
def words_spec (s : bytes) : List bytes :=
  (s.splitOnP is_delim).filter (fun w => decide (w ≠ []))

/-- The condition under which a registry call is made: jobs_remove is called
with a job that is in the list of the given client. -/
def reg_guard (s : server_t) : reg_op → Prop
  | reg_op.insert _ _ _ => True
  | reg_op.remove c job => job ∈ (s.clientmem c).jobs

instance (s : server_t) : DecidablePred (reg_guard s) := fun op => by
  cases op <;> unfold reg_guard <;> infer_instance

/-- Run a sequence of registry calls, each under its condition. -/
def reg_run_guarded : server_t → List reg_op → Option server_t
  | s, [] => some s
  | s, op :: rest =>
    if reg_guard s op then
      match reg_step s op with
      | none => none
      | some s1 => reg_run_guarded s1 rest
    else none

/-- The jobs of the server's list whose owner field is the client `c`, in the
order of the server's list. -/
def owned_by (s : server_t) (c : Nat) : List Nat :=
  s.joblist.filter (fun j => decide ((s.jobmem j).owner = some c))

/-- The invariant of the registry: the server's list is in increasing order of
address (a record's address is the number of records created before it, so this
is the order of insertion), holds allocated records that have an owner, and the
list of every client is the part of the server's list that client owns. -/
def reg_inv (s : server_t) : Prop :=
  s.joblist.Pairwise (fun a b => a < b) ∧
  (∀ j ∈ s.joblist, j < s.next_job ∧ (s.jobmem j).owner ≠ none) ∧
  ∀ c, (s.clientmem c).jobs = owned_by s c

/-- The frame types that name a job by its jobid. -/
def names_job (r : Int) : Prop :=
  r = JOB_STATUS ∨ r = JOB_SIGNAL ∨ r = JOB_SET_PRI ∨ r = JOB_EXPUNGE ∨
  r = JOB_GET_STDOUT ∨ r = JOB_GET_STDERR

instance (r : Int) : Decidable (names_job r) := by
  unfold names_job; infer_instance

/-- The effect `e` is a frame on the connection `conn` or acts on the job `tgt`:
a status sent is the status of `tgt`, a process group signalled or
re-prioritised is the pgid field of `tgt`, a file unlinked is an output file of
`tgt`. -/
def effect_on (s : server_t) (conn : conn_t) (tgt : Option Nat) : effect → Prop
  | effect.send fd _ p =>
    fd = conn.fd ∧
    ∀ st, p = payload_t.status st →
      ∃ j, tgt = some j ∧ st.status = (s.jobmem j).status ∧
        st.exitcode = to_i32 (s.jobmem j).exitcode ∧ st.ru = (s.jobmem j).ru
  | effect.killpg pgid _ => ∃ j, tgt = some j ∧ pgid = (s.jobmem j).pgid
  | effect.setpriority pgid _ => ∃ j, tgt = some j ∧ pgid = (s.jobmem j).pgid
  | effect.unlink f =>
    ∃ j, tgt = some j ∧ ((s.jobmem j).stdoutfile = some f ∨ (s.jobmem j).stderrfile = some f)
  | effect.fork _ => False
  | effect.close _ => False

/-! ## The wire format of the specification -/

/-- A u32 field on the wire. -/
def wire_u32 (n : Nat) : bytes := le_bytes 4 n

/-- An i32 field on the wire. -/
def wire_i32 (x : Int) : bytes := le_bytes 4 (to_u32 x)

/-- One environment string on the wire: u32 len, bytes var. -/
def wire_env (e : bytes) : bytes := wire_u32 e.length ++ e

/-- One listing record on the wire: u32 jobid, u32 left, u32 cmdlen, bytes cmd,
u32 status, i32 exit. -/
def wire_record (r : listing_t) : bytes :=
  wire_u32 r.jobid ++ wire_u32 r.left ++ wire_u32 r.cmdlen ++ r.cmdline ++
  wire_u32 r.status ++ wire_i32 r.exitcode

/-- The encoding of a frame as the table of frame types of the specification
gives it: the one-byte tag, then the fields of the payload in order. A name goes
with its trailing NUL; the rusage block is the 4 bytes of padding and the image
of the host struct. -/
def wire_spec (t : Nat) : payload_t → bytes
  | payload_t.null => [t]
  | payload_t.name n => t :: (wire_u32 (n.length + 1) ++ (n ++ [0]))
  | payload_t.update u => t :: (wire_u32 u.jobid ++ wire_u32 u.status)
  | payload_t.submission s =>
    t :: (wire_u32 s.maxcpu ++ wire_u32 s.maxmem ++ wire_i32 s.priority ++
      wire_u32 s.cmdlen ++ s.cmdline ++ wire_u32 s.envpc ++ (s.envp.map wire_env).flatten)
  | payload_t.jobid id => t :: wire_u32 id
  | payload_t.status st =>
    t :: (wire_u32 st.status ++ wire_i32 st.exitcode ++ wire_u32 st.maxcpu ++
      wire_u32 st.maxmem ++ wire_i32 st.priority ++ [0, 0, 0, 0] ++ rusage_bytes st.ru)
  | payload_t.listing l => t :: (l.map wire_record).flatten
  | payload_t.priority p => t :: (wire_u32 p.jobid ++ wire_i32 p.priority)
  | payload_t.signal s => t :: (wire_u32 s.jobid ++ wire_u32 s.signal)
  | payload_t.results r => t :: (wire_u32 r.length ++ r.results)

/-- The value fits an int. -/
def fits_i32 (x : Int) : Prop := -2147483648 ≤ x ∧ x < 2147483648

/-- The value fits a long. -/
def fits_i64 (x : Int) : Prop := -9223372036854775808 ≤ x ∧ x < 9223372036854775808

/-- The rusage has values that fit its fields. -/
def rusage_wf (ru : rusage) : Prop :=
  fits_i64 ru.ru_utime.tv_sec ∧ fits_i64 ru.ru_utime.tv_usec ∧
  fits_i64 ru.ru_stime.tv_sec ∧ fits_i64 ru.ru_stime.tv_usec ∧
  fits_i64 ru.ru_maxrss ∧ ru.ru_rest.length = 104

/-- A frame whose tag goes with its payload, whose integer fields fit their
types, whose length fields are the lengths of its byte strings, whose byte
strings are all non-empty, whose names and environment strings have no NUL
byte, and whose listing chain counts down to left = 0. -/
def valid_frame (t : Nat) : payload_t → Prop
  | payload_t.null => t = ACK ∨ t = NACK ∨ t = JOB_LIST_ALL
  | payload_t.name n => t = LOGIN ∧ 0 ∉ n ∧ n.length + 1 < 2147483648
  | payload_t.update u => t = JOB_UPDATE ∧ u.jobid < 4294967296 ∧ u.status < 4294967296
  | payload_t.submission s =>
    t = JOB_SUBMIT ∧ s.maxcpu < 4294967296 ∧ s.maxmem < 4294967296 ∧ fits_i32 s.priority ∧
    s.cmdline.length = s.cmdlen ∧ 0 < s.cmdlen ∧ s.cmdlen < 4294967295 ∧
    s.envp.length = s.envpc ∧ s.envpc < 4294967295 ∧
    ∀ e ∈ s.envp, 0 ∉ e ∧ e ≠ [] ∧ e.length < 2147483648
  | payload_t.jobid id =>
    (t = JOB_SUBMIT_SUCCESS ∨ t = JOB_STATUS ∨ t = JOB_EXPUNGE ∨ t = JOB_GET_STDOUT ∨
      t = JOB_GET_STDERR) ∧ id < 4294967296
  | payload_t.status st =>
    t = JOB_STATUS_RESP ∧ st.status < 4294967296 ∧ fits_i32 st.exitcode ∧
    st.maxcpu < 4294967296 ∧ st.maxmem < 4294967296 ∧ fits_i32 st.priority ∧ rusage_wf st.ru
  | payload_t.listing l => t = JOB_LIST_ALL_RESP ∧ chain_ok l ∧ ∀ r ∈ l, listing_wf r
  | payload_t.priority p => t = JOB_SET_PRI ∧ p.jobid < 4294967296 ∧ fits_i32 p.priority
  | payload_t.signal s => t = JOB_SIGNAL ∧ s.jobid < 4294967296 ∧ s.signal < 4294967296
  | payload_t.results r =>
    t = JOB_RESULTS ∧ r.results.length = r.length ∧ 0 < r.length ∧ r.length < 4294967295

/-- The job record after the `if(WIFEXITED) ... else if(WIFSIGNALED) ...` of
wait_for_all on the wait status `w`. -/
def waited (j : job_t) (w : wait_status) : job_t :=
  if w.WIFEXITED then { j with status := EXITED, exitcode := w.WEXITSTATUS }
  else if w.WIFSIGNALED then { j with status := ABORTED, exitcode := w.WTERMSIG }
  else j

/-- The state in which the backfill loop calls exec_job for job 1 in scenario
S1: job 0 has been reaped as EXITED, numjobs is 0 with one slot, job 1 is NEW and
its owner "a" is bound to the connection with descriptor 4. -/
def state_backfilling : server_t := before_backfill state_two_submitted 0 ws_exited ru_zero

/-- An operating system that hands out the pid 100 at every fork: the pid of a
child that has been reaped is free and is given to the next child. -/
def os_pid_reused : os_t := { os_demo with fork := fun _ => 100 }

/-- The frame JOB_SET_PRI for jobid 0 with priority 5. -/
def frame_set_pri_0_5 : bytes := [7, 0, 0, 0, 0, 5, 0, 0, 0]

/-- Client "a" submits a job that gets the pid 100 and exits; client "b" logs in
on a second connection and submits a job that gets the pid 100 again. -/
def trace_pid_reused : List step :=
  [step.accept 4, step.request os_pid_reused 0 frame_login_a,
   step.request os_pid_reused 0 frame_submit_x,
   step.child os_pid_reused 100 ws_exited ru_zero,
   step.accept 5, step.request os_pid_reused 0 frame_login_b,
   step.request os_pid_reused 0 frame_submit_x]

/-- The state after trace_pid_reused with two slots: job 0 of "a" is EXITED, job
1 of "b" is RUNNING, both have the pgid 100 and the jobid 0. -/
def state_pid_reused : server_t :=
  (run_from_start os_step (some 2) trace_pid_reused).getD server_init

/-! # Theorems -/

/-! ## Memory -/

@[simp] theorem upd_same {α : Type} (m : Nat → α) (a : Nat) (v : α) : upd m a v a = v := by
  simp [upd]

theorem upd_other {α : Type} (m : Nat → α) (a b : Nat) (v : α) (h : b ≠ a) :
    upd m a v b = m b := by
  simp [upd, h]

@[simp] theorem upd_upd {α : Type} (m : Nat → α) (a : Nat) (v w : α) :
    upd (upd m a v) a w = upd m a w := by
  funext b; simp only [upd]; split <;> rfl

theorem upd_apply {α : Type} (m : Nat → α) (a b : Nat) (v : α) :
    upd m a v b = if b = a then v else m b := rfl

theorem same_tables_refl (s : server_t) : same_tables s s := by
  simp [same_tables]

theorem same_tables_trans {s s1 s2 : server_t} (h1 : same_tables s s1)
    (h2 : same_tables s1 s2) : same_tables s s2 := by
  obtain ⟨a1, a2, a3, a4, a5, a6, a7⟩ := h1
  obtain ⟨b1, b2, b3, b4, b5, b6, b7⟩ := h2
  exact ⟨b1.trans a1, b2.trans a2, b3.trans a3, b4.trans a4, b5.trans a5, b6.trans a6,
    b7.trans a7⟩

/-! ## exec_job -/

theorem exec_job_cases (os : os_t) (s s1 : server_t) (c : Option Nat) (job : Nat) (r : Int)
    (h : exec_job os s c job = some (s1, r)) :
    s1 = s ∨ (s.numjobs < s.maxjobs ∧ 0 < os.fork s.nfork ∧ (s.jobmem job).ui.commands ≠ [] ∧
      c ≠ none ∧ r = 0 ∧
      ∃ t, s1 = { s with numjobs := s.numjobs + 1, nfork := s.nfork + 1,
                         jobmem := upd s.jobmem job (launched (s.jobmem job) (os.fork s.nfork)),
                         trace := s.trace ++ effect.fork (os.fork s.nfork) :: t }) := by
  cases c with
  | none => simp [exec_job] at h; exact Or.inl h.1.symm
  | some c =>
    by_cases hlt : s.numjobs < s.maxjobs
    · cases hcmd : (s.jobmem job).ui.commands with
      | nil => simp [exec_job, hlt, hcmd] at h; exact Or.inl h.1.symm
      | cons cmd cmds =>
        by_cases h1 : os.fork s.nfork < 0
        · simp [exec_job, hlt, hcmd, h1] at h
        · by_cases h2 : os.fork s.nfork = 0
          · simp [exec_job, hlt, hcmd, h1, h2] at h
          · right
            refine ⟨hlt, by omega, by simp, by simp, ?_⟩
            by_cases hst : (s.jobmem job).status = NEW ∨ (s.jobmem job).status = SUSPENDED
            · simp [exec_job, hlt, hcmd, h1, h2, run_in_background, emit, conn_find_by_client,
                hst] at h
              split at h
              · simp at h
                refine ⟨h.2.symm, [], ?_⟩
                rw [← h.1]; simp [launched, hst]
              · rename_i conn _
                simp at h
                refine ⟨h.2.symm, [effect.send conn.fd JOB_UPDATE
                  (payload_t.update ⟨(s.jobmem job).jobid, RUNNING⟩)], ?_⟩
                rw [← h.1]; simp [launched, hst]
            · simp [exec_job, hlt, hcmd, h1, h2, run_in_background, emit, conn_find_by_client,
                hst] at h
              split at h
              · simp at h
                refine ⟨h.2.symm, [], ?_⟩
                rw [← h.1]; simp [launched, hst]
              · rename_i conn _
                simp at h
                refine ⟨h.2.symm, [effect.send conn.fd JOB_UPDATE
                  (payload_t.update ⟨(s.jobmem job).jobid, (s.jobmem job).status⟩)], ?_⟩
                rw [← h.1]; simp [launched, hst]
    · simp [exec_job, hlt] at h; exact Or.inl h.1.symm

theorem exec_job_same_tables (os : os_t) (s s1 : server_t) (c : Option Nat) (job : Nat)
    (r : Int) (h : exec_job os s c job = some (s1, r)) : same_tables s s1 := by
  rcases exec_job_cases os s s1 c job r h with rfl | ⟨_, _, _, _, _, t, rfl⟩
  · exact same_tables_refl _
  · simp [same_tables]


/-! ## The backfill loop -/

theorem backfill_cons (os : os_t) (s s1 : server_t) (j : Nat) (rest : List Nat)
    (h : backfill os s (j :: rest) = some s1) :
    (¬ s.numjobs < s.maxjobs ∧ s1 = s) ∨
    (s.numjobs < s.maxjobs ∧ (s.jobmem j).status ≠ NEW ∧ backfill os s rest = some s1) ∨
    (s.numjobs < s.maxjobs ∧ (s.jobmem j).status = NEW ∧
      ∃ s2 r, exec_job os s (s.jobmem j).owner j = some (s2, r) ∧
        backfill os s2 rest = some s1) := by
  by_cases hlt : s.numjobs < s.maxjobs
  · by_cases hn : (s.jobmem j).status = NEW
    · right; right
      simp only [backfill, hlt, hn, if_true] at h
      split at h
      · simp at h
      · rename_i s2 r heq
        exact ⟨hlt, hn, s2, r, heq, h⟩
    · right; left
      simp only [backfill, hlt, hn, if_true, if_false] at h
      exact ⟨hlt, hn, h⟩
  · left
    simp only [backfill, hlt, if_false] at h
    simp at h
    exact ⟨hlt, h.symm⟩

theorem backfill_same_tables (os : os_t) : ∀ (l : List Nat) (s s1 : server_t),
    backfill os s l = some s1 → same_tables s s1 := by
  intro l
  induction l with
  | nil => intro s s1 h; simp [backfill] at h; subst h; exact same_tables_refl _
  | cons j rest ih =>
    intro s s1 h
    rcases backfill_cons os s s1 j rest h with ⟨_, rfl⟩ | ⟨_, _, h2⟩ | ⟨_, _, s2, r, he, h2⟩
    · exact same_tables_refl _
    · exact ih _ _ h2
    · exact same_tables_trans (exec_job_same_tables _ _ _ _ _ _ he) (ih _ _ h2)

theorem backfill_numjobs_le (os : os_t) : ∀ (l : List Nat) (s s1 : server_t),
    s.numjobs ≤ s.maxjobs → backfill os s l = some s1 → s1.numjobs ≤ s1.maxjobs := by
  intro l
  induction l with
  | nil => intro s s1 hle h; simp [backfill] at h; subst h; exact hle
  | cons j rest ih =>
    intro s s1 hle h
    rcases backfill_cons os s s1 j rest h with ⟨_, rfl⟩ | ⟨_, _, h2⟩ | ⟨_, _, s2, r, he, h2⟩
    · exact hle
    · exact ih _ _ hle h2
    · refine ih _ _ ?_ h2
      rcases exec_job_cases os s s2 _ j r he with rfl | ⟨hlt, _, _, _, _, t, rfl⟩
      · exact hle
      · simp only []; omega

/-! ## The reaper -/

theorem reap_cases (os : os_t) (s s1 : server_t) (pid : Int) (status : wait_status)
    (ru : rusage) (h : reap os s pid status ru = some s1) :
    (jobs_lookup_by_pid s s.joblist pid = none ∧ s1 = s) ∨
    ∃ j s3 t, jobs_lookup_by_pid s s.joblist pid = some j ∧
      s1 = { s3 with trace := s3.trace ++ t } ∧
      ((((reaped s j status ru).jobmem j).status = RUNNING ∧
          s3 = { reaped s j status ru with numjobs := s.numjobs + 1 }) ∨
       ((((reaped s j status ru).jobmem j).status = SUSPENDED ∨
          ((reaped s j status ru).jobmem j).status = EXITED ∨
          ((reaped s j status ru).jobmem j).status = ABORTED) ∧
          backfill os { reaped s j status ru with numjobs := s.numjobs - 1 } s.joblist
            = some s3) ∨
       (((reaped s j status ru).jobmem j).status ≠ RUNNING ∧
         ((reaped s j status ru).jobmem j).status ≠ SUSPENDED ∧
         ((reaped s j status ru).jobmem j).status ≠ EXITED ∧
         ((reaped s j status ru).jobmem j).status ≠ ABORTED ∧ s3 = reaped s j status ru)) := by
  unfold reap at h
  cases hl : jobs_lookup_by_pid s s.joblist pid with
  | none => left; simp [hl] at h; exact ⟨rfl, h.symm⟩
  | some j =>
    right
    simp only [hl] at h
    split at h
    · simp at h
    · rename_i s4 hs3
      have hfin : ∃ t, s1 = { s4 with trace := s4.trace ++ t } := by
        split at h
        · simp at h; exact ⟨[], by simp [← h]⟩
        · split at h
          · simp at h; exact ⟨[], by simp [← h]⟩
          · split at h
            · simp at h; exact ⟨_, by rw [← h]; simp [emit]; rfl⟩
            · simp at h; exact ⟨[], by simp [← h]⟩
      obtain ⟨t, ht⟩ := hfin
      refine ⟨j, s4, t, rfl, ht, ?_⟩
      split at hs3
      · rename_i hrun
        left; simp at hs3; exact ⟨hrun, hs3.symm⟩
      · rename_i hrun
        split at hs3
        · rename_i hst
          right; left; exact ⟨hst, hs3⟩
        · rename_i hst
          right; right
          simp at hs3
          simp only [not_or] at hst
          exact ⟨hrun, hst.1, hst.2.1, hst.2.2, hs3.symm⟩

/-! ## Steps that only extend the trace -/

theorem trace_only_refl (s : server_t) : trace_only s s := ⟨[], by simp⟩

theorem trace_only_trans {s s1 s2 : server_t} (h1 : trace_only s s1) (h2 : trace_only s1 s2) :
    trace_only s s2 := by
  obtain ⟨t1, rfl⟩ := h1
  obtain ⟨t2, rfl⟩ := h2
  exact ⟨t1 ++ t2, by simp⟩

theorem trace_only_emit (s : server_t) (e : effect) : trace_only s (emit s e) :=
  ⟨[e], rfl⟩

theorem trace_only_reply (s : server_t) (conn : conn_t) (t : Nat) (p : payload_t) :
    trace_only s (reply s conn t p) := by
  unfold reply
  split
  · exact trace_only_refl s
  · split
    · exact trace_only_emit _ _
    · exact trace_only_refl s

theorem trace_only_same_tables {s s1 : server_t} (h : trace_only s s1) : same_tables s s1 := by
  obtain ⟨t, rfl⟩ := h
  simp [same_tables]

theorem handle_status_trace_only (os : os_t) (s s1 : server_t) (conn : conn_t)
    (p : payload_t) (r : Int) (h : handle_status os s conn p = some (s1, r)) :
    trace_only s s1 := by
  unfold handle_status at h
  split at h
  · simp at h; rw [← h.1]; exact trace_only_refl s
  · split at h
    · split at h <;> (simp at h; rw [← h.1]; exact trace_only_reply _ _ _ _)
    · simp at h

theorem handle_list_all_trace_only (s s1 : server_t) (conn : conn_t) (r : Int)
    (h : handle_list_all s conn = some (s1, r)) : trace_only s s1 := by
  unfold handle_list_all at h
  split at h
  · simp at h; rw [← h.1]; exact trace_only_refl s
  · simp only [] at h
    split at h <;> (simp at h; rw [← h.1]; exact trace_only_reply _ _ _ _)

theorem handle_set_pri_trace_only (os : os_t) (s s1 : server_t) (conn : conn_t)
    (p : payload_t) (r : Int) (h : handle_set_pri os s conn p = some (s1, r)) :
    trace_only s s1 := by
  unfold handle_set_pri at h
  split at h
  · simp at h; rw [← h.1]; exact trace_only_refl s
  · split at h
    · split at h
      · simp at h; rw [← h.1]; exact trace_only_reply _ _ _ _
      · simp only [] at h
        split at h <;>
          (simp at h; rw [← h.1];
           exact trace_only_trans (trace_only_emit _ _) (trace_only_reply _ _ _ _))
    · simp at h

theorem handle_signal_trace_only (s s1 : server_t) (conn : conn_t)
    (p : payload_t) (r : Int) (h : handle_signal s conn p = some (s1, r)) :
    trace_only s s1 := by
  unfold handle_signal at h
  split at h
  · simp at h; rw [← h.1]; exact trace_only_refl s
  · split at h
    · split at h
      · simp at h; rw [← h.1]; exact trace_only_reply _ _ _ _
      · simp at h; rw [← h.1]
        exact trace_only_trans (trace_only_reply _ _ _ _) (trace_only_emit _ _)
    · simp at h

theorem handle_results_trace_only (os : os_t) (s s1 : server_t) (conn : conn_t)
    (p : payload_t) (r : Int) (h : handle_results os s conn p = some (s1, r)) :
    trace_only s s1 := by
  unfold handle_results at h
  split at h
  · simp at h; rw [← h.1]; exact trace_only_refl s
  · split at h
    · split at h
      · simp at h; rw [← h.1]; exact trace_only_reply _ _ _ _
      · split at h
        · simp at h; rw [← h.1]; exact trace_only_reply _ _ _ _
        · split at h
          · simp at h; rw [← h.1]; exact trace_only_reply _ _ _ _
          · split at h
            · simp at h; rw [← h.1]; exact trace_only_reply _ _ _ _
            · split at h
              · simp at h; rw [← h.1]; exact trace_only_reply _ _ _ _
              · split at h
                · simp at h
                · simp at h; rw [← h.1]; exact trace_only_reply _ _ _ _
    · simp at h

/-! ## Clients and connections -/

theorem server_login_client_cases (s : server_t) (name : Option bytes) :
    server_login_client s name = (s, none) ∨
    (∃ buf cl, name = some buf ∧ cstr buf ≠ [] ∧
      s.clientlist.find? (fun a => name_matches (s.clientmem a).name (cstr buf)) = some cl ∧
      (s.clientmem cl).connected ≠ 1 ∧
      server_login_client s name = (rebound s cl, some cl)) ∨
    (∃ buf, name = some buf ∧ cstr buf ≠ [] ∧
      s.clientlist.find? (fun a => name_matches (s.clientmem a).name (cstr buf)) = none ∧
      server_login_client s name = (created s (cstr buf), some s.next_client)) := by
  cases name with
  | none => left; rfl
  | some buf =>
    by_cases hl : (cstr buf).length > 0
    · have hne : cstr buf ≠ [] := by
        intro h0; rw [h0] at hl; simp at hl
      cases hf : s.clientlist.find? (fun a => name_matches (s.clientmem a).name (cstr buf)) with
      | none =>
        right; right
        exact ⟨buf, rfl, hne, hf, by simp [server_login_client, hl, hf, created]⟩
      | some cl =>
        by_cases hc : (s.clientmem cl).connected = 1
        · left; simp [server_login_client, hl, hf, hc]
        · right; left
          exact ⟨buf, cl, rfl, hne, hf, hc, by simp [server_login_client, hl, hf, hc, rebound]⟩
    · left; simp [server_login_client, hl]

theorem handle_login_cases (s s1 : server_t) (i : Nat) (conn : conn_t) (p : payload_t)
    (r : Int) (h : handle_login s i conn p = some (s1, r)) :
    ∃ n t, p = payload_t.name n ∧
      s1 = { (server_login_client s (some n)).1 with
             connlist := (server_login_client s (some n)).1.connlist.set i
               { conn with client := (server_login_client s (some n)).2 },
             trace := (server_login_client s (some n)).1.trace ++ t } := by
  unfold handle_login at h
  split at h
  · rename_i n
    refine ⟨n, ?_⟩
    generalize server_login_client s (some n) = L at h
    obtain ⟨s2, cl⟩ := L
    simp only [] at h
    split at h
    · simp at h; exact ⟨[], rfl, by rw [← h.1]; simp⟩
    · split at h
      · simp at h; exact ⟨_, rfl, by rw [← h.1]; simp [emit]; rfl⟩
      · simp at h; exact ⟨[], rfl, by rw [← h.1]; simp⟩
  · simp at h

theorem server_disconnect_client_cases (s : server_t) (i : Nat) :
    (server_disconnect_client s (some i)).1 = s ∨
    ∃ conn, s.connlist[i]? = some conn ∧ conn.fd > 0 ∧
      (server_disconnect_client s (some i)).1 =
        { disconnected s i conn with trace := s.trace ++ [effect.close conn.fd] } := by
  unfold server_disconnect_client
  simp only []
  cases hc : s.connlist[i]? with
  | none => left; rfl
  | some conn =>
    by_cases hfd : conn.fd > 0
    · right
      refine ⟨conn, rfl, hfd, ?_⟩
      simp only [hfd, if_true]
      cases hcl : conn.client <;> simp [disconnected, emit, hcl]
    · left; simp [hfd]

/-! ## The registry -/

theorem jobs_remove_cases (s s1 : server_t) (c job : Nat) (r : Int)
    (h : jobs_remove s (some c) (some job) = some (s1, r)) :
    s.joblist ≠ [] ∧ trace_only (removed s c job) s1 := by
  unfold jobs_remove at h
  simp only [] at h
  cases hj : s.joblist with
  | nil => simp [hj] at h
  | cons j rest =>
    refine ⟨by simp, ?_⟩
    simp only [hj] at h
    have hfree : ∀ x : server_t, trace_only x (free_job x job) := by
      intro x
      unfold free_job
      simp only []
      split <;> split
      · exact trace_only_trans (trace_only_emit _ _) (trace_only_emit _ _)
      · exact trace_only_emit _ _
      · exact trace_only_emit _ _
      · exact trace_only_refl _
    have hfree1 : ∀ x : server_t, x = removed s c job →
        trace_only (removed s c job) (free_job x job) := by
      intro x hx; rw [hx]; exact hfree _
    by_cases hjj : j = job
    · simp only [hjj, if_true] at h
      simp at h
      rw [← h.1]
      exact hfree1 _ (by simp [removed, hj, hjj])
    · simp only [hjj, if_false] at h
      by_cases hin : job ∈ rest
      · simp only [hin, if_true] at h
        simp at h
        rw [← h.1]
        exact hfree1 _ (by simp [removed, hj, List.erase_cons_tail, hjj])
      · simp only [hin, if_false] at h
        simp at h
        rw [← h.1]
        have : removed s c job = _ := rfl
        refine ⟨[], ?_⟩
        simp [removed, hj, List.erase_cons_tail, hjj, List.erase_of_not_mem hin]

theorem trace_only_removed {s s1 : server_t} (c job : Nat) (h : trace_only s s1) :
    trace_only (removed s c job) (removed s1 c job) := by
  obtain ⟨t, rfl⟩ := h
  exact ⟨t, rfl⟩

theorem handle_expunge_cases (s s1 : server_t) (conn : conn_t) (p : payload_t) (r : Int)
    (h : handle_expunge s conn p = some (s1, r)) :
    trace_only s s1 ∨
    ∃ c id j, conn.client = some c ∧ p = payload_t.jobid id ∧
      jobs_lookup_by_jobid s (some c) id = some j ∧ s.joblist ≠ [] ∧
      trace_only (removed s c j) s1 := by
  unfold handle_expunge at h
  split at h
  · left; simp at h; rw [← h.1]; exact trace_only_refl s
  · rename_i c hc
    split at h
    · rename_i id
      split at h
      · left; simp at h; rw [← h.1]; exact trace_only_reply _ _ _ _
      · rename_i j hj
        right
        simp only [] at h
        split at h
        · simp at h
        · rename_i s3 r3 hrem
          simp at h
          rw [← h.1]
          have h2 : trace_only s (if ((reply s conn ACK payload_t.null).jobmem j).status = RUNNING ∨
              ((reply s conn ACK payload_t.null).jobmem j).status = SUSPENDED then
              emit (reply s conn ACK payload_t.null)
                (effect.killpg ((reply s conn ACK payload_t.null).jobmem j).pgid SIGKILL)
              else reply s conn ACK payload_t.null) := by
            split
            · exact trace_only_trans (trace_only_reply _ _ _ _) (trace_only_emit _ _)
            · exact trace_only_reply _ _ _ _
          obtain ⟨hne, hr⟩ := jobs_remove_cases _ _ _ _ _ hrem
          refine ⟨c, id, j, hc, rfl, hj, ?_, trace_only_trans (trace_only_removed c j h2) hr⟩
          obtain ⟨t, ht⟩ := h2
          rw [ht] at hne
          exact hne
    · simp at h

theorem handle_submit_cases (os : os_t) (s s1 : server_t) (conn : conn_t) (p : payload_t)
    (r : Int) (h : handle_submit os s conn p = some (s1, r)) :
    s1 = s ∨
    ∃ c sub s2 r1, conn.client = some c ∧ p = payload_t.submission sub ∧
      exec_job os (reply (submitted os s c sub) conn JOB_SUBMIT_SUCCESS
        (payload_t.jobid (to_u32 (s.clientmem c).numjobs))) (some c) s.next_job
        = some (s2, r1) ∧ trace_only s2 s1 := by
  unfold handle_submit at h
  split at h
  · left; simp at h; exact h.1.symm
  · rename_i c hc
    split at h
    · rename_i sub
      right
      simp only [parse_input, jobs_create, jobs_insert] at h
      simp only [upd_same, upd_upd] at h
      have hneg : ¬ ((0 : Int) < 0) := by decide
      simp only [hneg, if_false] at h
      have hst : ({ s with
            clientmem := upd s.clientmem c
              { s.clientmem c with jobs := (s.clientmem c).jobs ++ [s.next_job],
                                   numjobs := (s.clientmem c).numjobs + 1 },
            joblist := s.joblist ++ [s.next_job],
            jobmem := upd s.jobmem s.next_job (submitted_job os s c sub),
            next_job := s.next_job + 1 } : server_t) = submitted os s c sub := rfl
      split at h
      · simp at h
      · rename_i s6 r1 he
        refine ⟨c, sub, s6, r1, hc, rfl, ?_, ?_⟩
        · rw [← he]
          rfl
        · split at h
          · simp at h; rw [← h.1]; exact trace_only_reply _ _ _ _
          · simp at h; rw [← h.1]; exact trace_only_refl _
    · simp at h

theorem request_cases (os : os_t) (s s1 : server_t) (i : Nat) (rx : bytes)
    (h : run_step s (step.request os i rx) = some s1) :
    ∃ conn, s.connlist[i]? = some conn ∧ conn.fd > 0 ∧
      (trace_only s s1 ∨
       s1 = (server_disconnect_client s (some i)).1 ∨
       (∃ p r, handle_login s i conn p = some (s1, r)) ∨
       (∃ p r, handle_submit os s conn p = some (s1, r)) ∨
       (∃ p r, handle_expunge s conn p = some (s1, r))) := by
  simp only [run_step] at h
  split at h
  · simp at h
  · rename_i conn hconn
    split at h
    · rename_i hfd
      refine ⟨conn, hconn, hfd, ?_⟩
      simp only [Option.map_eq_some'] at h
      obtain ⟨⟨s2, r⟩, h, rfl⟩ := h
      simp only [server_handle_client, hconn] at h
      split at h
      · simp at h
      · rename_i r0 payload rest hrecv
        split at h
        · simp at h; right; left; exact h.1.symm
        · unfold server_dispatch at h
          split at h
          · right; right; left; exact ⟨_, _, h⟩
          · split at h
            · right; right; right; left; exact ⟨_, _, h⟩
            · split at h
              · left; exact handle_status_trace_only _ _ _ _ _ _ h
              · split at h
                · left; exact handle_list_all_trace_only _ _ _ _ h
                · split at h
                  · left; exact handle_set_pri_trace_only _ _ _ _ _ _ h
                  · split at h
                    · left; exact handle_signal_trace_only _ _ _ _ _ h
                    · split at h
                      · right; right; right; right; exact ⟨_, _, h⟩
                      · split at h
                        · left; exact handle_results_trace_only _ _ _ _ _ _ h
                        · simp at h; left; rw [← h.1]; exact trace_only_refl _
    · simp at h

/-! ## Reachability -/

theorem getD_of_isSome {α : Type} (o : Option α) (d : α) (h : o.isSome = true) :
    o = some (o.getD d) := by
  cases o with
  | none => simp at h
  | some x => rfl

theorem reach_mono {ok ok1 : server_t → step → Prop} (h : ∀ s st, ok s st → ok1 s st)
    {s : server_t} (hs : reach ok s) : reach ok1 s := by
  induction hs with
  | start n s h0 => exact reach.start n s h0
  | next s s1 st _ hok hrun ih => exact reach.next s s1 st ih (h s st hok) hrun

theorem reach_run_steps (ok : server_t → step → Prop) [∀ s, DecidablePred (ok s)] :
    ∀ (l : List step) (s s1 : server_t), reach ok s → run_steps ok s l = some s1 →
      reach ok s1 := by
  intro l
  induction l with
  | nil => intro s s1 hs h; simp [run_steps] at h; subst h; exact hs
  | cons st rest ih =>
    intro s s1 hs h
    simp only [run_steps] at h
    split at h
    · rename_i hok
      split at h
      · simp at h
      · rename_i s2 hrun
        exact ih s2 s1 (reach.next s s2 st hs hok hrun) h
    · simp at h

theorem reach_run_from_start (ok : server_t → step → Prop) [∀ s, DecidablePred (ok s)]
    (n : Option Int) (l : List step) (s : server_t)
    (h : run_from_start ok n l = some s) : reach ok s := by
  unfold run_from_start at h
  split at h
  · simp at h
  · rename_i s0 h0
    exact reach_run_steps ok l s0 s (reach.start n s0 h0) h

theorem child_step_eq (os : os_t) (s : server_t) (pid : Int) (status : wait_status)
    (ru : rusage) (hpid : pid > 0) :
    run_step s (step.child os pid status ru) = reap os s pid status ru := by
  simp only [run_step, handle_all_signals, reap_loop, hpid, if_true]
  cases reap os s pid status ru <;> rfl

theorem server_start_numjobs (n : Option Int) (s : server_t) (h : server_start n = some s) :
    s.numjobs = 0 ∧ 1 ≤ s.maxjobs ∧ s.joblist = [] := by
  cases n with
  | none => simp [server_start] at h; subst h; simp [server_init]
  | some m =>
    simp only [server_start, set_maxjobs] at h
    split at h
    · simp at h
    · simp at h; subst h; simp [server_init]; omega

/-! ## The admission cap (C1) -/

theorem login_numjobs (s : server_t) (name : Option bytes) :
    (server_login_client s name).1.numjobs = s.numjobs ∧
    (server_login_client s name).1.maxjobs = s.maxjobs := by
  rcases server_login_client_cases s name with h | ⟨_, _, _, _, _, _, h⟩ | ⟨_, _, _, _, h⟩ <;>
    rw [h] <;> exact ⟨rfl, rfl⟩

theorem request_numjobs_le (os : os_t) (s s1 : server_t) (i : Nat) (rx : bytes)
    (hle : s.numjobs ≤ s.maxjobs) (h : run_step s (step.request os i rx) = some s1) :
    s1.numjobs ≤ s1.maxjobs := by
  obtain ⟨conn, _, _, hc⟩ := request_cases os s s1 i rx h
  rcases hc with ⟨t, rfl⟩ | hd | ⟨p, r, hl⟩ | ⟨p, r, hs⟩ | ⟨p, r, he⟩
  · exact hle
  · rcases server_disconnect_client_cases s i with h1 | ⟨c, _, _, h1⟩
    · rw [hd, h1]; exact hle
    · rw [hd, h1]; exact hle
  · obtain ⟨n, t, _, rfl⟩ := handle_login_cases s s1 i conn p r hl
    have := login_numjobs s (some n)
    simp only []
    omega
  · rcases handle_submit_cases os s s1 conn p r hs with rfl | ⟨c, sub, s2, r1, _, _, he, ⟨t, rfl⟩⟩
    · exact hle
    · obtain ⟨t0, ht0⟩ := trace_only_reply (submitted os s c sub) conn JOB_SUBMIT_SUCCESS
        (payload_t.jobid (to_u32 (s.clientmem c).numjobs))
      rcases exec_job_cases _ _ _ _ _ _ he with rfl | ⟨hlt, _, _, _, _, t1, rfl⟩
      · rw [ht0]; exact hle
      · rw [ht0] at hlt ⊢
        simp only [] at hlt ⊢
        omega
  · rcases handle_expunge_cases s s1 conn p r he with ⟨t, rfl⟩ | ⟨c, id, j, _, _, _, _, ⟨t, rfl⟩⟩
    · exact hle
    · exact hle

theorem reap_numjobs_le (os : os_t) (s s1 : server_t) (pid : Int) (status : wait_status)
    (ru : rusage) (hle : s.numjobs ≤ s.maxjobs) (hw : is_wait_status status)
    (hnc : status.WIFSTOPPED = true ∨ status.WIFCONTINUED = false)
    (h : reap os s pid status ru = some s1) : s1.numjobs ≤ s1.maxjobs := by
  rcases reap_cases os s s1 pid status ru h with ⟨_, rfl⟩ | ⟨j, s3, t, _, rfl, hc⟩
  · exact hle
  · simp only []
    rcases hc with ⟨hrun, _⟩ | ⟨_, hb⟩ | ⟨_, h2, h3, h4, _⟩
    · exfalso
      simp only [reaped, upd_same, job_update_status] at hrun
      rcases hnc with hs | hcn
      · simp [hs] at hrun
      · unfold is_wait_status at hw
        by_cases hs : status.WIFSTOPPED = true
        · simp [hs] at hrun
        · simp only [hs, hcn] at hrun hw
          by_cases hg : status.WIFSIGNALED = true
          · simp [hg] at hrun
          · simp only [hg] at hrun hw
            by_cases he : status.WIFEXITED = true
            · simp [he] at hrun
            · simp [he] at hw
    · refine backfill_numjobs_le os _ _ s3 ?_ hb
      simp only [reaped]
      omega
    · exfalso
      simp only [reaped, upd_same, job_update_status] at h2 h3 h4
      unfold is_wait_status at hw
      by_cases hs : status.WIFSTOPPED = true
      · simp [hs] at h2
      · rcases hnc with hs1 | hcn
        · exact hs hs1
        · simp only [hs, hcn] at h2 h3 h4 hw
          by_cases hg : status.WIFSIGNALED = true
          · simp [hg] at h4
          · simp only [hg] at h3 hw
            by_cases he : status.WIFEXITED = true
            · simp [he] at h3
            · simp [he] at hw

/-- C1 (as amended): in every state reachable from the start of the server by
accepts, dispatcher requests and reaper events that report no child as
continued, numjobs does not exceed maxjobs. -/
theorem C1_admission_cap_without_continue (s : server_t) (h : reach no_continue s) :
    s.numjobs ≤ s.maxjobs := by
  induction h with
  | start n s h0 =>
    have := server_start_numjobs n s h0
    omega
  | next s s1 st _ hok hrun ih =>
    cases st with
    | accept fd =>
      simp only [run_step, server_register_conn] at hrun
      split at hrun
      · simp at hrun; subst hrun; exact ih
      · simp at hrun
    | request os i rx => exact request_numjobs_le os s s1 i rx ih hrun
    | child os pid status ru =>
      obtain ⟨⟨hpid, hw⟩, hnc⟩ := hok
      rw [child_step_eq os s pid status ru hpid] at hrun
      exact reap_numjobs_le os s s1 pid status ru ih hw hnc hrun

/-- C1, witness: the state after two submissions with one slot and the exit of
the first job is reached without a continued child, and the cap holds in it. -/
theorem C1_admission_cap_witness :
    reach no_continue state_S1 ∧ state_S1.numjobs ≤ state_S1.maxjobs :=
  ⟨reach_run_from_start no_continue (some 1) trace_S1 state_S1
      (getD_of_isSome _ _ (by decide)),
    C1_admission_cap_without_continue state_S1
      (reach_run_from_start no_continue (some 1) trace_S1 state_S1
        (getD_of_isSome _ _ (by decide)))⟩

/-- C1, counterexample: with maxjobs = 1 the server reaches numjobs = 2 (a job
is stopped, the queued job is started in its place, the first job continues). -/
theorem C1_counterexample :
    ∃ s, reachable s ∧ s.maxjobs = 1 ∧ s.numjobs = 2 := by
  have h : (run_from_start os_step (some 1) trace_C1).map
      (fun s => (s.maxjobs, s.numjobs)) = some (1, 2) := by decide
  simp only [Option.map_eq_some'] at h
  obtain ⟨s, hs, hv⟩ := h
  simp only [Prod.mk.injEq] at hv
  exact ⟨s, reach_run_from_start _ _ _ _ hs, hv.1, hv.2⟩

/-! ## Framing round trip (C2) -/

/-- C2, the code at the failing input: the JOB_SUBMIT frame of a submission with
an empty command line (cmdlen = 0), and the one of a submission with one empty
environment string, are written by send_pkt and refused by recv_pkt, which
returns -1 and no payload instead of JOB_SUBMIT and the submission. -/
theorem C2_zero_length_field_not_received :
    (send_pkt JOB_SUBMIT (payload_t.submission ⟨1, 1, 0, 0, [], 0, []⟩)
        = some ([4, 1, 0, 0, 0, 1, 0, 0, 0, 0, 0, 0, 0, 0, 0, 0, 0, 0, 0, 0, 0], 0) ∧
      recv_pkt [4, 1, 0, 0, 0, 1, 0, 0, 0, 0, 0, 0, 0, 0, 0, 0, 0, 0, 0, 0, 0]
        = some (-1, payload_t.null, [0, 0, 0, 0])) ∧
    (send_pkt JOB_SUBMIT (payload_t.submission ⟨1, 1, 0, 1, [120], 1, [[]]⟩)
        = some ([4, 1, 0, 0, 0, 1, 0, 0, 0, 0, 0, 0, 0, 1, 0, 0, 0, 120, 1, 0, 0, 0,
                 0, 0, 0, 0], 0) ∧
      recv_pkt [4, 1, 0, 0, 0, 1, 0, 0, 0, 0, 0, 0, 0, 1, 0, 0, 0, 120, 1, 0, 0, 0,
                0, 0, 0, 0]
        = some (-1, payload_t.null, [])) := by
  decide

/-! ## Terminal finality (C3) -/

theorem no_continue_os_step (s : server_t) (st : step) (h : no_continue s st) :
    os_step s st := h.1

theorem reachable_state_S1 : reachable state_S1 :=
  reach_mono no_continue_os_step
    (reach_run_from_start no_continue (some 1) trace_S1 state_S1
      (getD_of_isSome _ _ (by decide)))

theorem reachable_state_one_running : reachable state_one_running :=
  reach_run_from_start os_step (some 1) _ state_one_running
    (getD_of_isSome _ _ (by decide))

theorem child_step_cases (os : os_t) (s s1 : server_t) (pid : Int) (status : wait_status)
    (ru : rusage) (h : run_step s (step.child os pid status ru) = some s1) :
    s1 = s ∨ reap os s pid status ru = some s1 := by
  by_cases hpid : pid > 0
  · right; rw [← child_step_eq os s pid status ru hpid]; exact h
  · left
    simp [run_step, handle_all_signals, reap_loop, hpid] at h
    exact h.symm

theorem backfill_keeps_not_new (os : os_t) (a : Nat) : ∀ (l : List Nat) (s s1 : server_t),
    (s.jobmem a).status ≠ NEW → backfill os s l = some s1 → s1.jobmem a = s.jobmem a := by
  intro l
  induction l with
  | nil => intro s s1 _ h; simp [backfill] at h; subst h; rfl
  | cons j rest ih =>
    intro s s1 hn h
    rcases backfill_cons os s s1 j rest h with ⟨_, rfl⟩ | ⟨_, _, h2⟩ | ⟨_, hj, s2, r, he, h2⟩
    · rfl
    · exact ih _ _ hn h2
    · have hja : a ≠ j := by
        intro e; rw [e] at hn; exact hn hj
      have h3 : s2.jobmem a = s.jobmem a := by
        rcases exec_job_cases os s s2 _ j r he with rfl | ⟨_, _, _, _, _, t, rfl⟩
        · rfl
        · simp only []; exact upd_other _ _ _ _ hja
      rw [← h3]
      exact ih _ _ (by rw [h3]; exact hn) h2

theorem wait_for_all_loop_keeps (os : os_t) (a : Nat) : ∀ (l : List Nat) (s s1 : server_t),
    (s.jobmem a).status ≠ RUNNING → (s.jobmem a).status ≠ SUSPENDED →
    (s.jobmem a).status ≠ CANCELED → wait_for_all_loop os s l = some s1 →
    s1.jobmem a = s.jobmem a := by
  intro l
  induction l with
  | nil => intro s s1 _ _ _ h; simp [wait_for_all_loop] at h; subst h; rfl
  | cons j rest ih =>
    intro s s1 h1 h2 h3 h
    simp only [wait_for_all_loop] at h
    split at h
    · rename_i hlive
      have hja : a ≠ j := by
        intro e; rw [e] at h1 h2 h3
        rcases hlive with x | x | x
        · exact h1 x
        · exact h2 x
        · exact h3 x
      split at h
      · simp at h
      · rename_i st _
        have := ih _ s1 (by simp only []; rw [upd_other _ _ _ _ hja]; exact h1)
          (by simp only []; rw [upd_other _ _ _ _ hja]; exact h2)
          (by simp only []; rw [upd_other _ _ _ _ hja]; exact h3) h
        rw [this]
        exact upd_other _ _ _ _ hja
    · exact ih _ _ h1 h2 h3 h

theorem waited_status (j : job_t) (w : wait_status) (hj : j.status = CANCELED) :
    (w.WIFEXITED = true → (waited j w).status = EXITED) ∧
    (w.WIFEXITED = false → w.WIFSIGNALED = true → (waited j w).status = ABORTED) ∧
    (w.WIFEXITED = false → w.WIFSIGNALED = false → waited j w = j) ∧
    (waited j w).pgid = j.pgid := by
  unfold waited
  cases h1 : w.WIFEXITED <;> cases h2 : w.WIFSIGNALED <;> simp [hj]

theorem wait_for_all_loop_canceled (os : os_t) (a : Nat) : ∀ (l : List Nat) (s s1 : server_t),
    (s.jobmem a).status = CANCELED → wait_for_all_loop os s l = some s1 →
    (a ∉ l → s1.jobmem a = s.jobmem a) ∧
    (a ∈ l → ∃ w, os.waitpid (s.jobmem a).pgid = some w ∧
      s1.jobmem a = waited (s.jobmem a) w) := by
  intro l
  induction l with
  | nil =>
    intro s s1 _ h
    simp [wait_for_all_loop] at h
    subst h
    exact ⟨fun _ => rfl, fun h => absurd h (List.not_mem_nil _)⟩
  | cons x rest ih =>
    intro s s1 hc h
    simp only [wait_for_all_loop] at h
    by_cases hxa : x = a
    · subst hxa
      have hlive : (s.jobmem x).status = RUNNING ∨ (s.jobmem x).status = SUSPENDED ∨
          (s.jobmem x).status = CANCELED := Or.inr (Or.inr hc)
      simp only [hlive, if_true] at h
      cases hw : os.waitpid (s.jobmem x).pgid with
      | none => simp [hw] at h
      | some w =>
        simp only [hw] at h
        have hrec : (if w.WIFEXITED = true then
              { s.jobmem x with status := EXITED, exitcode := w.WEXITSTATUS }
            else if w.WIFSIGNALED = true then
              { s.jobmem x with status := ABORTED, exitcode := w.WTERMSIG }
            else s.jobmem x) = waited (s.jobmem x) w := rfl
        rw [hrec] at h
        refine ⟨fun hn => absurd (List.mem_cons_self _ _) hn, fun _ => ⟨w, rfl, ?_⟩⟩
        obtain ⟨w1, w2, w3, w4⟩ := waited_status (s.jobmem x) w hc
        have hs : ({ s with jobmem := upd s.jobmem x (waited (s.jobmem x) w) } : server_t).jobmem x
            = waited (s.jobmem x) w := upd_same _ _ _
        cases he : w.WIFEXITED with
        | true =>
          have hst := w1 he
          rw [wait_for_all_loop_keeps os x rest _ s1 (by rw [hs, hst]; decide)
            (by rw [hs, hst]; decide) (by rw [hs, hst]; decide) h, hs]
        | false =>
          cases hg : w.WIFSIGNALED with
          | true =>
            have hst := w2 he hg
            rw [wait_for_all_loop_keeps os x rest _ s1 (by rw [hs, hst]; decide)
              (by rw [hs, hst]; decide) (by rw [hs, hst]; decide) h, hs]
          | false =>
            have hsame := w3 he hg
            have hc2 : (({ s with jobmem := upd s.jobmem x (waited (s.jobmem x) w) } :
                server_t).jobmem x).status = CANCELED := by rw [hs, hsame]; exact hc
            obtain ⟨i1, i2⟩ := ih _ s1 hc2 h
            by_cases hin : x ∈ rest
            · obtain ⟨w5, hw5, hr5⟩ := i2 hin
              rw [hs, hsame] at hw5 hr5
              rw [hw] at hw5
              rw [hr5, ← Option.some.inj hw5]
            · rw [i1 hin, hs]
    · have hax : a ≠ x := fun e => hxa e.symm
      have hstep : ∀ s2 : server_t, s2.jobmem a = s.jobmem a →
          wait_for_all_loop os s2 rest = some s1 →
          (a ∉ x :: rest → s1.jobmem a = s.jobmem a) ∧
          (a ∈ x :: rest → ∃ w, os.waitpid (s.jobmem a).pgid = some w ∧
            s1.jobmem a = waited (s.jobmem a) w) := by
        intro s2 h2 hl
        obtain ⟨i1, i2⟩ := ih s2 s1 (by rw [h2]; exact hc) hl
        rw [h2] at i1 i2
        refine ⟨fun hn => i1 (fun hm => hn (List.mem_cons_of_mem _ hm)), fun hm => ?_⟩
        rcases List.mem_cons.mp hm with e | e
        · exact absurd e hax
        · exact i2 e
      split at h
      · split at h
        · simp at h
        · exact hstep _ (upd_other _ _ _ _ hax) h
      · exact hstep s rfl h

theorem request_keeps_job (os : os_t) (s s1 : server_t) (i : Nat) (rx : bytes) (a : Nat)
    (ha : a < s.next_job) (h : run_step s (step.request os i rx) = some s1) :
    s1.jobmem a = s.jobmem a := by
  obtain ⟨conn, _, _, hc⟩ := request_cases os s s1 i rx h
  rcases hc with ⟨t, rfl⟩ | hd | ⟨p, r, hl⟩ | ⟨p, r, hs⟩ | ⟨p, r, he⟩
  · rfl
  · rcases server_disconnect_client_cases s i with h1 | ⟨c, _, _, h1⟩
    · rw [hd, h1]
    · rw [hd, h1]; rfl
  · obtain ⟨n, t, _, rfl⟩ := handle_login_cases s s1 i conn p r hl
    rcases server_login_client_cases s (some n) with h | ⟨_, _, _, _, _, _, h⟩ | ⟨_, _, _, _, h⟩ <;>
      rw [h] <;> rfl
  · rcases handle_submit_cases os s s1 conn p r hs with rfl | ⟨c, sub, s2, r1, _, _, he, ⟨t, rfl⟩⟩
    · rfl
    · obtain ⟨t0, ht0⟩ := trace_only_reply (submitted os s c sub) conn JOB_SUBMIT_SUCCESS
        (payload_t.jobid (to_u32 (s.clientmem c).numjobs))
      have hne : a ≠ s.next_job := by omega
      rcases exec_job_cases _ _ _ _ _ _ he with rfl | ⟨_, _, _, _, _, t1, rfl⟩
      · rw [ht0]; simp only [submitted]; exact upd_other _ _ _ _ hne
      · rw [ht0]; simp only [submitted]
        rw [upd_other _ _ _ _ hne, upd_other _ _ _ _ hne]
  · rcases handle_expunge_cases s s1 conn p r he with ⟨t, rfl⟩ | ⟨c, id, j, _, _, _, _, ⟨t, rfl⟩⟩
    · rfl
    · rfl

theorem reap_keeps_other (os : os_t) (s s1 : server_t) (pid : Int) (status : wait_status)
    (ru : rusage) (a : Nat) (hn : (s.jobmem a).status ≠ NEW)
    (hl : jobs_lookup_by_pid s s.joblist pid ≠ some a)
    (h : reap os s pid status ru = some s1) : s1.jobmem a = s.jobmem a := by
  rcases reap_cases os s s1 pid status ru h with ⟨_, rfl⟩ | ⟨j, s3, t, hj, rfl, hc⟩
  · rfl
  · have hja : a ≠ j := by
      intro e; rw [e] at hl; exact hl hj
    have hr : (reaped s j status ru).jobmem a = s.jobmem a := by
      simp only [reaped]; exact upd_other _ _ _ _ hja
    simp only []
    rcases hc with ⟨_, rfl⟩ | ⟨_, hb⟩ | ⟨_, _, _, _, rfl⟩
    · exact hr
    · rw [backfill_keeps_not_new os a _ _ s3 (by simp only []; rw [hr]; exact hn) hb]
      exact hr
    · exact hr

/-- C3 (as amended): the status of an allocated job that is EXITED, ABORTED or
CANCELED is left unchanged by every dispatcher request (JOB_EXPUNGE unlinks the
record without changing it), by every reaper event for which the lookup by pid
finds another job or none, and, when the status is EXITED or ABORTED, by every
wait_for_all pass. A wait_for_all pass for a client leaves a CANCELED job that
is not in the client's list unchanged; for a CANCELED job of the client's list
waitpid has returned a wait status for the job's pgid, and the job is EXITED
with WEXITSTATUS as exit code if that status is an exit, ABORTED with WTERMSIG
as exit code if it is a termination by signal, and still CANCELED otherwise. -/
theorem C3_terminal_finality (s s1 : server_t) (a : Nat) (ha : a < s.next_job)
    (hterm : (s.jobmem a).status = EXITED ∨ (s.jobmem a).status = ABORTED ∨
      (s.jobmem a).status = CANCELED) :
    (∀ os i rx, run_step s (step.request os i rx) = some s1 →
      (s1.jobmem a).status = (s.jobmem a).status) ∧
    (∀ os pid status ru, jobs_lookup_by_pid s s.joblist pid ≠ some a →
      run_step s (step.child os pid status ru) = some s1 →
      (s1.jobmem a).status = (s.jobmem a).status) ∧
    (∀ os c r, (s.jobmem a).status ≠ CANCELED → wait_for_all os s c = some (s1, r) →
      (s1.jobmem a).status = (s.jobmem a).status) ∧
    (∀ os c r, (s.jobmem a).status = CANCELED → a ∉ (s.clientmem c).jobs →
      wait_for_all os s (some c) = some (s1, r) → s1.jobmem a = s.jobmem a) ∧
    (∀ os c r, (s.jobmem a).status = CANCELED → a ∈ (s.clientmem c).jobs →
      wait_for_all os s (some c) = some (s1, r) →
      ∃ w, os.waitpid (s.jobmem a).pgid = some w ∧
        (w.WIFEXITED = true →
          (s1.jobmem a).status = EXITED ∧ (s1.jobmem a).exitcode = w.WEXITSTATUS) ∧
        (w.WIFEXITED = false → w.WIFSIGNALED = true →
          (s1.jobmem a).status = ABORTED ∧ (s1.jobmem a).exitcode = w.WTERMSIG) ∧
        (w.WIFEXITED = false → w.WIFSIGNALED = false → s1.jobmem a = s.jobmem a)) := by
  have hn : (s.jobmem a).status ≠ NEW := by
    rcases hterm with h | h | h <;> rw [h] <;> decide
  have hloop : ∀ (os : os_t) (c : Nat) (r : Int), wait_for_all os s (some c) = some (s1, r) →
      wait_for_all_loop os s (s.clientmem c).jobs = some s1 := by
    intro os c r h
    simp only [wait_for_all, Option.map_eq_some'] at h
    obtain ⟨s2, h2, he⟩ := h
    simp only [Prod.mk.injEq] at he
    rw [← he.1]
    exact h2
  refine ⟨?_, ?_, ?_, ?_, ?_⟩
  · intro os i rx h
    rw [request_keeps_job os s s1 i rx a ha h]
  · intro os pid status ru hl h
    rcases child_step_cases os s s1 pid status ru h with rfl | h2
    · rfl
    · rw [reap_keeps_other os s s1 pid status ru a hn hl h2]
  · intro os c r hc h
    cases c with
    | none => simp [wait_for_all] at h; rw [← h.1]
    | some c =>
      simp only [wait_for_all, Option.map_eq_some'] at h
      obtain ⟨s2, h2, he⟩ := h
      simp only [Prod.mk.injEq] at he
      rw [← he.1]
      rw [wait_for_all_loop_keeps os a _ s s2 (by rcases hterm with h | h | h <;> rw [h] <;> decide)
        (by rcases hterm with h | h | h <;> rw [h] <;> decide) hc h2]
  · intro os c r hc hnot h
    exact (wait_for_all_loop_canceled os a _ s s1 hc (hloop os c r h)).1 hnot
  · intro os c r hc hin h
    obtain ⟨w, hw, hr⟩ := (wait_for_all_loop_canceled os a _ s s1 hc (hloop os c r h)).2 hin
    refine ⟨w, hw, ?_, ?_, ?_⟩
    · intro he
      rw [hr]
      simp [waited, he]
    · intro he hg
      rw [hr]
      simp [waited, he, hg]
    · intro he hg
      rw [hr]
      simp [waited, he, hg]

/-- C3, witness: job 0 of the state after scenario S1 is EXITED and allocated;
its status is the same after a further JOB_SUBMIT request. Job 0 of the state
after one submission and cancel_all_jobs is CANCELED, and wait_for_all with a
waitpid that reports an exit makes it EXITED. -/
theorem C3_terminal_finality_witness :
    ((state_S1.jobmem 0).status = EXITED ∧
      (((run_step state_S1 (step.request os_demo 0 frame_submit_x)).getD server_init).jobmem
        0).status = (state_S1.jobmem 0).status) ∧
    (((cancel_all_jobs state_one_running (some 0)).1.jobmem 0).status = CANCELED ∧
      ∃ w, os_wait_exited.waitpid ((cancel_all_jobs state_one_running (some 0)).1.jobmem 0).pgid
          = some w ∧
        (w.WIFEXITED = true →
          (((wait_for_all os_wait_exited (cancel_all_jobs state_one_running (some 0)).1
              (some 0)).getD (server_init, 0)).1.jobmem 0).status = EXITED ∧
          (((wait_for_all os_wait_exited (cancel_all_jobs state_one_running (some 0)).1
              (some 0)).getD (server_init, 0)).1.jobmem 0).exitcode = w.WEXITSTATUS)) :=
  ⟨⟨by decide,
    (C3_terminal_finality state_S1
      ((run_step state_S1 (step.request os_demo 0 frame_submit_x)).getD server_init) 0
      (by decide) (Or.inl (by decide))).1 os_demo 0 frame_submit_x
      (getD_of_isSome _ _ (by decide))⟩,
   ⟨by decide,
    (fun h => h.elim (fun w hw => ⟨w, hw.1, hw.2.1⟩))
      ((C3_terminal_finality (cancel_all_jobs state_one_running (some 0)).1
        ((wait_for_all os_wait_exited (cancel_all_jobs state_one_running (some 0)).1
          (some 0)).getD (server_init, 0)).1 0
        (by decide) (Or.inr (Or.inr (by decide)))).2.2.2.2 os_wait_exited 0
        ((wait_for_all os_wait_exited (cancel_all_jobs state_one_running (some 0)).1
          (some 0)).getD (server_init, 0)).2
        (by decide) (by decide) (getD_of_isSome _ (server_init, 0) (by decide)))⟩⟩

/-- C3, counterexample: a job that is CANCELED (a RUNNING job after
cancel_all_jobs) is moved to EXITED by wait_for_all; and job_update_status moves
an EXITED job to SUSPENDED when a stop is reported for its pgid. -/
theorem C3_counterexample :
    (((cancel_all_jobs state_one_running (some 0)).1.jobmem 0).status = CANCELED ∧
      (wait_for_all os_wait_exited (cancel_all_jobs state_one_running (some 0)).1 (some 0)).map
        (fun x => (x.1.jobmem 0).status) = some EXITED) ∧
    ((state_S1.jobmem 0).status = EXITED ∧
      jobs_lookup_by_pid state_S1 state_S1.joblist 100 = some 0 ∧
      (run_step state_S1 (step.child os_demo 100 ws_stopped ru_zero)).map
        (fun x => (x.jobmem 0).status) = some SUSPENDED) := by
  decide

/-! ## Job ids (C4, C5) -/

theorem to_u32_of_nat (n : Nat) (h : n < 4294967296) : to_u32 (n : Int) = n := by
  unfold to_u32
  have : ((n : Int) % 4294967296) = (n : Int) := Int.emod_eq_of_lt (by omega) (by omega)
  rw [this]; simp

theorem map_jobid_congr (m m1 : Nat → job_t) (l : List Nat)
    (h : ∀ a ∈ l, (m1 a).jobid = (m a).jobid) :
    l.map (fun a => (m1 a).jobid) = l.map (fun a => (m a).jobid) :=
  List.map_congr_left h

theorem reg_insert_eq (os : os_t) (s : server_t) (c : Nat) (ui : user_input_t) :
    reg_step s (reg_op.insert os c ui) = some (inserted os s c ui) := by
  simp [reg_step, jobs_create, jobs_insert, inserted, inserted_job]

theorem inserted_jobs_self (os : os_t) (s : server_t) (c : Nat) (ui : user_input_t) :
    ((inserted os s c ui).clientmem c).jobs = (s.clientmem c).jobs ++ [s.next_job] := by
  simp [inserted]

theorem inserted_numjobs_self (os : os_t) (s : server_t) (c : Nat) (ui : user_input_t) :
    ((inserted os s c ui).clientmem c).numjobs = (s.clientmem c).numjobs + 1 := by
  simp [inserted]

theorem inserted_client_other (os : os_t) (s : server_t) (c c1 : Nat) (ui : user_input_t)
    (h : c ≠ c1) : (inserted os s c1 ui).clientmem c = s.clientmem c := by
  simp only [inserted]; exact upd_other _ _ _ _ h

theorem inserted_job_other (os : os_t) (s : server_t) (c a : Nat) (ui : user_input_t)
    (h : a ≠ s.next_job) : (inserted os s c ui).jobmem a = s.jobmem a := by
  simp only [inserted]; exact upd_other _ _ _ _ h

theorem inserted_job_new (os : os_t) (s : server_t) (c : Nat) (ui : user_input_t) :
    (inserted os s c ui).jobmem s.next_job = inserted_job os s c ui := by
  simp [inserted]

theorem inserted_next_job (os : os_t) (s : server_t) (c : Nat) (ui : user_input_t) :
    (inserted os s c ui).next_job = s.next_job + 1 := rfl

theorem ids_inv_step (s s1 : server_t) (c n : Nat) (op : reg_op) (hinv : ids_inv s c n)
    (hn : n + inserts c [op] ≤ 2147483648) (h : reg_step s op = some s1) :
    ids_inv s1 c (n + inserts c [op]) := by
  obtain ⟨hnum, hjobs, hnd⟩ := hinv
  cases op with
  | insert os c1 ui =>
    rw [reg_insert_eq] at h
    have hs1 : s1 = inserted os s c1 ui := by
      simp only [Option.some.injEq] at h; exact h.symm
    rw [hs1]
    have hfresh : ∀ a ∈ (s.clientmem c).jobs, a ≠ s.next_job := by
      intro a ha; have := (hjobs a ha).1; omega
    have hmap : (s.clientmem c).jobs.map (fun a => ((inserted os s c1 ui).jobmem a).jobid)
        = (s.clientmem c).jobs.map (fun a => (s.jobmem a).jobid) :=
      map_jobid_congr s.jobmem _ _ (by
        intro a ha; rw [inserted_job_other _ _ _ _ _ (hfresh a ha)])
    by_cases hc : c1 = c
    · subst hc
      have hins : inserts c1 [reg_op.insert os c1 ui] = 1 := by simp [inserts]
      rw [hins] at hn ⊢
      have hid : to_u32 (s.clientmem c1).numjobs = n := by
        rw [hnum]; exact to_u32_of_nat n (by omega)
      refine ⟨?_, ?_, ?_⟩
      · rw [inserted_numjobs_self, hnum]; push_cast; ring
      · intro a ha
        rw [inserted_jobs_self, List.mem_append, List.mem_singleton] at ha
        rw [inserted_next_job]
        rcases ha with ha | ha
        · have := hjobs a ha
          rw [inserted_job_other _ _ _ _ _ (hfresh a ha)]
          omega
        · rw [ha, inserted_job_new]
          simp only [inserted_job]
          rw [hid]; omega
      · simp only [jobids]
        rw [inserted_jobs_self, List.map_append, hmap, List.nodup_append]
        refine ⟨hnd, by simp, ?_⟩
        intro x hx hx2
        simp only [List.map_cons, List.map_nil, List.mem_singleton] at hx2
        rw [inserted_job_new] at hx2
        simp only [inserted_job] at hx2
        simp only [List.mem_map] at hx
        obtain ⟨a, ha, hax⟩ := hx
        have := (hjobs a ha).2
        rw [hid] at hx2
        omega
    · have hc2 : c ≠ c1 := fun e => hc e.symm
      have hins : inserts c [reg_op.insert os c1 ui] = 0 := by simp [inserts, hc]
      rw [hins] at hn ⊢
      refine ⟨?_, ?_, ?_⟩
      · rw [inserted_client_other _ _ _ _ _ hc2]; simpa using hnum
      · intro a ha
        rw [inserted_client_other _ _ _ _ _ hc2] at ha
        have := hjobs a ha
        rw [inserted_job_other _ _ _ _ _ (hfresh a ha), inserted_next_job]
        omega
      · simp only [jobids]
        rw [inserted_client_other _ _ _ _ _ hc2, hmap]
        exact hnd
  | remove c1 job =>
    simp only [reg_step, Option.map_eq_some'] at h
    obtain ⟨⟨s2, r⟩, h, rfl⟩ := h
    obtain ⟨_, t, rfl⟩ := jobs_remove_cases s s2 c1 job r h
    have hins : inserts c [reg_op.remove c1 job] = 0 := by simp [inserts]
    rw [hins] at hn ⊢
    by_cases hc : c1 = c
    · subst hc
      refine ⟨?_, ?_, ?_⟩
      · simp only [removed, upd_same]; exact hnum
      · intro a ha
        simp only [removed, upd_same] at ha ⊢
        exact hjobs a (List.mem_of_mem_erase ha)
      · simp only [jobids, removed, upd_same]
        exact List.Nodup.sublist (List.Sublist.map _ (List.erase_sublist _ _)) hnd
    · have hc2 : c ≠ c1 := fun e => hc e.symm
      have hcl : (removed s c1 job).clientmem c = s.clientmem c := by
        simp only [removed]; exact upd_other _ _ _ _ hc2
      refine ⟨?_, ?_, ?_⟩
      · simp only []; rw [hcl]; exact hnum
      · intro a ha
        simp only [] at ha ⊢
        rw [hcl] at ha
        exact hjobs a ha
      · simp only [jobids]
        rw [hcl]
        exact hnd

theorem inserts_cons (c : Nat) (op : reg_op) (rest : List reg_op) :
    inserts c (op :: rest) = inserts c [op] + inserts c rest := by
  cases op <;> simp [inserts]

theorem ids_inv_run (c : Nat) : ∀ (ops : List reg_op) (s s1 : server_t) (n : Nat),
    ids_inv s c n → n + inserts c ops ≤ 2147483648 → reg_run s ops = some s1 →
    ids_inv s1 c (n + inserts c ops) := by
  intro ops
  induction ops with
  | nil => intro s s1 n hinv _ h; simp [reg_run] at h; subst h; simpa [inserts] using hinv
  | cons op rest ih =>
    intro s s1 n hinv hn h
    simp only [reg_run] at h
    split at h
    · simp at h
    · rename_i s2 hstep
      rw [inserts_cons] at hn ⊢
      have h2 := ids_inv_step s s2 c n op hinv (by omega) hstep
      have h3 := ih s2 s1 _ h2 (by omega) h
      rw [Nat.add_assoc] at h3
      exact h3

theorem ids_inv_init (s : server_t) (c : Nat) (hj : (s.clientmem c).jobs = [])
    (hn : (s.clientmem c).numjobs = 0) : ids_inv s c 0 := by
  refine ⟨by simpa using hn, ?_, ?_⟩
  · intro a ha; rw [hj] at ha; simp at ha
  · simp [jobids, hj]

/-- C4: in every state reached from a state in which the client has an empty job
list and id counter 0 by any sequence of jobs_insert and jobs_remove calls with
fewer than 2^31 inserts for that client, the jobids of the jobs in the client's
list are pairwise different. -/
theorem C4_jobid_unique (s0 s : server_t) (c : Nat) (ops : List reg_op)
    (hj : (s0.clientmem c).jobs = []) (hn : (s0.clientmem c).numjobs = 0)
    (hrun : reg_run s0 ops = some s) (hlt : inserts c ops < 2147483648) :
    (jobids s c).Nodup := by
  have h := ids_inv_run c ops s0 s 0 (ids_inv_init s0 c hj hn) (by omega) hrun
  exact h.2.2

/-- C4, witness: after three inserts and one removal the list of client 0 holds
the jobids 1 and 2. -/
theorem C4_jobid_unique_witness :
    jobids state_ops_demo 0 = [1, 2] ∧ (jobids state_ops_demo 0).Nodup :=
  ⟨by decide,
   C4_jobid_unique server_init state_ops_demo 0 ops_demo (by decide) (by decide)
     (getD_of_isSome _ _ (by decide)) (by decide)⟩

/-- C5: after any sequence of jobs_insert and jobs_remove calls holding k
inserts for the client (k < 2^31), from a state in which the client has an empty
job list and id counter 0, the next jobs_insert for the client appends the new
job to the client's list with jobid k; and the record server_login_client
creates for a name without a record starts with an empty job list and id counter
0, so that its first job has jobid 0. -/
theorem C5_jobid_allocation (s0 s s2 : server_t) (c k : Nat) (ops : List reg_op) (os : os_t)
    (ui : user_input_t) (buf : bytes)
    (hj : (s0.clientmem c).jobs = []) (hn : (s0.clientmem c).numjobs = 0)
    (hrun : reg_run s0 ops = some s) (hk : inserts c ops = k) (hlt : k < 2147483648)
    (hname : cstr buf ≠ [])
    (hnew : s2.clientlist.find? (fun a => name_matches (s2.clientmem a).name (cstr buf)) = none) :
    (reg_step s (reg_op.insert os c ui) = some (inserted os s c ui) ∧
      ((inserted os s c ui).clientmem c).jobs = (s.clientmem c).jobs ++ [s.next_job] ∧
      ((inserted os s c ui).jobmem s.next_job).jobid = k) ∧
    ((server_login_client s2 (some buf)).2 = some s2.next_client ∧
      (((server_login_client s2 (some buf)).1.clientmem s2.next_client).jobs = [] ∧
       ((server_login_client s2 (some buf)).1.clientmem s2.next_client).numjobs = 0)) := by
  have h := ids_inv_run c ops s0 s 0 (ids_inv_init s0 c hj hn) (by omega) hrun
  refine ⟨⟨reg_insert_eq os s c ui, inserted_jobs_self os s c ui, ?_⟩, ?_⟩
  · rw [inserted_job_new]
    simp only [inserted_job]
    rw [h.1, Nat.zero_add, hk]
    exact to_u32_of_nat k (by omega)
  · rcases server_login_client_cases s2 (some buf) with h1 | ⟨b, cl, hb, _, hf, _, _⟩ |
      ⟨b, hb, _, _, h1⟩
    · exfalso
      have hl : (cstr buf).length > 0 := List.length_pos.mpr hname
      simp [server_login_client, hl, hnew] at h1
    · exfalso
      simp only [Option.some.injEq] at hb
      rw [← hb, hnew] at hf
      simp at hf
    · simp only [Option.some.injEq] at hb
      rw [h1]
      simp [created, client_zero]

/-- C5, witness: on the registry after three inserts for client 0 (and one
removal) the next insert gets jobid 3; and the record created for "a" on the
initial server starts empty. -/
theorem C5_jobid_allocation_witness :
    ((inserted os_demo state_ops_demo 0 ui_x).jobmem state_ops_demo.next_job).jobid = 3 ∧
    ((server_login_client server_init (some [97])).1.clientmem
      server_init.next_client).numjobs = 0 :=
  ⟨(C5_jobid_allocation server_init state_ops_demo server_init 0 3 ops_demo os_demo ui_x [97]
      (by decide) (by decide) (getD_of_isSome _ _ (by decide)) (by decide) (by decide)
      (by decide) (by decide)).1.2.2,
   (C5_jobid_allocation server_init state_ops_demo server_init 0 3 ops_demo os_demo ui_x [97]
      (by decide) (by decide) (getD_of_isSome _ _ (by decide)) (by decide) (by decide)
      (by decide) (by decide)).2.2.2⟩

/-! ## Client and connection tables -/

theorem same_clients_refl (s : server_t) : same_clients s s :=
  ⟨rfl, rfl, rfl, fun _ => ⟨rfl, rfl⟩⟩

theorem same_clients_trans {s s1 s2 : server_t} (h1 : same_clients s s1)
    (h2 : same_clients s1 s2) : same_clients s s2 := by
  obtain ⟨a1, a2, a3, a4⟩ := h1
  obtain ⟨b1, b2, b3, b4⟩ := h2
  exact ⟨b1.trans a1, b2.trans a2, b3.trans a3,
    fun a => ⟨(b4 a).1.trans (a4 a).1, (b4 a).2.trans (a4 a).2⟩⟩

theorem same_tables_same_clients {s s1 : server_t} (h : same_tables s s1) :
    same_clients s s1 := by
  obtain ⟨_, h2, h3, _, h5, h6, _⟩ := h
  exact ⟨h2, h3, h6, fun a => by rw [h5]; exact ⟨rfl, rfl⟩⟩

theorem same_clients_submitted (os : os_t) (s : server_t) (c : Nat) (sub : submission_t) :
    same_clients s (submitted os s c sub) := by
  refine ⟨rfl, rfl, rfl, fun a => ?_⟩
  simp only [submitted, upd]
  split
  · rename_i h; rw [h]; exact ⟨rfl, rfl⟩
  · exact ⟨rfl, rfl⟩

theorem same_clients_removed (s : server_t) (c job : Nat) :
    same_clients s (removed s c job) := by
  refine ⟨rfl, rfl, rfl, fun a => ?_⟩
  simp only [removed, upd]
  split
  · rename_i h; rw [h]; exact ⟨rfl, rfl⟩
  · exact ⟨rfl, rfl⟩

theorem reap_same_tables (os : os_t) (s s1 : server_t) (pid : Int) (status : wait_status)
    (ru : rusage) (h : reap os s pid status ru = some s1) : same_tables s s1 := by
  rcases reap_cases os s s1 pid status ru h with ⟨_, rfl⟩ | ⟨j, s3, t, _, rfl, hc⟩
  · exact same_tables_refl _
  · have h3 : same_tables s s3 := by
      rcases hc with ⟨_, rfl⟩ | ⟨_, hb⟩ | ⟨_, _, _, _, rfl⟩
      · simp [same_tables, reaped]
      · have := backfill_same_tables os _ _ s3 hb
        exact same_tables_trans (by simp [same_tables, reaped]) this
      · simp [same_tables, reaped]
    exact same_tables_trans h3 (by simp [same_tables])

/-- What a step does to the client and connection tables. -/
theorem step_clients_cases (s s1 : server_t) (st : step) (h : run_step s st = some s1) :
    same_clients s s1 ∨
    (∃ fd, 0 ≤ fd ∧ s1 = (server_register_conn s fd).1) ∨
    (∃ i conn, s.connlist[i]? = some conn ∧ conn.fd > 0 ∧
      ∃ t, s1 = { disconnected s i conn with trace := t }) ∨
    (∃ i conn n t, s.connlist[i]? = some conn ∧ conn.fd > 0 ∧
      s1 = { (server_login_client s (some n)).1 with
             connlist := (server_login_client s (some n)).1.connlist.set i
               { conn with client := (server_login_client s (some n)).2 },
             trace := t }) := by
  cases st with
  | accept fd =>
    right; left
    simp only [run_step] at h
    split at h
    · rename_i hfd; simp at h; exact ⟨fd, hfd, h.symm⟩
    · simp at h
  | request os i rx =>
    obtain ⟨conn, hconn, hfd, hc⟩ := request_cases os s s1 i rx h
    rcases hc with htr | hd | ⟨p, r, hl⟩ | ⟨p, r, hs⟩ | ⟨p, r, he⟩
    · left; exact same_tables_same_clients (trace_only_same_tables htr)
    · rcases server_disconnect_client_cases s i with h1 | ⟨c, hc1, hc2, h1⟩
      · left; rw [hd, h1]; exact same_clients_refl s
      · right; right; left
        exact ⟨i, c, hc1, hc2, _, by rw [hd, h1]⟩
    · right; right; right
      obtain ⟨n, t, _, rfl⟩ := handle_login_cases s s1 i conn p r hl
      exact ⟨i, conn, n, _, hconn, hfd, rfl⟩
    · left
      rcases handle_submit_cases os s s1 conn p r hs with rfl | ⟨c, sub, s2, r1, _, _, he, htr⟩
      · exact same_clients_refl _
      · exact same_clients_trans (same_clients_submitted os s c sub)
          (same_clients_trans
            (same_tables_same_clients (trace_only_same_tables (trace_only_reply _ _ _ _)))
            (same_clients_trans (same_tables_same_clients (exec_job_same_tables _ _ _ _ _ _ he))
              (same_tables_same_clients (trace_only_same_tables htr))))
    · left
      rcases handle_expunge_cases s s1 conn p r he with htr | ⟨c, id, j, _, _, _, _, htr⟩
      · exact same_tables_same_clients (trace_only_same_tables htr)
      · exact same_clients_trans (same_clients_removed s c j)
          (same_tables_same_clients (trace_only_same_tables htr))
  | child os pid status ru =>
    left
    rcases child_step_cases os s s1 pid status ru h with rfl | h2
    · exact same_clients_refl _
    · exact same_tables_same_clients (reap_same_tables os s s1 pid status ru h2)

theorem name_matches_iff (a b : bytes) : name_matches a b = true ↔ a = b := by
  unfold name_matches
  simp only [decide_eq_true_eq]
  constructor
  · rintro ⟨hl, ht⟩
    rw [List.take_length] at ht
    rw [← hl, List.take_length] at ht
    exact ht
  · rintro rfl
    exact ⟨rfl, rfl⟩

theorem takeWhile_idem (p : Nat → Bool) (l : List Nat) :
    (l.takeWhile p).takeWhile p = l.takeWhile p := by
  induction l with
  | nil => rfl
  | cons x xs ih =>
    cases hp : p x with
    | true => simp only [List.takeWhile_cons, hp, if_true]; rw [ih]
    | false => simp [List.takeWhile_cons, hp]

theorem cstr_idem (b : bytes) : cstr (cstr b) = cstr b :=
  takeWhile_idem _ b

theorem wf_clients_same {s s1 : server_t} (h : same_clients s s1) (hw : wf_clients s) :
    wf_clients s1 := by
  obtain ⟨h1, h2, h3, h4⟩ := h
  obtain ⟨w1, w2, w3, w4⟩ := hw
  refine ⟨?_, ?_, ?_, ?_⟩
  · rw [h1]
    have : (fun a => (s1.clientmem a).name) = (fun a => (s.clientmem a).name) := by
      funext a; exact (h4 a).1
    rw [this]; exact w1
  · intro a ha
    rw [h1] at ha
    rw [h3, (h4 a).1]
    exact w2 a ha
  · intro conn hconn c hc
    rw [h2] at hconn
    rw [h1, (h4 c).2]
    exact w3 conn hconn c hc
  · rw [h2]; exact w4

theorem split_at_index {α : Type} (l : List α) (i : Nat) (x : α) (h : l[i]? = some x) :
    l = l.take i ++ x :: l.drop (i + 1) := by
  obtain ⟨hi, hx⟩ := List.getElem?_eq_some.mp h
  have h1 := List.take_append_drop i l
  rw [List.drop_eq_getElem_cons hi, hx] at h1
  exact h1.symm

theorem set_at_index {α : Type} (l : List α) (i : Nat) (x y : α) (h : l[i]? = some x) :
    l.set i y = l.take i ++ y :: l.drop (i + 1) := by
  obtain ⟨hi, _⟩ := List.getElem?_eq_some.mp h
  exact List.set_eq_take_cons_drop y hi

theorem eraseIdx_at_index {α : Type} (l : List α) (i : Nat) :
    l.eraseIdx i = l.take i ++ l.drop (i + 1) :=
  List.eraseIdx_eq_take_drop_succ l i

theorem bound_nodup_set_none (l : List conn_t) (i : Nat) (conn x : conn_t)
    (h : l[i]? = some conn) (hx : x.client = none)
    (hn : (l.filterMap (fun k => k.client)).Nodup) :
    ((l.set i x).filterMap (fun k => k.client)).Nodup := by
  rw [set_at_index l i conn x h]
  rw [split_at_index l i conn h] at hn
  rw [List.filterMap_append] at hn ⊢
  rw [List.filterMap_cons] at hn ⊢
  rw [hx]
  simp only []
  cases hc : conn.client with
  | none => rw [hc] at hn; exact hn
  | some c =>
    rw [hc] at hn
    simp only [] at hn
    exact List.Nodup.sublist (List.Sublist.append_left (List.sublist_cons_self _ _) _) hn

theorem bound_nodup_set_some (l : List conn_t) (i : Nat) (conn x : conn_t) (c : Nat)
    (h : l[i]? = some conn) (hx : x.client = some c)
    (hfree : ∀ k ∈ l, k.client ≠ some c)
    (hn : (l.filterMap (fun k => k.client)).Nodup) :
    ((l.set i x).filterMap (fun k => k.client)).Nodup := by
  have h0 := bound_nodup_set_none l i conn { conn with client := none } h rfl hn
  rw [set_at_index l i conn _ h] at h0
  rw [set_at_index l i conn x h]
  rw [List.filterMap_append, List.filterMap_cons] at h0 ⊢
  rw [hx]
  simp only [] at h0 ⊢
  have hnot : ∀ m : List conn_t, (∀ k ∈ m, k ∈ l) → c ∉ m.filterMap (fun k => k.client) := by
    intro m hm hc
    rw [List.mem_filterMap] at hc
    obtain ⟨k, hk, hkc⟩ := hc
    exact hfree k (hm k hk) hkc
  have h1 := hnot (l.take i) (fun k hk => List.mem_of_mem_take hk)
  have h2 := hnot (l.drop (i + 1)) (fun k hk => List.mem_of_mem_drop hk)
  rw [List.nodup_append] at h0 ⊢
  obtain ⟨a1, a2, a3⟩ := h0
  refine ⟨a1, List.nodup_cons.mpr ⟨h2, a2⟩, ?_⟩
  intro y hy1 hy2
  rw [List.mem_cons] at hy2
  rcases hy2 with rfl | hy2
  · exact h1 hy1
  · exact a3 hy1 hy2

theorem bound_erase_other (l : List conn_t) (i : Nat) (conn k : conn_t) (c : Nat)
    (h : l[i]? = some conn) (hc : conn.client = some c)
    (hn : (l.filterMap (fun k => k.client)).Nodup) (hk : k ∈ l.eraseIdx i) :
    k.client ≠ some c := by
  intro hkc
  rw [eraseIdx_at_index] at hk
  rw [split_at_index l i conn h, List.filterMap_append, List.filterMap_cons, hc] at hn
  simp only [] at hn
  rw [List.nodup_append] at hn
  obtain ⟨_, a2, a3⟩ := hn
  rw [List.mem_append] at hk
  rcases hk with hk | hk
  · exact a3 (List.mem_filterMap.mpr ⟨k, hk, hkc⟩) (List.mem_cons_self _ _)
  · exact (List.nodup_cons.mp a2).1 (List.mem_filterMap.mpr ⟨k, hk, hkc⟩)

theorem wf_clients_accept (s : server_t) (fd : Int) (hw : wf_clients s) :
    wf_clients (server_register_conn s fd).1 := by
  obtain ⟨w1, w2, w3, w4⟩ := hw
  refine ⟨w1, w2, ?_, ?_⟩
  · intro conn hconn c hc
    simp only [server_register_conn, List.mem_cons] at hconn
    rcases hconn with rfl | hconn
    · simp at hc
    · exact w3 conn hconn c hc
  · simpa [server_register_conn] using w4

theorem wf_clients_disconnect (s : server_t) (i : Nat) (conn : conn_t) (t : List effect)
    (hi : s.connlist[i]? = some conn) (hw : wf_clients s) :
    wf_clients { disconnected s i conn with trace := t } := by
  obtain ⟨w1, w2, w3, w4⟩ := hw
  have hname : ∀ a, ((disconnected s i conn).clientmem a).name = (s.clientmem a).name := by
    intro a
    simp only [disconnected]
    cases conn.client with
    | none => rfl
    | some cl =>
      simp only [upd]; split
      · rename_i h; rw [h]
      · rfl
  refine ⟨?_, ?_, ?_, ?_⟩
  · have : (fun a => ((disconnected s i conn).clientmem a).name)
        = (fun a => (s.clientmem a).name) := funext hname
    simp only []
    rw [show (disconnected s i conn).clientlist = s.clientlist from rfl, this]
    exact w1
  · intro a ha
    have := w2 a ha
    simp only []
    rw [hname a]
    exact this
  · intro k hk c hc
    have hk0 : k ∈ s.connlist.eraseIdx i := hk
    have hkl : k ∈ s.connlist := (List.eraseIdx_sublist _ _).subset hk0
    obtain ⟨b1, b2, b3⟩ := w3 k hkl c hc
    refine ⟨b1, b2, ?_⟩
    simp only [disconnected]
    cases hcl : conn.client with
    | none => simp only []; exact b3
    | some cl =>
      simp only []
      have hne : c ≠ cl := by
        intro e
        rw [e] at hc
        exact bound_erase_other s.connlist i conn k cl hi hcl w4 hk0 hc
      rw [upd_other _ _ _ _ hne]
      exact b3
  · exact List.Nodup.sublist (List.Sublist.filterMap _ (List.eraseIdx_sublist _ _)) w4

theorem wf_clients_login (s : server_t) (i : Nat) (conn : conn_t) (n : bytes)
    (t : List effect) (hi : s.connlist[i]? = some conn) (hfd : conn.fd > 0)
    (hw : wf_clients s) :
    wf_clients { (server_login_client s (some n)).1 with
      connlist := (server_login_client s (some n)).1.connlist.set i
        { conn with client := (server_login_client s (some n)).2 },
      trace := t } := by
  obtain ⟨w1, w2, w3, w4⟩ := hw
  rcases server_login_client_cases s (some n) with h | ⟨b, cl, hb, hne, hf, hcon, h⟩ |
    ⟨b, hb, hne, hf, h⟩
  · rw [h]
    refine ⟨w1, w2, ?_, ?_⟩
    · intro k hk c hc
      rcases List.mem_or_eq_of_mem_set hk with hk1 | hk1
      · exact w3 k hk1 c hc
      · rw [hk1] at hc; simp at hc
    · exact bound_nodup_set_none s.connlist i conn _ hi rfl w4
  · rw [h]
    have hmem : cl ∈ s.clientlist := List.mem_of_find?_eq_some hf
    have hname : ∀ a, ((rebound s cl).clientmem a).name = (s.clientmem a).name := by
      intro a
      simp only [rebound, upd]; split
      · rename_i e; rw [e]
      · rfl
    refine ⟨?_, ?_, ?_, ?_⟩
    · have : (fun a => ((rebound s cl).clientmem a).name)
          = (fun a => (s.clientmem a).name) := funext hname
      simp only []
      rw [show (rebound s cl).clientlist = s.clientlist from rfl, this]
      exact w1
    · intro a ha
      simp only []
      rw [hname a]
      exact w2 a ha
    · intro k hk c hc
      have hcon1 : ∀ c0, (s.clientmem c0).connected = 1 →
          ((rebound s cl).clientmem c0).connected = 1 := by
        intro c0 h0
        simp only [rebound, upd]; split
        · rfl
        · exact h0
      rcases List.mem_or_eq_of_mem_set hk with hk1 | hk1
      · obtain ⟨b1, b2, b3⟩ := w3 k hk1 c hc
        exact ⟨b1, b2, hcon1 c b3⟩
      · rw [hk1] at hc ⊢
        simp only [Option.some.injEq] at hc
        subst hc
        exact ⟨hfd, hmem, by simp [rebound]⟩
    · refine bound_nodup_set_some s.connlist i conn _ cl hi rfl ?_ w4
      intro k hk hkc
      exact hcon (w3 k hk cl hkc).2.2
  · rw [h]
    have hfresh : ∀ a ∈ s.clientlist, a ≠ s.next_client := by
      intro a ha; have := (w2 a ha).1; omega
    have hold : ∀ a ∈ s.clientlist, (created s (cstr b)).clientmem a = s.clientmem a := by
      intro a ha
      simp only [created]; exact upd_other _ _ _ _ (hfresh a ha)
    have hnew : (created s (cstr b)).clientmem s.next_client
        = { client_zero with connected := 1, name := cstr b } := by
      simp [created]
    refine ⟨?_, ?_, ?_, ?_⟩
    · simp only []
      rw [show (created s (cstr b)).clientlist = s.next_client :: s.clientlist from rfl,
        List.map_cons, hnew]
      rw [List.map_congr_left (fun a ha => by rw [hold a ha])]
      refine List.nodup_cons.mpr ⟨?_, w1⟩
      intro hin
      rw [List.mem_map] at hin
      obtain ⟨a, ha, hae⟩ := hin
      rw [List.find?_eq_none] at hf
      have := hf a ha
      rw [name_matches_iff] at this
      exact this hae
    · intro a ha
      simp only [] at ha ⊢
      rw [show (created s (cstr b)).clientlist = s.next_client :: s.clientlist from rfl,
        List.mem_cons] at ha
      rw [show (created s (cstr b)).next_client = s.next_client + 1 from rfl]
      rcases ha with ha | ha
      · rw [ha, hnew]
        exact ⟨by omega, hne, cstr_idem b⟩
      · rw [hold a ha]
        have := w2 a ha
        exact ⟨by omega, this.2.1, this.2.2⟩
    · intro k hk c hc
      simp only [] at hk ⊢
      rw [show (created s (cstr b)).clientlist = s.next_client :: s.clientlist from rfl]
      rcases List.mem_or_eq_of_mem_set hk with hk1 | hk1
      · obtain ⟨b1, b2, b3⟩ := w3 k hk1 c hc
        exact ⟨b1, List.mem_cons_of_mem _ b2, by rw [hold c b2]; exact b3⟩
      · rw [hk1] at hc ⊢
        simp only [Option.some.injEq] at hc
        subst hc
        exact ⟨hfd, List.mem_cons_self _ _, by rw [hnew]⟩
    · refine bound_nodup_set_some s.connlist i conn _ s.next_client hi rfl ?_ w4
      intro k hk hkc
      exact hfresh _ (w3 k hk _ hkc).2.1 rfl

theorem wf_clients_start (n : Option Int) (s : server_t) (h : server_start n = some s) :
    wf_clients s := by
  have hl : s.clientlist = [] ∧ s.connlist = [] := by
    cases n with
    | none => simp [server_start] at h; subst h; simp [server_init]
    | some m =>
      simp only [server_start, set_maxjobs] at h
      split at h
      · simp at h
      · simp at h; subst h; simp [server_init]
  unfold wf_clients
  rw [hl.1, hl.2]
  simp

theorem wf_clients_step (s s1 : server_t) (st : step) (hw : wf_clients s)
    (h : run_step s st = some s1) : wf_clients s1 := by
  rcases step_clients_cases s s1 st h with hs | ⟨fd, _, rfl⟩ | ⟨i, conn, hi, _, t, rfl⟩ |
    ⟨i, conn, n, t, hi, hfd, rfl⟩
  · exact wf_clients_same hs hw
  · exact wf_clients_accept s fd hw
  · exact wf_clients_disconnect s i conn t hi hw
  · exact wf_clients_login s i conn n t hi hfd hw

theorem wf_clients_reach (ok : server_t → step → Prop) (s : server_t) (h : reach ok s) :
    wf_clients s := by
  induction h with
  | start n s h0 => exact wf_clients_start n s h0
  | next s s1 st _ _ hrun ih => exact wf_clients_step s s1 st ih hrun

/-! ## Owner preservation (C6) -/

theorem find_by_name (f : Nat → bytes) : ∀ (l : List Nat) (c : Nat),
    (l.map f).Nodup → c ∈ l → l.find? (fun a => name_matches (f a) (f c)) = some c := by
  intro l
  induction l with
  | nil => intro c _ hc; simp at hc
  | cons x xs ih =>
    intro c hn hc
    rw [List.map_cons, List.nodup_cons] at hn
    by_cases hx : x = c
    · subst hx
      have : name_matches (f x) (f x) = true := (name_matches_iff _ _).mpr rfl
      simp [List.find?_cons, this]
    · have hcx : c ∈ xs := by
        rcases List.mem_cons.mp hc with h | h
        · exact absurd h.symm hx
        · exact h
      have hne : name_matches (f x) (f c) = false := by
        cases hm : name_matches (f x) (f c) with
        | false => rfl
        | true =>
          exfalso
          rw [name_matches_iff] at hm
          exact hn.1 (by rw [hm]; exact List.mem_map_of_mem f hcx)
      simp only [List.find?_cons, hne]
      exact ih c hn.2 hcx

/-- C6: in every reachable state, for a client record bound to a connection,
server_disconnect_client on that connection removes exactly that connection and
no client record, and server_login_client with the same name then returns the
same record with connected = 1, the same job list and id counter, every job
record being unchanged. -/
theorem C6_owner_preservation (s : server_t) (i : Nat) (conn : conn_t) (c : Nat)
    (hr : reachable s) (hi : s.connlist[i]? = some conn) (hc : conn.client = some c) :
    (server_disconnect_client s (some i)).1.connlist = s.connlist.eraseIdx i ∧
    (server_disconnect_client s (some i)).1.clientlist = s.clientlist ∧
    (server_login_client (server_disconnect_client s (some i)).1
      (some (s.clientmem c).name)).2 = some c ∧
    ((server_login_client (server_disconnect_client s (some i)).1
      (some (s.clientmem c).name)).1.clientmem c).connected = 1 ∧
    ((server_login_client (server_disconnect_client s (some i)).1
      (some (s.clientmem c).name)).1.clientmem c).jobs = (s.clientmem c).jobs ∧
    ((server_login_client (server_disconnect_client s (some i)).1
      (some (s.clientmem c).name)).1.clientmem c).numjobs = (s.clientmem c).numjobs ∧
    (server_login_client (server_disconnect_client s (some i)).1
      (some (s.clientmem c).name)).1.jobmem = s.jobmem ∧
    (server_login_client (server_disconnect_client s (some i)).1
      (some (s.clientmem c).name)).1.clientlist = s.clientlist := by
  obtain ⟨w1, w2, w3, w4⟩ := wf_clients_reach os_step s hr
  obtain ⟨hfd, hmem, _⟩ := w3 conn (List.getElem?_mem hi) c hc
  obtain ⟨_, hne, hcs⟩ := w2 c hmem
  have hd : (server_disconnect_client s (some i)).1 =
      { disconnected s i conn with trace := s.trace ++ [effect.close conn.fd] } := by
    simp [server_disconnect_client, hi, hfd, disconnected, emit, hc]
  rw [hd]
  have hcm : (disconnected s i conn).clientmem =
      upd s.clientmem c { s.clientmem c with connected := 0 } := by
    simp [disconnected, hc]
  have hnames : (fun a => name_matches ((disconnected s i conn).clientmem a).name
      (s.clientmem c).name) = (fun a => name_matches (s.clientmem a).name (s.clientmem c).name) := by
    funext a
    rw [hcm]
    simp only [upd]; split
    · rename_i e; rw [e]
    · rfl
  have hfind : s.clientlist.find? (fun a => name_matches ((disconnected s i conn).clientmem a).name
      (s.clientmem c).name) = some c := by
    rw [hnames]
    exact find_by_name (fun a => (s.clientmem a).name) s.clientlist c w1 hmem
  have hlen : (s.clientmem c).name.length > 0 := List.length_pos.mpr hne
  have hl : server_login_client
      { disconnected s i conn with trace := s.trace ++ [effect.close conn.fd] }
      (some (s.clientmem c).name) =
      (rebound { disconnected s i conn with trace := s.trace ++ [effect.close conn.fd] } c,
        some c) := by
    simp only [server_login_client, hcs]
    simp only [hlen, not_true_eq_false, if_false]
    rw [show ({ disconnected s i conn with trace := s.trace ++ [effect.close conn.fd] }
      : server_t).clientlist = s.clientlist from rfl]
    simp only [hfind]
    rw [hcm]
    simp [rebound]
  rw [hl]
  refine ⟨rfl, rfl, rfl, ?_, ?_, ?_, rfl, rfl⟩
  · simp [rebound]
  · simp only [rebound, upd_same]; rw [hcm]; simp
  · simp only [rebound, upd_same]; rw [hcm]; simp

/-- C6, witness: client "a" with one RUNNING job, bound to the connection at
position 0. -/
theorem C6_owner_preservation_witness :
    state_one_running.connlist[0]? = some ⟨4, some 0⟩ ∧
    (server_login_client (server_disconnect_client state_one_running (some 0)).1
      (some (state_one_running.clientmem 0).name)).2 = some 0 ∧
    ((server_login_client (server_disconnect_client state_one_running (some 0)).1
      (some (state_one_running.clientmem 0).name)).1.clientmem 0).jobs = [0] :=
  ⟨by decide,
   (C6_owner_preservation state_one_running 0 ⟨4, some 0⟩ 0
      (reach_run_from_start os_step (some 1) trace_one_running state_one_running
        (getD_of_isSome _ _ (by decide))) (by decide) rfl).2.2.1,
   ((C6_owner_preservation state_one_running 0 ⟨4, some 0⟩ 0
      (reach_run_from_start os_step (some 1) trace_one_running state_one_running
        (getD_of_isSome _ _ (by decide))) (by decide) rfl).2.2.2.2.1).trans (by decide)⟩

/-! ## The codec: integers and READ -/

theorem le_bytes_length (k n : Nat) : (le_bytes k n).length = k := by
  induction k generalizing n with
  | zero => rfl
  | succ k ih => simp [le_bytes, ih]

theorem le_val_le_bytes (k n : Nat) : le_val (le_bytes k n) = n % 256 ^ k := by
  induction k generalizing n with
  | zero => simp [le_bytes, le_val, Nat.mod_one]
  | succ k ih =>
    simp only [le_bytes, le_val, ih]
    rw [pow_succ', Nat.mod_mul]

theorem le_val_le_bytes4 (n : Nat) (h : n < 4294967296) : le_val (le_bytes 4 n) = n := by
  rw [le_val_le_bytes]
  exact Nat.mod_eq_of_lt (by norm_num; exact h)

theorem buf_append (b rest : bytes) : buf (b ++ rest) b.length = b := by
  simp [buf]

theorem READ_append (b rest : bytes) (h : b ≠ []) :
    READ (b ++ rest) b.length = some (b, rest) := by
  have h1 : b.length ≠ 0 := by
    intro e; exact h (List.length_eq_zero.mp e)
  have h2 : b ++ rest ≠ [] := by
    intro e; exact h (List.append_eq_nil.mp e).1
  simp only [READ, h1, h2, or_self, if_false, buf_append, List.drop_left]

theorem READ_u32_append (n : Nat) (rest : bytes) (h : n < 4294967296) :
    READ_u32 (le_bytes 4 n ++ rest) = some (n, rest) := by
  have hl := le_bytes_length 4 n
  have hne : le_bytes 4 n ≠ [] := by
    intro e; rw [e] at hl; simp at hl
  have := READ_append (le_bytes 4 n) rest hne
  rw [hl] at this
  simp only [READ_u32, this, le_val_le_bytes4 n h]

theorem to_u32_lt (x : Int) : to_u32 x < 4294967296 := by
  unfold to_u32
  have h1 : 0 ≤ x % 4294967296 := Int.emod_nonneg _ (by norm_num)
  have h2 : x % 4294967296 < 4294967296 := Int.emod_lt_of_pos _ (by norm_num)
  omega

theorem to_i32_to_u32 (x : Int) (h1 : -2147483648 ≤ x) (h2 : x < 2147483648) :
    to_i32 (to_u32 x) = x := by
  unfold to_i32 to_u32
  have h3 : 0 ≤ x % 4294967296 := Int.emod_nonneg _ (by norm_num)
  have h4 : x % 4294967296 < 4294967296 := Int.emod_lt_of_pos _ (by norm_num)
  have h5 : ((x % 4294967296).toNat : Int) = x % 4294967296 := Int.toNat_of_nonneg h3
  have h6 : (x % 4294967296).toNat % 4294967296 = (x % 4294967296).toNat := by
    apply Nat.mod_eq_of_lt; omega
  rw [h6]
  by_cases hx : 0 ≤ x
  · have h7 : x % 4294967296 = x := Int.emod_eq_of_lt hx (by omega)
    have h8 : (x % 4294967296).toNat < 2147483648 := by omega
    simp only [h8, if_true]
    omega
  · have h7 : x % 4294967296 = x + 4294967296 := by
      have : (x + 4294967296) % 4294967296 = x + 4294967296 :=
        Int.emod_eq_of_lt (by omega) (by omega)
      rw [← this]; simp
    have h8 : ¬ (x % 4294967296).toNat < 2147483648 := by omega
    simp only [h8, if_false]
    omega

theorem to_i32_of_small (n : Nat) (h : n < 2147483648) : to_i32 n = (n : Int) := by
  unfold to_i32
  have h1 : n % 4294967296 = n := Nat.mod_eq_of_lt (by omega)
  rw [h1]
  simp [h]

/-! ## The codec: listing chains -/

theorem recv_listing_record_send (l : listing_t) (rest : bytes) (hw : listing_wf l) :
    recv_listing_record (send_listing [l] ++ rest) = some (l, rest) := by
  obtain ⟨h1, h2, h3, h4, h5, h6, h7, h8⟩ := hw
  have hbuf : buf l.cmdline l.cmdlen = l.cmdline := by
    rw [← h5]; simp [buf]
  have hne : l.cmdline ≠ [] := by
    intro e; rw [e] at h5; simp at h5; omega
  simp only [send_listing, List.append_nil, List.append_assoc, hbuf]
  unfold recv_listing_record
  rw [READ_u32_append _ _ h1]
  simp only []
  rw [READ_u32_append _ _ h2]
  simp only []
  rw [READ_u32_append _ _ h3]
  simp only []
  rw [← h5, READ_append _ _ hne]
  simp only []
  rw [READ_u32_append _ _ h6]
  simp only []
  rw [READ_u32_append _ _ (to_u32_lt _)]
  simp only [to_i32_to_u32 _ h7 h8, h5]

theorem send_listing_cons (l : listing_t) (ls : List listing_t) :
    send_listing (l :: ls) = send_listing [l] ++ send_listing ls := by
  simp [send_listing]

theorem recv_listing_send : ∀ (L : List listing_t) (rest : bytes) (fuel : Nat),
    chain_ok L → (∀ l ∈ L, listing_wf l) → L.length ≤ fuel →
    recv_listing fuel (send_listing L ++ rest) = some (L, rest) := by
  intro L
  induction L with
  | nil => intro rest fuel hc; simp [chain_ok] at hc
  | cons l ls ih =>
    intro rest fuel hc hw hf
    cases fuel with
    | zero => simp at hf
    | succ fuel =>
      rw [send_listing_cons, List.append_assoc]
      simp only [recv_listing]
      rw [recv_listing_record_send l _ (hw l (List.mem_cons_self _ _))]
      simp only []
      cases ls with
      | nil =>
        simp only [chain_ok] at hc
        simp [hc, send_listing]
      | cons l1 ls1 =>
        simp only [chain_ok] at hc
        simp only [hc.1, if_true]
        rw [ih rest fuel hc.2 (fun x hx => hw x (List.mem_cons_of_mem _ hx))
          (by simp at hf ⊢; omega)]

theorem send_listing_length (L : List listing_t) : L.length ≤ (send_listing L).length := by
  induction L with
  | nil => simp [send_listing]
  | cons l ls ih =>
    rw [send_listing_cons]
    simp only [List.length_cons, List.length_append]
    have : 1 ≤ (send_listing [l]).length := by
      simp [send_listing, le_bytes_length]
      omega
    omega

theorem recv_pkt_listing (L : List listing_t) (rest : bytes) (hc : chain_ok L)
    (hw : ∀ l ∈ L, listing_wf l) :
    send_pkt JOB_LIST_ALL_RESP (payload_t.listing L) = some (15 :: send_listing L, 0) ∧
    recv_pkt (15 :: send_listing L ++ rest) = some (15, payload_t.listing L, rest) := by
  refine ⟨by simp [send_pkt, JOB_LIST_ALL_RESP], ?_⟩
  have hf : L.length ≤ (send_listing L ++ rest).length + 1 := by
    have := send_listing_length L
    simp only [List.length_append]; omega
  simp only [recv_pkt, List.cons_append]
  simp only [show ¬ ((15 : Nat) = ACK ∨ (15 : Nat) = NACK ∨ (15 : Nat) = JOB_LIST_ALL) by decide,
    show ¬ ((15 : Nat) = JOB_UPDATE) by decide, show ¬ ((15 : Nat) = LOGIN) by decide,
    show ¬ ((15 : Nat) = JOB_SUBMIT) by decide,
    show ¬ ((15 : Nat) = JOB_SUBMIT_SUCCESS ∨ (15 : Nat) = JOB_STATUS ∨ (15 : Nat) = JOB_EXPUNGE ∨
      (15 : Nat) = JOB_GET_STDOUT ∨ (15 : Nat) = JOB_GET_STDERR) by decide,
    show ¬ ((15 : Nat) = JOB_STATUS_RESP) by decide,
    show ((15 : Nat) = JOB_LIST_ALL_RESP) by decide, if_true, if_false]
  rw [recv_listing_send L rest _ hc hw hf]
  rfl

/-! ## List framing (C7) -/

theorem build_listing_length (s : server_t) (N : Nat) : ∀ (js : List Nat) (i : Nat),
    (build_listing s N i js).length = js.length := by
  intro js
  induction js with
  | nil => intro i; rfl
  | cons j js ih => intro i; simp [build_listing, ih]

theorem build_listing_get (s : server_t) (N : Nat) : ∀ (js : List Nat) (i k j : Nat),
    js[k]? = some j →
    (build_listing s N i js)[k]? = some
      { jobid := (s.jobmem j).jobid, left := N - (i + k) - 1,
        cmdlen := (s.jobmem j).ui.input.length + 1,
        cmdline := (s.jobmem j).ui.input ++ [0],
        status := (s.jobmem j).status, exitcode := to_i32 (s.jobmem j).exitcode } := by
  intro js
  induction js with
  | nil => intro i k j h; simp at h
  | cons x xs ih =>
    intro i k j h
    cases k with
    | zero =>
      simp only [List.getElem?_cons_zero, Option.some.injEq] at h
      subst h
      simp [build_listing]
    | succ k =>
      simp only [List.getElem?_cons_succ] at h
      simp only [build_listing, List.getElem?_cons_succ]
      rw [ih (i + 1) k j h]
      have : i + 1 + k = i + (k + 1) := by omega
      rw [this]

theorem build_listing_chain_ok (s : server_t) (N : Nat) : ∀ (js : List Nat) (i : Nat),
    js ≠ [] → i + js.length = N → chain_ok (build_listing s N i js) := by
  intro js
  induction js with
  | nil => intro i h; exact absurd rfl h
  | cons x xs ih =>
    intro i _ hN
    cases xs with
    | nil =>
      simp only [build_listing, chain_ok]
      simp at hN
      omega
    | cons y ys =>
      have h2 := ih (i + 1) (by simp) (by simp at hN ⊢; omega)
      simp only [build_listing, chain_ok] at h2 ⊢
      refine ⟨?_, h2⟩
      simp at hN
      omega

theorem build_listing_wf (s : server_t) (N : Nat) (hN : N < 4294967296) :
    ∀ (js : List Nat) (i : Nat),
    (∀ j ∈ js, (s.jobmem j).jobid < 4294967296 ∧ (s.jobmem j).status < 4294967296 ∧
      (s.jobmem j).exitcode < 2147483648 ∧ (s.jobmem j).ui.input.length + 1 < 4294967296) →
    ∀ l ∈ build_listing s N i js, listing_wf l := by
  intro js
  induction js with
  | nil => intro i _ l hl; simp [build_listing] at hl
  | cons x xs ih =>
    intro i hw l hl
    simp only [build_listing, List.mem_cons] at hl
    rcases hl with rfl | hl
    · obtain ⟨a1, a2, a3, a4⟩ := hw x (List.mem_cons_self _ _)
      refine ⟨a1, by simp only []; omega, a4, by simp, by simp, a2, ?_, ?_⟩
      · simp only []; rw [to_i32_of_small _ a3]; omega
      · simp only []; rw [to_i32_of_small _ a3]; omega
    · exact ih (i + 1) (fun j hj => hw j (List.mem_cons_of_mem _ hj)) l hl

/-- C7: in every reachable state, for a connection bound to a client whose job
list is j_0..j_{N-1} (N >= 1, the fields of the jobs fitting their C types and the
exit codes below 2^31), the dispatcher answers JOB_LIST_ALL with one
JOB_LIST_ALL_RESP whose chain has exactly N records, the k-th carrying
left = N-1-k and the jobid, command line, status and exitcode of j_k; recv_pkt on
the bytes send_pkt writes for it, followed by any further bytes, returns
exactly that chain and leaves the further bytes unread. -/
theorem C7_list_framing (s : server_t) (i : Nat) (conn : conn_t) (c : Nat) (rest : bytes)
    (hr : reachable s) (hi : s.connlist[i]? = some conn) (hb : conn.client = some c)
    (hne : (s.clientmem c).jobs ≠ []) (hN : (s.clientmem c).jobs.length < 4294967296)
    (hw : ∀ j ∈ (s.clientmem c).jobs, (s.jobmem j).jobid < 4294967296 ∧
      (s.jobmem j).status < 4294967296 ∧ (s.jobmem j).exitcode < 2147483648 ∧
      (s.jobmem j).ui.input.length + 1 < 4294967296) :
    handle_list_all s conn = some (emit s (effect.send conn.fd JOB_LIST_ALL_RESP
      (payload_t.listing (build_listing s (s.clientmem c).jobs.length 0 (s.clientmem c).jobs))),
      0) ∧
    (build_listing s (s.clientmem c).jobs.length 0 (s.clientmem c).jobs).length
      = (s.clientmem c).jobs.length ∧
    (∀ k j : Nat, (s.clientmem c).jobs[k]? = some j →
      (build_listing s (s.clientmem c).jobs.length 0 (s.clientmem c).jobs)[k]? = some
        (listing_t.mk (s.jobmem j).jobid ((s.clientmem c).jobs.length - 1 - k)
          ((s.jobmem j).ui.input.length + 1) ((s.jobmem j).ui.input ++ [0])
          (s.jobmem j).status ((s.jobmem j).exitcode : Int))) ∧
    send_pkt JOB_LIST_ALL_RESP (payload_t.listing
      (build_listing s (s.clientmem c).jobs.length 0 (s.clientmem c).jobs)) =
      some (15 :: send_listing
        (build_listing s (s.clientmem c).jobs.length 0 (s.clientmem c).jobs), 0) ∧
    recv_pkt (15 :: send_listing
        (build_listing s (s.clientmem c).jobs.length 0 (s.clientmem c).jobs) ++ rest) =
      some (15, payload_t.listing
        (build_listing s (s.clientmem c).jobs.length 0 (s.clientmem c).jobs), rest) := by
  obtain ⟨_, _, w3, _⟩ := wf_clients_reach os_step s hr
  obtain ⟨_, _, hcon⟩ := w3 conn (List.getElem?_mem hi) c hb
  have hlen : (s.clientmem c).jobs.length ≠ 0 := by
    intro e; exact hne (List.length_eq_zero.mp e)
  have hrt := recv_pkt_listing
    (build_listing s (s.clientmem c).jobs.length 0 (s.clientmem c).jobs) rest
    (build_listing_chain_ok s _ _ 0 hne (by omega)) (build_listing_wf s _ hN _ 0 hw)
  refine ⟨?_, build_listing_length s _ _ 0, ?_, hrt.1, hrt.2⟩
  · simp [handle_list_all, hb, hlen, reply, hcon]
  · intro k j hk
    rw [build_listing_get s _ _ 0 k j hk]
    have hj : j ∈ (s.clientmem c).jobs := List.getElem?_mem hk
    rw [to_i32_of_small _ (hw j hj).2.2.1]
    have : (s.clientmem c).jobs.length - (0 + k) - 1 = (s.clientmem c).jobs.length - 1 - k := by
      omega
    rw [this]

/-- C7, witness: client "a" after scenario S1 has the jobs 0 (EXITED) and 1
(RUNNING); the listing has two records with left = 1 and left = 0. -/
theorem C7_list_framing_witness :
    (state_S1.clientmem 0).jobs = [0, 1] ∧
    (build_listing state_S1 (state_S1.clientmem 0).jobs.length 0
      (state_S1.clientmem 0).jobs).length = (state_S1.clientmem 0).jobs.length ∧
    recv_pkt (15 :: send_listing (build_listing state_S1 (state_S1.clientmem 0).jobs.length 0
        (state_S1.clientmem 0).jobs) ++ [1]) =
      some (15, payload_t.listing (build_listing state_S1 (state_S1.clientmem 0).jobs.length 0
        (state_S1.clientmem 0).jobs), [1]) :=
  ⟨by decide,
   (C7_list_framing state_S1 0 ⟨4, some 0⟩ 0 [1] reachable_state_S1 (by decide) rfl
      (by decide) (by decide) (by decide)).2.1,
   (C7_list_framing state_S1 0 ⟨4, some 0⟩ 0 [1] reachable_state_S1 (by decide) rfl
      (by decide) (by decide) (by decide)).2.2.2.2⟩

/-! ## No signal to a dead process group (C8) -/

/-- C8, the code at the failing input: after scenario S1 job 0 of client "a" is
EXITED with pgid 100; the request JOB_SIGNAL(0, 9) on the client's connection is
answered with ACK and killpg(100, 9) is called. -/
theorem C8_signal_sent_to_exited_job :
    (state_S1.jobmem 0).status = EXITED ∧ (state_S1.jobmem 0).pgid = 100 ∧
    (state_S1.jobmem 0).jobid = 0 ∧
    (run_step state_S1 (step.request os_demo 0 frame_signal_0_9)).map
      (fun s => s.trace.drop state_S1.trace.length) =
      some [effect.send 4 ACK payload_t.null, effect.killpg 100 9] := by
  decide

/-! ## Backfill ordering (C9) -/

theorem exec_job_launch (os : os_t) (s : server_t) (c job : Nat)
    (hlt : s.numjobs < s.maxjobs) (hcmd : (s.jobmem job).ui.commands ≠ [])
    (hfork : 0 < os.fork s.nfork) :
    ∃ t, exec_job os s (some c) job = some (launch_state os s job t, 0) := by
  have hsome : ∃ x, exec_job os s (some c) job = some x := by
    have h1 : ¬ os.fork s.nfork < 0 := by omega
    have h2 : ¬ os.fork s.nfork = 0 := by omega
    cases hc : (s.jobmem job).ui.commands with
    | nil => exact absurd hc hcmd
    | cons cmd cmds =>
      simp only [exec_job, hlt, not_true_eq_false, if_false, hc, h1, h2]
      split <;> exact ⟨_, rfl⟩
  obtain ⟨⟨s1, r⟩, hx⟩ := hsome
  rcases exec_job_cases os s s1 (some c) job r hx with h | ⟨_, _, _, _, hr, t, h⟩
  · exfalso
    subst h
    have h1 : ¬ os.fork s1.nfork < 0 := by omega
    have h2 : ¬ os.fork s1.nfork = 0 := by omega
    cases hc : (s1.jobmem job).ui.commands with
    | nil => exact absurd hc hcmd
    | cons cmd cmds =>
      simp only [exec_job, hlt, not_true_eq_false, if_false, hc, h1, h2] at hx
      split at hx
      · simp only [Option.some.injEq, Prod.mk.injEq] at hx
        have := congrArg server_t.numjobs hx.1
        simp [run_in_background, emit] at this
        split at this <;> simp at this
      · simp only [Option.some.injEq, Prod.mk.injEq] at hx
        have := congrArg server_t.numjobs hx.1
        simp [run_in_background, emit] at this
        split at this <;> simp at this
  · exact ⟨t, by rw [hx, h, hr]; rfl⟩

theorem new_jobs_congr (s s1 : server_t) (l : List Nat)
    (h : ∀ a ∈ l, s1.jobmem a = s.jobmem a) : new_jobs s1 l = new_jobs s l := by
  unfold new_jobs
  apply List.filter_congr
  intro a ha
  rw [h a ha]

theorem backfill_exact (os : os_t) (hfork : ∀ k, 0 < os.fork k) :
    ∀ (l : List Nat) (s : server_t), l.Nodup →
    (∀ a ∈ l, (s.jobmem a).status = NEW →
      (s.jobmem a).owner ≠ none ∧ (s.jobmem a).ui.commands ≠ []) →
    ∃ s1, backfill os s l = some s1 ∧
      s1.numjobs = s.numjobs + (backfill_count s l : Int) ∧
      (∀ a ∈ (new_jobs s l).take (backfill_count s l), (s1.jobmem a).status = RUNNING) ∧
      (∀ a, a ∉ (new_jobs s l).take (backfill_count s l) → s1.jobmem a = s.jobmem a) := by
  intro l
  induction l with
  | nil =>
    intro s _ _
    exact ⟨s, rfl, by simp [backfill_count, new_jobs], by simp [new_jobs], fun _ _ => rfl⟩
  | cons j rest ih =>
    intro s hnd hwf
    rw [List.nodup_cons] at hnd
    by_cases hlt : s.numjobs < s.maxjobs
    · by_cases hn : (s.jobmem j).status = NEW
      · obtain ⟨c, hc⟩ := Option.ne_none_iff_exists'.mp (hwf j (List.mem_cons_self _ _) hn).1
        obtain ⟨t, he⟩ := exec_job_launch os s c j hlt
          (hwf j (List.mem_cons_self _ _) hn).2 (hfork _)
        have hrest : ∀ a ∈ rest, a ≠ j := by
          intro a ha e; rw [e] at ha; exact hnd.1 ha
        obtain ⟨s1, hb, h1, h2, h3⟩ := ih
          (launch_state os s j t) hnd.2
          (by
            intro a ha hst
            simp only [launch_state] at hst ⊢
            rw [upd_other _ _ _ _ (hrest a ha)] at hst ⊢
            exact hwf a (List.mem_cons_of_mem _ ha) hst)
        have hnew : new_jobs (launch_state os s j t) rest
            = new_jobs s rest :=
          new_jobs_congr _ _ _ (fun a ha => upd_other _ _ _ _ (hrest a ha))
        have hnl : new_jobs s (j :: rest) = j :: new_jobs s rest := by
          simp [new_jobs, hn]
        have hcnt : backfill_count s (j :: rest) =
            backfill_count (launch_state os s j t) rest + 1 := by
          simp only [backfill_count, hnew, hnl, List.length_cons]
          simp only [launch_state]
          omega
        rw [hnew] at h2 h3
        refine ⟨s1, ?_, ?_, ?_, ?_⟩
        · simp only [backfill, hlt, hn, if_true, hc, he]
          exact hb
        · rw [h1, hcnt]; simp only [launch_state]; push_cast; ring
        · intro a ha
          rw [hcnt, hnl, List.take_succ_cons, List.mem_cons] at ha
          rcases ha with ha | ha
          · have hj : j ∉ (new_jobs s rest).take (backfill_count (launch_state os s j t) rest) := by
              intro hin
              have := List.mem_of_mem_take hin
              simp only [new_jobs, List.mem_filter] at this
              exact hnd.1 this.1
            rw [ha, h3 j hj]
            simp [launch_state, launched, hn]
          · exact h2 a ha
        · intro a ha
          rw [hcnt, hnl, List.take_succ_cons, List.mem_cons, not_or] at ha
          rw [h3 a ha.2]
          simp only [launch_state]
          exact upd_other _ _ _ _ ha.1
      · obtain ⟨s1, hb, h1, h2, h3⟩ := ih s hnd.2
          (fun a ha => hwf a (List.mem_cons_of_mem _ ha))
        have hnl : new_jobs s (j :: rest) = new_jobs s rest := by
          simp [new_jobs, hn]
        have hcnt : backfill_count s (j :: rest) = backfill_count s rest := by
          simp only [backfill_count, hnl]
        rw [hcnt, hnl]
        refine ⟨s1, ?_, h1, h2, h3⟩
        simp only [backfill, hlt, hn, if_true, if_false]
        exact hb
    · have hcnt : backfill_count s (j :: rest) = 0 := by
        simp only [backfill_count]
        have : (s.maxjobs - s.numjobs).toNat = 0 := by omega
        rw [this]; simp
      rw [hcnt]
      refine ⟨s, ?_, by simp, by simp, fun _ _ => rfl⟩
      simp only [backfill, hlt, if_false]

theorem reap_backfill_eq (os : os_t) (s s3 : server_t) (pid : Int) (status : wait_status)
    (ru : rusage) (j : Nat) (hl : jobs_lookup_by_pid s s.joblist pid = some j)
    (hst : ((reaped s j status ru).jobmem j).status = SUSPENDED ∨
      ((reaped s j status ru).jobmem j).status = EXITED ∨
      ((reaped s j status ru).jobmem j).status = ABORTED)
    (hb : backfill os (before_backfill s j status ru) s.joblist = some s3) :
    ∃ t, reap os s pid status ru = some { s3 with trace := s3.trace ++ t } := by
  have hnr : ¬ ((reaped s j status ru).jobmem j).status = RUNNING := by
    rcases hst with h | h | h <;> rw [h] <;> decide
  have hb2 : backfill os { reaped s j status ru with numjobs := (reaped s j status ru).numjobs - 1 }
      (reaped s j status ru).joblist = some s3 := hb
  simp only [reap, hl, hnr, hst, if_true, if_false, hb2]
  split
  · exact ⟨[], by simp⟩
  · split
    · exact ⟨[], by simp⟩
    · split
      · exact ⟨_, by simp [emit]; rfl⟩
      · exact ⟨[], by simp⟩

theorem not_mem_take_of_mem_drop {α : Type} (l : List α) (n : Nat) (a : α) (hn : l.Nodup)
    (h : a ∈ l.drop n) : a ∉ l.take n := by
  intro ht
  have h2 := List.take_append_drop n l
  rw [← h2, List.nodup_append] at hn
  exact hn.2.2 ht h

/-- C9: when the reaper finds the job `j` for a reported child and moves it to
SUSPENDED, EXITED or ABORTED, leaving numjobs = m (fork succeeding, the server's
list without repetition, every NEW job in it having an owner and a parsed
command), the backfill pass starts exactly the first min(k, maxjobs - m) of the k
NEW jobs of the server's list, in list order: these become RUNNING, every other
NEW job stays NEW, no other job but `j` changes, and numjobs grows by the number
of jobs started. The server's list is in insertion order: jobs_insert appends. -/
theorem C9_backfill_order (os : os_t) (s : server_t) (pid : Int) (status : wait_status)
    (ru : rusage) (j : Nat) (hfork : ∀ k, 0 < os.fork k)
    (hl : jobs_lookup_by_pid s s.joblist pid = some j)
    (hst : ((reaped s j status ru).jobmem j).status = SUSPENDED ∨
      ((reaped s j status ru).jobmem j).status = EXITED ∨
      ((reaped s j status ru).jobmem j).status = ABORTED)
    (hnd : s.joblist.Nodup)
    (hwf : ∀ a ∈ s.joblist, (s.jobmem a).status = NEW →
      (s.jobmem a).owner ≠ none ∧ (s.jobmem a).ui.commands ≠ []) :
    (∃ s1, reap os s pid status ru = some s1 ∧
      s1.numjobs = s.numjobs - 1 +
        (backfill_count (before_backfill s j status ru) s.joblist : Int) ∧
      (∀ a ∈ (new_jobs (before_backfill s j status ru) s.joblist).take
          (backfill_count (before_backfill s j status ru) s.joblist),
        (s1.jobmem a).status = RUNNING) ∧
      (∀ a ∈ (new_jobs (before_backfill s j status ru) s.joblist).drop
          (backfill_count (before_backfill s j status ru) s.joblist),
        (s1.jobmem a).status = NEW) ∧
      (∀ a, a ∉ (new_jobs (before_backfill s j status ru) s.joblist).take
          (backfill_count (before_backfill s j status ru) s.joblist) → a ≠ j →
        s1.jobmem a = s.jobmem a)) ∧
    (∀ c job, (jobs_insert os s (some c) (some job)).1.joblist = s.joblist ++ [job]) := by
  refine ⟨?_, fun c job => rfl⟩
  have hother : ∀ a, a ≠ j → (before_backfill s j status ru).jobmem a = s.jobmem a := by
    intro a ha
    simp only [before_backfill, reaped]
    exact upd_other _ _ _ _ ha
  have hjst : ((before_backfill s j status ru).jobmem j).status ≠ NEW := by
    have : (before_backfill s j status ru).jobmem j = (reaped s j status ru).jobmem j := rfl
    rw [this]
    rcases hst with h | h | h <;> rw [h] <;> decide
  obtain ⟨s3, hb, h1, h2, h3⟩ := backfill_exact os hfork s.joblist
    (before_backfill s j status ru) hnd (by
      intro a ha hn
      have haj : a ≠ j := by
        intro e; rw [e] at hn; exact hjst hn
      rw [hother a haj] at hn ⊢
      exact hwf a ha hn)
  obtain ⟨t, hr⟩ := reap_backfill_eq os s s3 pid status ru j hl hst hb
  refine ⟨_, hr, ?_, ?_, ?_, ?_⟩
  · simp only []; rw [h1]; rfl
  · intro a ha; exact h2 a ha
  · intro a ha
    have hnn : (new_jobs (before_backfill s j status ru) s.joblist).Nodup :=
      List.Nodup.sublist (List.filter_sublist _) hnd
    simp only []
    rw [h3 a (not_mem_take_of_mem_drop _ _ a hnn ha)]
    have := List.mem_of_mem_drop ha
    simp only [new_jobs, List.mem_filter, decide_eq_true_eq] at this
    exact this.2
  · intro a ha haj
    simp only []
    rw [h3 a ha]
    exact hother a haj

/-- C9, witness: with one slot, job 0 RUNNING (pgid 100) and job 1 NEW, the exit
of job 0 starts job 1. -/
theorem C9_backfill_order_witness :
    new_jobs (before_backfill state_two_submitted 0 ws_exited ru_zero)
      state_two_submitted.joblist = [1] ∧
    backfill_count (before_backfill state_two_submitted 0 ws_exited ru_zero)
      state_two_submitted.joblist = 1 ∧
    ∃ s1, reap os_demo state_two_submitted 100 ws_exited ru_zero = some s1 ∧
      s1.numjobs = state_two_submitted.numjobs - 1 +
        (backfill_count (before_backfill state_two_submitted 0 ws_exited ru_zero)
          state_two_submitted.joblist : Int) ∧
      (∀ a ∈ (new_jobs (before_backfill state_two_submitted 0 ws_exited ru_zero)
          state_two_submitted.joblist).take
          (backfill_count (before_backfill state_two_submitted 0 ws_exited ru_zero)
            state_two_submitted.joblist),
        (s1.jobmem a).status = RUNNING) ∧
      (∀ a ∈ (new_jobs (before_backfill state_two_submitted 0 ws_exited ru_zero)
          state_two_submitted.joblist).drop
          (backfill_count (before_backfill state_two_submitted 0 ws_exited ru_zero)
            state_two_submitted.joblist),
        (s1.jobmem a).status = NEW) ∧
      (∀ a, a ∉ (new_jobs (before_backfill state_two_submitted 0 ws_exited ru_zero)
          state_two_submitted.joblist).take
          (backfill_count (before_backfill state_two_submitted 0 ws_exited ru_zero)
            state_two_submitted.joblist) → a ≠ 0 →
        s1.jobmem a = state_two_submitted.jobmem a) :=
  ⟨by decide, by decide,
   (C9_backfill_order os_demo state_two_submitted 100 ws_exited ru_zero 0
      (fun k => by simp only [os_demo]; omega) (by decide) (by decide) (by decide)
      (by decide)).1⟩

/-! ## numjobs accounting (C10) -/

theorem request_cases_recv (os : os_t) (s s1 : server_t) (i : Nat) (rx : bytes)
    (h : run_step s (step.request os i rx) = some s1) :
    ∃ conn, s.connlist[i]? = some conn ∧ conn.fd > 0 ∧
      (trace_only s s1 ∨
       s1 = (server_disconnect_client s (some i)).1 ∨
       (∃ p r, handle_login s i conn p = some (s1, r)) ∨
       (∃ p r, handle_submit os s conn p = some (s1, r)) ∨
       (∃ p r rest, recv_pkt rx = some (11, p, rest) ∧
         handle_expunge s conn p = some (s1, r))) := by
  simp only [run_step] at h
  split at h
  · simp at h
  · rename_i conn hconn
    split at h
    · rename_i hfd
      refine ⟨conn, hconn, hfd, ?_⟩
      simp only [Option.map_eq_some'] at h
      obtain ⟨⟨s2, r⟩, h, rfl⟩ := h
      simp only [server_handle_client, hconn] at h
      split at h
      · simp at h
      · rename_i r0 payload rest hrecv
        split at h
        · simp at h; right; left; exact h.1.symm
        · unfold server_dispatch at h
          split at h
          · right; right; left; exact ⟨_, _, h⟩
          · split at h
            · right; right; right; left; exact ⟨_, _, h⟩
            · split at h
              · left; exact handle_status_trace_only _ _ _ _ _ _ h
              · split at h
                · left; exact handle_list_all_trace_only _ _ _ _ h
                · split at h
                  · left; exact handle_set_pri_trace_only _ _ _ _ _ _ h
                  · split at h
                    · left; exact handle_signal_trace_only _ _ _ _ _ h
                    · split at h
                      · rename_i hr
                        right; right; right; right
                        refine ⟨_, _, rest, ?_, h⟩
                        rw [hrecv, hr]; rfl
                      · split at h
                        · left; exact handle_results_trace_only _ _ _ _ _ _ h
                        · simp at h; left; rw [← h.1]; exact trace_only_refl _
    · simp at h

/-- What a step does to the server's job list and to the allocation of job
records. -/
theorem step_jobs_cases (s s1 : server_t) (st : step) (h : run_step s st = some s1) :
    (s1.joblist = s.joblist ∧ s1.next_job = s.next_job) ∨
    (s1.joblist = s.joblist ++ [s.next_job] ∧ s1.next_job = s.next_job + 1) ∨
    (∃ j, s1.joblist = s.joblist.erase j ∧ s1.next_job = s.next_job) := by
  cases st with
  | accept fd =>
    left
    simp only [run_step] at h
    split at h
    · simp at h; subst h; exact ⟨rfl, rfl⟩
    · simp at h
  | request os i rx =>
    obtain ⟨conn, hconn, hfd, hc⟩ := request_cases os s s1 i rx h
    rcases hc with ⟨t, rfl⟩ | hd | ⟨p, r, hl⟩ | ⟨p, r, hs⟩ | ⟨p, r, he⟩
    · left; exact ⟨rfl, rfl⟩
    · left
      rcases server_disconnect_client_cases s i with h1 | ⟨c, _, _, h1⟩
      · rw [hd, h1]; exact ⟨rfl, rfl⟩
      · rw [hd, h1]; exact ⟨rfl, rfl⟩
    · left
      obtain ⟨n, t, _, rfl⟩ := handle_login_cases s s1 i conn p r hl
      rcases server_login_client_cases s (some n) with h | ⟨_, _, _, _, _, _, h⟩ | ⟨_, _, _, _, h⟩ <;>
        rw [h] <;> exact ⟨rfl, rfl⟩
    · rcases handle_submit_cases os s s1 conn p r hs with rfl | ⟨c, sub, s2, r1, _, _, he, htr⟩
      · left; exact ⟨rfl, rfl⟩
      · right; left
        have h1 := exec_job_same_tables _ _ _ _ _ _ he
        have h2 := trace_only_same_tables htr
        have h3 := trace_only_same_tables (trace_only_reply (submitted os s c sub) conn
          JOB_SUBMIT_SUCCESS (payload_t.jobid (to_u32 (s.clientmem c).numjobs)))
        have h4 := same_tables_trans h3 (same_tables_trans h1 h2)
        exact ⟨h4.2.2.2.1, h4.2.2.2.2.2.2⟩
    · rcases handle_expunge_cases s s1 conn p r he with ⟨t, rfl⟩ | ⟨c, id, j, _, _, _, _, ⟨t, rfl⟩⟩
      · left; exact ⟨rfl, rfl⟩
      · right; right; exact ⟨j, rfl, rfl⟩
  | child os pid status ru =>
    left
    rcases child_step_cases os s s1 pid status ru h with rfl | h2
    · exact ⟨rfl, rfl⟩
    · have := reap_same_tables os s s1 pid status ru h2
      exact ⟨this.2.2.2.1, this.2.2.2.2.2.2⟩

theorem wf_jobs_reach (ok : server_t → step → Prop) (s : server_t) (h : reach ok s) :
    wf_jobs s := by
  induction h with
  | start n s h0 =>
    have := (server_start_numjobs n s h0).2.2
    unfold wf_jobs
    rw [this]
    simp
  | next s s1 st _ _ hrun ih =>
    obtain ⟨hnd, hfr⟩ := ih
    rcases step_jobs_cases s s1 st hrun with ⟨h1, h2⟩ | ⟨h1, h2⟩ | ⟨j, h1, h2⟩
    · unfold wf_jobs; rw [h1, h2]; exact ⟨hnd, hfr⟩
    · unfold wf_jobs; rw [h1, h2]
      refine ⟨?_, ?_⟩
      · rw [List.nodup_append]
        refine ⟨hnd, by simp, ?_⟩
        intro a ha hb
        simp only [List.mem_singleton] at hb
        have := hfr a ha
        omega
      · intro a ha
        rw [List.mem_append, List.mem_singleton] at ha
        rcases ha with ha | ha
        · have := hfr a ha; omega
        · omega
    · unfold wf_jobs; rw [h1, h2]
      exact ⟨List.Nodup.sublist (List.erase_sublist _ _) hnd,
        fun a ha => hfr a (List.mem_of_mem_erase ha)⟩

theorem countP_upd (p : job_t → Bool) (m : Nat → job_t) (j : Nat) (v : job_t) :
    ∀ l : List Nat, l.Nodup →
    l.countP (fun a => p (upd m j v a)) + (if j ∈ l ∧ p (m j) = true then 1 else 0)
      = l.countP (fun a => p (m a)) + (if j ∈ l ∧ p v = true then 1 else 0) := by
  intro l
  induction l with
  | nil => intro _; simp
  | cons x xs ih =>
    intro hnd
    rw [List.nodup_cons] at hnd
    have ih2 := ih hnd.2
    rw [List.countP_cons, List.countP_cons]
    by_cases hx : x = j
    · subst hx
      have hj : x ∉ xs := hnd.1
      simp only [hj, false_and, if_false, Nat.add_zero] at ih2
      simp only [upd_same, List.mem_cons, true_or, true_and]
      rw [ih2]
      omega
    · have hjx : j ≠ x := fun e => hx e.symm
      rw [upd_other _ _ _ _ hx]
      simp only [List.mem_cons, hjx, false_or]
      omega

theorem running_upd (s s1 : server_t) (j : Nat) (v : job_t) (hl : s1.joblist = s.joblist)
    (hm : s1.jobmem = upd s.jobmem j v) (hnd : s.joblist.Nodup) :
    (running s1 : Int) + (if j ∈ s.joblist ∧ (s.jobmem j).status = RUNNING then 1 else 0)
      = running s + (if j ∈ s.joblist ∧ v.status = RUNNING then 1 else 0) := by
  have h := countP_upd (fun x => decide (x.status = RUNNING)) s.jobmem j v s.joblist hnd
  simp only [decide_eq_true_eq] at h
  simp only [running, count_status, hl, hm]
  have h2 := congrArg (Nat.cast : Nat → Int) h
  push_cast at h2
  exact h2

theorem running_congr (s s1 : server_t) (hl : s1.joblist = s.joblist)
    (hm : ∀ a ∈ s.joblist, (s1.jobmem a).status = (s.jobmem a).status) :
    running s1 = running s := by
  simp only [running, count_status, hl]
  apply List.countP_congr
  intro a ha
  rw [hm a ha]

theorem exec_job_balance (os : os_t) (s s1 : server_t) (c : Option Nat) (job : Nat) (r : Int)
    (hnew : (s.jobmem job).status = NEW) (hin : job ∈ s.joblist) (hnd : s.joblist.Nodup)
    (h : exec_job os s c job = some (s1, r)) :
    s1.numjobs - running s1 = s.numjobs - running s := by
  rcases exec_job_cases os s s1 c job r h with rfl | ⟨_, _, _, _, _, t, rfl⟩
  · rfl
  · have h1 := running_upd s
      { s with numjobs := s.numjobs + 1, nfork := s.nfork + 1,
               jobmem := upd s.jobmem job (launched (s.jobmem job) (os.fork s.nfork)),
               trace := s.trace ++ effect.fork (os.fork s.nfork) :: t }
      job (launched (s.jobmem job) (os.fork s.nfork)) rfl rfl hnd
    have h2 : (launched (s.jobmem job) (os.fork s.nfork)).status = RUNNING := by
      simp [launched, hnew]
    have h3 : ¬ (s.jobmem job).status = RUNNING := by rw [hnew]; decide
    simp only [hin, h2, h3, and_false, and_self, if_true, if_false] at h1
    simp only []
    omega

theorem backfill_balance (os : os_t) : ∀ (l : List Nat) (s s1 : server_t),
    (∀ a ∈ l, a ∈ s.joblist) → s.joblist.Nodup → backfill os s l = some s1 →
    s1.numjobs - running s1 = s.numjobs - running s := by
  intro l
  induction l with
  | nil => intro s s1 _ _ h; simp [backfill] at h; subst h; rfl
  | cons j rest ih =>
    intro s s1 hsub hnd h
    rcases backfill_cons os s s1 j rest h with ⟨_, rfl⟩ | ⟨_, _, h2⟩ | ⟨_, hn, s2, r, he, h2⟩
    · rfl
    · exact ih s s1 (fun a ha => hsub a (List.mem_cons_of_mem _ ha)) hnd h2
    · have hb := exec_job_balance os s s2 _ j r hn (hsub j (List.mem_cons_self _ _)) hnd he
      have hst := exec_job_same_tables os s s2 _ j r he
      have hjl : s2.joblist = s.joblist := hst.2.2.2.1
      rw [← hb]
      exact ih s2 s1 (fun a ha => by rw [hjl]; exact hsub a (List.mem_cons_of_mem _ ha))
        (by rw [hjl]; exact hnd) h2

theorem job_update_status_ru (j : job_t) (status : wait_status) (ru : rusage) :
    (job_update_status { j with ru := ru } status).status
      = (job_update_status j status).status := by
  unfold job_update_status
  split
  · rfl
  · split
    · rfl
    · split
      · rfl
      · split <;> rfl

theorem job_update_status_cases (j : job_t) (status : wait_status)
    (hw : is_wait_status status) :
    (job_update_status j status).status = SUSPENDED ∨
    (job_update_status j status).status = RUNNING ∨
    (job_update_status j status).status = ABORTED ∨
    (job_update_status j status).status = EXITED := by
  unfold is_wait_status at hw
  unfold job_update_status
  by_cases h1 : status.WIFSTOPPED = true
  · left; simp [h1]
  · by_cases h2 : status.WIFCONTINUED = true
    · right; left; simp [h1, h2]
    · by_cases h3 : status.WIFSIGNALED = true
      · right; right; left; simp [h1, h2, h3]
      · by_cases h4 : status.WIFEXITED = true
        · right; right; right; simp [h1, h2, h3, h4]
        · simp [h1, h2, h3, h4] at hw

theorem reap_balance (os : os_t) (s s1 : server_t) (pid : Int) (status : wait_status)
    (ru : rusage) (hnd : s.joblist.Nodup) (hw : is_wait_status status)
    (hf : flips_running s pid status = true) (h : reap os s pid status ru = some s1) :
    s1.numjobs - running s1 = s.numjobs - running s := by
  rcases reap_cases os s s1 pid status ru h with ⟨_, rfl⟩ | ⟨j, s3, t, hl, rfl, hc⟩
  · rfl
  · have hin : j ∈ s.joblist := List.mem_of_find?_eq_some hl
    have hstat : ((reaped s j status ru).jobmem j).status
        = (job_update_status (s.jobmem j) status).status := by
      simp only [reaped, upd_same]
      exact job_update_status_ru _ _ _
    simp only [flips_running, hl] at hf
    have hru := running_upd s (reaped s j status ru) j
      (job_update_status { s.jobmem j with ru := ru } status) rfl rfl hnd
    have hst2 : (job_update_status { s.jobmem j with ru := ru } status).status
        = (job_update_status (s.jobmem j) status).status := job_update_status_ru _ _ _
    rw [hst2] at hru
    have htr : running { s3 with trace := s3.trace ++ t } = running s3 := rfl
    have hnum : ({ s3 with trace := s3.trace ++ t } : server_t).numjobs = s3.numjobs := rfl
    rw [htr, hnum]
    rw [hstat] at hc
    rcases hc with ⟨hrun, rfl⟩ | ⟨hst, hb⟩ | ⟨h1, h2, h3, h4, _⟩
    · simp only [hrun, if_true, decide_eq_true_eq] at hf
      simp only [hin, hrun, hf, and_false, and_self, if_true, if_false] at hru
      have : running { reaped s j status ru with numjobs := s.numjobs + 1 }
          = running (reaped s j status ru) := rfl
      rw [this]
      simp only []
      omega
    · have hnr : ¬ (job_update_status (s.jobmem j) status).status = RUNNING := by
        rcases hst with e | e | e <;> rw [e] <;> decide
      simp only [hnr, if_false, decide_eq_true_eq] at hf
      simp only [hin, hnr, hf, and_false, and_self, if_true, if_false] at hru
      have hb2 := backfill_balance os s.joblist
        { reaped s j status ru with numjobs := s.numjobs - 1 } s3 (fun a ha => ha) hnd hb
      rw [hb2]
      have : running { reaped s j status ru with numjobs := s.numjobs - 1 }
          = running (reaped s j status ru) := rfl
      rw [this]
      simp only []
      omega
    · exfalso
      rcases job_update_status_cases (s.jobmem j) status hw with e | e | e | e
      · exact h2 e
      · exact h1 e
      · exact h4 e
      · exact h3 e

theorem countP_erase_not (p : Nat → Bool) (j : Nat) (hp : p j = false) :
    ∀ l : List Nat, (l.erase j).countP p = l.countP p := by
  intro l
  induction l with
  | nil => rfl
  | cons x xs ih =>
    by_cases hx : x = j
    · subst hx
      simp [List.countP_cons, hp]
    · rw [List.erase_cons_tail (by simpa using hx), List.countP_cons, List.countP_cons, ih]

theorem submit_balance (os : os_t) (s s1 : server_t) (conn : conn_t) (p : payload_t) (r : Int)
    (hwf : wf_jobs s) (h : handle_submit os s conn p = some (s1, r)) :
    s1.numjobs - running s1 = s.numjobs - running s := by
  obtain ⟨hnd, hfr⟩ := hwf
  rcases handle_submit_cases os s s1 conn p r h with rfl | ⟨c, sub, s2, r1, _, _, he, ⟨t, rfl⟩⟩
  · rfl
  · obtain ⟨t0, ht0⟩ := trace_only_reply (submitted os s c sub) conn JOB_SUBMIT_SUCCESS
      (payload_t.jobid (to_u32 (s.clientmem c).numjobs))
    rw [ht0] at he
    have hfresh : ∀ a ∈ s.joblist, a ≠ s.next_job := by
      intro a ha; have := hfr a ha; omega
    have hnd2 : (s.joblist ++ [s.next_job]).Nodup := by
      rw [List.nodup_append]
      refine ⟨hnd, by simp, ?_⟩
      intro a ha hb
      simp only [List.mem_singleton] at hb
      exact hfresh a ha hb
    have hb := exec_job_balance os _ s2 (some c) s.next_job r1
      (by simp [submitted, submitted_job, job_zero]) (by simp [submitted]) hnd2 he
    have hrun : running { submitted os s c sub with
        trace := (submitted os s c sub).trace ++ t0 } = running s := by
      simp only [running, count_status, submitted, List.countP_append, List.countP_cons,
        List.countP_nil, upd_same]
      have h1 : s.joblist.countP (fun a => decide ((upd s.jobmem s.next_job
          (submitted_job os s c sub) a).status = RUNNING))
          = s.joblist.countP (fun a => decide ((s.jobmem a).status = RUNNING)) := by
        apply List.countP_congr
        intro a ha
        rw [upd_other _ _ _ _ (hfresh a ha)]
      rw [h1]
      simp [submitted_job, job_zero]
    have : running { s2 with trace := s2.trace ++ t } = running s2 := rfl
    rw [this]
    simp only []
    rw [hb, hrun]
    rfl

theorem expunge_balance (s s1 : server_t) (i : Nat) (rx rest : bytes) (conn : conn_t)
    (p : payload_t) (r : Int) (hconn : s.connlist[i]? = some conn)
    (hrecv : recv_pkt rx = some (11, p, rest))
    (hg : expunges_running s i rx = false)
    (h : handle_expunge s conn p = some (s1, r)) :
    s1.numjobs - running s1 = s.numjobs - running s := by
  rcases handle_expunge_cases s s1 conn p r h with ⟨t, rfl⟩ | ⟨c, id, j, hc, hp, hl, _, ⟨t, rfl⟩⟩
  · rfl
  · have hst : ¬ (s.jobmem j).status = RUNNING := by
      subst hp
      simp only [expunges_running, hconn, hrecv, hc, hl] at hg
      simpa using hg
    have : running { removed s c j with trace := (removed s c j).trace ++ t } = running s := by
      simp only [running, count_status, removed]
      exact countP_erase_not _ j (by simpa using hst) s.joblist
    rw [this]
    rfl

theorem request_balance (os : os_t) (s s1 : server_t) (i : Nat) (rx : bytes)
    (hwf : wf_jobs s) (hg : expunges_running s i rx = false)
    (h : run_step s (step.request os i rx) = some s1) :
    s1.numjobs - running s1 = s.numjobs - running s := by
  obtain ⟨conn, hconn, _, hc⟩ := request_cases_recv os s s1 i rx h
  rcases hc with ⟨t, rfl⟩ | hd | ⟨p, r, hl⟩ | ⟨p, r, hs⟩ | ⟨p, r, rest, hrecv, he⟩
  · rfl
  · rcases server_disconnect_client_cases s i with h1 | ⟨c, _, _, h1⟩
    · rw [hd, h1]
    · rw [hd, h1]; rfl
  · obtain ⟨n, t, _, rfl⟩ := handle_login_cases s s1 i conn p r hl
    rcases server_login_client_cases s (some n) with h | ⟨_, _, _, _, _, _, h⟩ | ⟨_, _, _, _, h⟩ <;>
      rw [h] <;> rfl
  · exact submit_balance os s s1 conn p r hwf hs
  · exact expunge_balance s s1 i rx rest conn p r hconn hrecv hg he

/-- C10 (as amended): in every state reachable by accepts, dispatcher requests
and reaper events in which every stop, exit or termination is reported for a
RUNNING job, every continue for a job that is not RUNNING, and no RUNNING job is
expunged, server.numjobs equals the number of jobs in the global job list whose
status is RUNNING (a SUSPENDED job is not counted). -/
theorem C10_numjobs_counts_running (s : server_t) (h : reach lifecycle_step s) :
    s.numjobs = (running s : Int) := by
  have hgen : s.numjobs - running s = 0 := by
    induction h with
    | start n s h0 =>
      obtain ⟨h1, _, h3⟩ := server_start_numjobs n s h0
      simp [running, count_status, h1, h3]
    | next s s1 st hs hok hrun ih =>
      have hwf := wf_jobs_reach lifecycle_step s hs
      cases st with
      | accept fd =>
        simp only [run_step, server_register_conn] at hrun
        split at hrun
        · simp at hrun; subst hrun; exact ih
        · simp at hrun
      | request os i rx =>
        rw [request_balance os s s1 i rx hwf hok.2 hrun]; exact ih
      | child os pid status ru =>
        obtain ⟨⟨hpid, hw⟩, hf⟩ := hok
        rw [child_step_eq os s pid status ru hpid] at hrun
        rw [reap_balance os s s1 pid status ru hwf.1 hw hf hrun]; exact ih
  omega

/-- C10, witness: after one job is started and stopped, numjobs = 0 and no job
is RUNNING. -/
theorem C10_numjobs_counts_running_witness :
    reach lifecycle_step state_stopped ∧ state_stopped.numjobs = 0 ∧
    state_stopped.numjobs = (running state_stopped : Int) :=
  ⟨reach_run_from_start lifecycle_step (some 1) trace_stopped state_stopped
      (getD_of_isSome _ _ (by decide)),
   by decide,
   C10_numjobs_counts_running state_stopped
     (reach_run_from_start lifecycle_step (some 1) trace_stopped state_stopped
       (getD_of_isSome _ _ (by decide)))⟩

/-- C10, counterexample: after one job is started and stopped, the state is
reachable, numjobs is 0 and one job of the global list is RUNNING or SUSPENDED
(job 0 is SUSPENDED). -/
theorem C10_counterexample :
    reachable state_stopped ∧ state_stopped.numjobs = 0 ∧
    (state_stopped.jobmem 0).status = SUSPENDED ∧
    count_status state_stopped (fun st => decide (st = RUNNING ∨ st = SUSPENDED)) = 1 :=
  ⟨reach_mono (fun _ _ h => h.1)
      (reach_run_from_start lifecycle_step (some 1) trace_stopped state_stopped
        (getD_of_isSome _ _ (by decide))),
   by decide, by decide, by decide⟩

/-! ## Wait-status mapping (C11) -/

/-- C11: for every wait status w, job_update_status sets status to SUSPENDED if
WIFSTOPPED(w); otherwise to RUNNING if WIFCONTINUED(w); otherwise to ABORTED with
exitcode = WTERMSIG(w) if WIFSIGNALED(w); otherwise to EXITED with exitcode =
WEXITSTATUS(w) if WIFEXITED(w); exitcode is unchanged in the first two cases and
no other field of the job changes. -/
theorem C11_wait_status_mapping (j : job_t) (w : wait_status) :
    (w.WIFSTOPPED = true → job_update_status j w = { j with status := SUSPENDED }) ∧
    (w.WIFSTOPPED = false → w.WIFCONTINUED = true →
      job_update_status j w = { j with status := RUNNING }) ∧
    (w.WIFSTOPPED = false → w.WIFCONTINUED = false → w.WIFSIGNALED = true →
      job_update_status j w = { j with status := ABORTED, exitcode := w.WTERMSIG }) ∧
    (w.WIFSTOPPED = false → w.WIFCONTINUED = false → w.WIFSIGNALED = false →
      w.WIFEXITED = true →
      job_update_status j w = { j with status := EXITED, exitcode := w.WEXITSTATUS }) := by
  refine ⟨?_, ?_, ?_, ?_⟩
  · intro h1; simp [job_update_status, h1]
  · intro h1 h2; simp [job_update_status, h1, h2]
  · intro h1 h2 h3; simp [job_update_status, h1, h2, h3]
  · intro h1 h2 h3 h4; simp [job_update_status, h1, h2, h3, h4]

/-! ## exec_job: refusal and launch (C12, C13) -/

/-- C12: if numjobs >= maxjobs, exec_job (called for a client) returns 0 and
leaves the whole state unchanged: nothing is forked, no frame is sent, the job
keeps its status and pgid, numjobs and both job lists are as before. -/
theorem C12_admission_refusal (os : os_t) (s : server_t) (c job : Nat)
    (h : s.maxjobs ≤ s.numjobs) : exec_job os s (some c) job = some (s, 0) := by
  have hlt : ¬ s.numjobs < s.maxjobs := by omega
  simp [exec_job, hlt]

/-- C12, witness: with one slot taken by job 0, exec_job on the NEW job 1 does
nothing. -/
theorem C12_admission_refusal_witness :
    (state_two_submitted.jobmem 1).status = NEW ∧
    exec_job os_demo state_two_submitted (some 0) 1 = some (state_two_submitted, 0) :=
  ⟨by decide, C12_admission_refusal os_demo state_two_submitted 0 1 (by decide)⟩

/-- The frames exec_job sends after the fork: one JOB_UPDATE for the job, to
the first connection bound to the client, if there is one. -/
theorem exec_job_trace (os : os_t) (s : server_t) (c job : Nat)
    (hlt : s.numjobs < s.maxjobs) (hnew : (s.jobmem job).status = NEW)
    (hcmd : (s.jobmem job).ui.commands ≠ []) (hfork : 0 < os.fork s.nfork) :
    exec_job os s (some c) job = some
      (launch_state os s job
        (match conn_find_by_client s (some c) with
         | some conn => [effect.send conn.fd JOB_UPDATE
             (payload_t.update ⟨(s.jobmem job).jobid, RUNNING⟩)]
         | none => []), 0) := by
  have h1 : ¬ os.fork s.nfork < 0 := by omega
  have h2 : ¬ os.fork s.nfork = 0 := by omega
  cases hc : (s.jobmem job).ui.commands with
  | nil => exact absurd hc hcmd
  | cons cmd cmds =>
    simp only [exec_job, hlt, not_true_eq_false, if_false, hc, h1, h2]
    simp only [run_in_background, emit, upd_same, hnew, true_or, not_true_eq_false, if_false,
      conn_find_by_client, upd_upd]
    simp only [ne_eq, not_true_eq_false, if_false]
    cases hf : s.connlist.find? (fun k => decide (k.client = some c)) with
    | none => simp [launch_state, launched, hnew]
    | some conn => simp [launch_state, launched, hnew]

theorem to_u32_of_pos (x : Int) (h1 : 0 < x) (h2 : x ≤ INT_MAX) :
    ((to_u32 x : Nat) : Int) = x := by
  unfold to_u32
  have : x % 4294967296 = x := Int.emod_eq_of_lt (by omega) (by simp only [INT_MAX] at h2; omega)
  rw [this]
  exact Int.toNat_of_nonneg (by omega)

theorem find_first (p : conn_t → Bool) (pre post : List conn_t) (k : conn_t)
    (hpre : ∀ x ∈ pre, p x = false) (hk : p k = true) :
    (pre ++ k :: post).find? p = some k := by
  induction pre with
  | nil => simp [List.find?_cons, hk]
  | cons x xs ih =>
    have hx := hpre x (List.mem_cons_self _ _)
    simp only [List.cons_append, List.find?_cons, hx]
    exact ih (fun y hy => hpre y (List.mem_cons_of_mem _ hy))

theorem update_frames_none (s : server_t) (c job : Nat)
    (h : ∀ k ∈ s.connlist, k.client ≠ some c) : update_frames s c job = [] := by
  have hf : conn_find_by_client s (some c) = none := by
    simp only [conn_find_by_client]
    rw [List.find?_eq_none]
    intro x hx
    simpa using h x hx
  simp [update_frames, hf]

theorem update_frames_first (s : server_t) (c job : Nat) (pre post : List conn_t) (k : conn_t)
    (hl : s.connlist = pre ++ k :: post) (hpre : ∀ x ∈ pre, x.client ≠ some c)
    (hk : k.client = some c) :
    update_frames s c job
      = [effect.send k.fd JOB_UPDATE (payload_t.update ⟨(s.jobmem job).jobid, RUNNING⟩)] := by
  have hf : conn_find_by_client s (some c) = some k := by
    simp only [conn_find_by_client, hl]
    exact find_first _ pre post k (fun x hx => by simpa using hpre x hx) (by simpa using hk)
  simp [update_frames, hf]

/-- C13: if numjobs < maxjobs and the job is NEW with a parsed command, exec_job
on the parent side (fork returning a pid p > 0) returns 0, sets the job's pgid
to p and its status to RUNNING leaving its other fields, increases numjobs by
exactly 1, changes no other job and no table, and appends to the trace the fork
and then the frames: no frame if no connection of the list is bound to the
client it is called for (the job's owner), and otherwise exactly one
JOB_UPDATE(jobid, RUNNING) on the descriptor of the first connection of the list
bound to that client (in a reachable state at most one connection is bound to a
client). -/
theorem C13_launch_effects (os : os_t) (s : server_t) (c job : Nat)
    (hlt : s.numjobs < s.maxjobs) (hnew : (s.jobmem job).status = NEW)
    (hcmd : (s.jobmem job).ui.commands ≠ []) (hfork : 0 < os.fork s.nfork)
    (hpid : os.fork s.nfork ≤ INT_MAX) :
    exec_job os s (some c) job = some (launch_state os s job (update_frames s c job), 0) ∧
    (((launch_state os s job (update_frames s c job)).jobmem job).pgid : Int)
      = os.fork s.nfork ∧
    (launch_state os s job (update_frames s c job)).jobmem job
      = { s.jobmem job with pgid := to_u32 (os.fork s.nfork), status := RUNNING } ∧
    (launch_state os s job (update_frames s c job)).numjobs = s.numjobs + 1 ∧
    (∀ a, a ≠ job → (launch_state os s job (update_frames s c job)).jobmem a = s.jobmem a) ∧
    same_tables s (launch_state os s job (update_frames s c job)) ∧
    (launch_state os s job (update_frames s c job)).trace
      = s.trace ++ effect.fork (os.fork s.nfork) :: update_frames s c job ∧
    (update_frames s c job = [] ∨ ∃ conn, conn ∈ s.connlist ∧ conn.client = some c ∧
      update_frames s c job = [effect.send conn.fd JOB_UPDATE
        (payload_t.update ⟨(s.jobmem job).jobid, RUNNING⟩)]) ∧
    ((∀ k ∈ s.connlist, k.client ≠ some c) → update_frames s c job = []) ∧
    (∀ (pre post : List conn_t) (k : conn_t), s.connlist = pre ++ k :: post →
      (∀ x ∈ pre, x.client ≠ some c) → k.client = some c →
      update_frames s c job = [effect.send k.fd JOB_UPDATE
        (payload_t.update ⟨(s.jobmem job).jobid, RUNNING⟩)]) ∧
    ((∃ k ∈ s.connlist, k.client = some c) →
      ∃ k ∈ s.connlist, k.client = some c ∧
        (launch_state os s job (update_frames s c job)).trace
          = s.trace ++ [effect.fork (os.fork s.nfork), effect.send k.fd JOB_UPDATE
              (payload_t.update ⟨(s.jobmem job).jobid, RUNNING⟩)]) := by
  have hlast : update_frames s c job = [] ∨ ∃ conn, conn ∈ s.connlist ∧ conn.client = some c ∧
      update_frames s c job = [effect.send conn.fd JOB_UPDATE
        (payload_t.update ⟨(s.jobmem job).jobid, RUNNING⟩)] := by
    unfold update_frames
    cases hf : conn_find_by_client s (some c) with
    | none => left; rfl
    | some conn =>
      right
      simp only [conn_find_by_client] at hf
      have h1 := List.mem_of_find?_eq_some hf
      have h2 := List.find?_some hf
      exact ⟨conn, h1, by simpa using h2, rfl⟩
  refine ⟨exec_job_trace os s c job hlt hnew hcmd hfork, ?_, ?_, rfl, ?_, ?_, rfl, hlast,
    update_frames_none s c job, fun pre post k => update_frames_first s c job pre post k, ?_⟩
  · simp only [launch_state, upd_same, launched, hnew, true_or, if_true]
    exact to_u32_of_pos _ hfork hpid
  · simp [launch_state, launched, hnew]
  · intro a ha
    simp only [launch_state]
    exact upd_other _ _ _ _ ha
  · simp [same_tables, launch_state]
  · rintro ⟨k, hk, hkc⟩
    rcases hlast with h0 | ⟨conn, h1, h2, h3⟩
    · exfalso
      have hf : conn_find_by_client s (some c) = none := by
        cases hf : conn_find_by_client s (some c) with
        | none => rfl
        | some x => simp [update_frames, hf] at h0
      simp only [conn_find_by_client] at hf
      rw [List.find?_eq_none] at hf
      exact hf k hk (by simpa using hkc)
    · refine ⟨conn, h1, h2, ?_⟩
      show s.trace ++ effect.fork (os.fork s.nfork) :: update_frames s c job = _
      rw [h3]

/-- C13, witness: in scenario S1, when the backfill loop calls exec_job for job
1, the owner "a" is bound to the connection with descriptor 4: the job gets the
pid 101 and the one frame JOB_UPDATE(1, RUNNING) goes to descriptor 4. -/
theorem C13_launch_effects_witness :
    state_backfilling.connlist = [⟨4, some 0⟩] ∧
    update_frames state_backfilling 0 1
      = [effect.send 4 JOB_UPDATE (payload_t.update ⟨1, RUNNING⟩)] ∧
    exec_job os_demo state_backfilling (some 0) 1
      = some (launch_state os_demo state_backfilling 1
          (update_frames state_backfilling 0 1), 0) ∧
    ((launch_state os_demo state_backfilling 1
      (update_frames state_backfilling 0 1)).jobmem 1).pgid = 101 :=
  ⟨by decide,
   (C13_launch_effects os_demo state_backfilling 0 1 (by decide) (by decide) (by decide) (by decide)
      (by decide)).2.2.2.2.2.2.2.2.2.1 [] [] ⟨4, some 0⟩ (by decide) (by simp) rfl,
   (C13_launch_effects os_demo state_backfilling 0 1 (by decide) (by decide) (by decide) (by decide)
      (by decide)).1,
   by decide⟩

/-! ## The LOGIN policy (C14) -/

theorem find_none_of_no_name (s : server_t) (nm : bytes)
    (h : ∀ c ∈ s.clientlist, (s.clientmem c).name ≠ nm) :
    s.clientlist.find? (fun a => name_matches (s.clientmem a).name nm) = none := by
  rw [List.find?_eq_none]
  intro x hx hm
  exact h x hx ((name_matches_iff _ _).mp hm)

theorem find_of_name (s : server_t) (nm : bytes) (c : Nat)
    (hn : (s.clientlist.map (fun a => (s.clientmem a).name)).Nodup)
    (hc : c ∈ s.clientlist) (he : (s.clientmem c).name = nm) :
    s.clientlist.find? (fun a => name_matches (s.clientmem a).name nm) = some c := by
  rw [← he]
  exact find_by_name (fun a => (s.clientmem a).name) s.clientlist c hn hc

/-- C14: in every reachable state, for the name `cstr buf` of a received buffer:
if it is empty, server_login_client returns no client and the state unchanged;
if a record of the client list has that name and connected = 1, it returns no
client and the state unchanged; if a record has that name and connected is not
1, it returns that record, sets its connected to 1, keeps its other fields and
the client list; if no record has that name, it returns a new record put at the
head of the client list with that name, connected = 1, no jobs and id counter 0,
every older record unchanged. No two records of the client list have the same
name. -/
theorem C14_login_policy (s : server_t) (buf : bytes) (hr : reachable s) :
    (cstr buf = [] → server_login_client s (some buf) = (s, none)) ∧
    (∀ c ∈ s.clientlist, (s.clientmem c).name = cstr buf → (s.clientmem c).connected = 1 →
      server_login_client s (some buf) = (s, none)) ∧
    (∀ c ∈ s.clientlist, (s.clientmem c).name = cstr buf → (s.clientmem c).connected ≠ 1 →
      server_login_client s (some buf) = (rebound s c, some c) ∧
      (rebound s c).clientlist = s.clientlist ∧
      (rebound s c).clientmem c = { s.clientmem c with connected := 1 } ∧
      ∀ a, a ≠ c → (rebound s c).clientmem a = s.clientmem a) ∧
    (cstr buf ≠ [] → (∀ c ∈ s.clientlist, (s.clientmem c).name ≠ cstr buf) →
      server_login_client s (some buf) = (created s (cstr buf), some s.next_client) ∧
      (created s (cstr buf)).clientlist = s.next_client :: s.clientlist ∧
      s.next_client ∉ s.clientlist ∧
      ((created s (cstr buf)).clientmem s.next_client).name = cstr buf ∧
      ((created s (cstr buf)).clientmem s.next_client).connected = 1 ∧
      ((created s (cstr buf)).clientmem s.next_client).jobs = [] ∧
      ((created s (cstr buf)).clientmem s.next_client).numjobs = 0 ∧
      ∀ a ∈ s.clientlist, (created s (cstr buf)).clientmem a = s.clientmem a) ∧
    (s.clientlist.map (fun a => (s.clientmem a).name)).Nodup ∧
    ((server_login_client s (some buf)).1.clientlist.map
      (fun a => ((server_login_client s (some buf)).1.clientmem a).name)).Nodup := by
  obtain ⟨w1, w2, w3, w4⟩ := wf_clients_reach os_step s hr
  have hfresh : s.next_client ∉ s.clientlist := by
    intro hm
    have := (w2 _ hm).1
    omega
  have hA : cstr buf = [] → server_login_client s (some buf) = (s, none) := by
    intro h0
    simp [server_login_client, h0]
  have hB : ∀ c ∈ s.clientlist, (s.clientmem c).name = cstr buf →
      (s.clientmem c).connected = 1 → server_login_client s (some buf) = (s, none) := by
    intro c hc hn h1
    have hf := find_of_name s (cstr buf) c w1 hc hn
    simp [server_login_client, hf, h1]
  have hC : ∀ c ∈ s.clientlist, (s.clientmem c).name = cstr buf →
      (s.clientmem c).connected ≠ 1 →
      server_login_client s (some buf) = (rebound s c, some c) := by
    intro c hc hn h1
    have hf := find_of_name s (cstr buf) c w1 hc hn
    have hne : cstr buf ≠ [] := by rw [← hn]; exact (w2 c hc).2.1
    have hl : (cstr buf).length > 0 := List.length_pos.mpr hne
    simp [server_login_client, hf, h1, hl, rebound]
  have hD : cstr buf ≠ [] → (∀ c ∈ s.clientlist, (s.clientmem c).name ≠ cstr buf) →
      server_login_client s (some buf) = (created s (cstr buf), some s.next_client) := by
    intro hne hno
    have hf := find_none_of_no_name s (cstr buf) hno
    have hl : (cstr buf).length > 0 := List.length_pos.mpr hne
    simp [server_login_client, hf, hl, created]
  refine ⟨hA, hB, ?_, ?_, w1, ?_⟩
  · intro c hc hn h1
    refine ⟨hC c hc hn h1, rfl, ?_, ?_⟩
    · simp [rebound]
    · intro a ha
      simp only [rebound]
      exact upd_other _ _ _ _ ha
  · intro hne hno
    refine ⟨hD hne hno, rfl, hfresh, ?_, ?_, ?_, ?_, ?_⟩
    · simp [created]
    · simp [created]
    · simp [created, client_zero]
    · simp [created, client_zero]
    · intro a ha
      simp only [created]
      exact upd_other _ _ _ _ (fun e => hfresh (e ▸ ha))
  · rcases server_login_client_cases s (some buf) with h | ⟨b, cl, hb, _, hf, _, h⟩ |
      ⟨b, hb, _, hf, h⟩
    · rw [h]; exact w1
    · rw [h]
      have hcl : cl ∈ s.clientlist := List.mem_of_find?_eq_some hf
      have : (fun a => ((rebound s cl).clientmem a).name) = (fun a => (s.clientmem a).name) := by
        funext a
        simp only [rebound, upd]
        split
        · rename_i e; rw [e]
        · rfl
      show (s.clientlist.map (fun a => ((rebound s cl).clientmem a).name)).Nodup
      rw [this]; exact w1
    · rw [h]
      show ((s.next_client :: s.clientlist).map
        (fun a => ((created s (cstr b)).clientmem a).name)).Nodup
      have hmap : s.clientlist.map (fun a => ((created s (cstr b)).clientmem a).name)
          = s.clientlist.map (fun a => (s.clientmem a).name) := by
        apply List.map_congr_left
        intro a ha
        simp only [created]
        have hne : a ≠ s.next_client := fun e => hfresh (e ▸ ha)
        exact congrArg client_t.name (upd_other _ _ _ _ hne)
      rw [List.map_cons, List.nodup_cons, hmap]
      refine ⟨?_, w1⟩
      intro hm
      rw [List.mem_map] at hm
      obtain ⟨a, ha, hae⟩ := hm
      have hnm : ((created s (cstr b)).clientmem s.next_client).name = cstr b := by
        simp [created]
      rw [hnm] at hae
      rw [List.find?_eq_none] at hf
      exact hf a ha ((name_matches_iff _ _).mpr hae)

/-- C14, witness: with client "a" connected, LOGIN "a" is refused and LOGIN "b"
creates the record 1. -/
theorem C14_login_policy_witness :
    server_login_client state_one_running (some [97, 0]) = (state_one_running, none) ∧
    (server_login_client state_one_running (some [98, 0])).2 = some 1 :=
  ⟨(C14_login_policy state_one_running [97, 0]
      (reach_run_from_start os_step (some 1) trace_one_running state_one_running
        (getD_of_isSome _ _ (by decide)))).2.1 0 (by decide) (by decide) (by decide),
   by decide⟩

/-! ## LOGIN on a bound connection (C15) -/

/-- C15: after accept, LOGIN "a" and LOGIN "b" on the same connection and a
second accept (a reachable state), the record of "a" has connected = 1 although
no connection of the list is bound to it, and a LOGIN "a" is refused: on the new
connection it binds no client and sends nothing. -/
theorem C15_login_after_second_login_refused :
    reachable state_locked_out ∧
    state_locked_out.clientlist = [1, 0] ∧
    (state_locked_out.clientmem 0).name = [97] ∧
    (state_locked_out.clientmem 0).connected = 1 ∧
    state_locked_out.connlist = [⟨5, none⟩, ⟨4, some 1⟩] ∧
    (∀ conn ∈ state_locked_out.connlist, conn.client ≠ some 0) ∧
    (server_login_client state_locked_out (some [97, 0])).2 = none ∧
    (run_step state_locked_out (step.request os_demo 0 frame_login_a)).map
        (fun s => (s.connlist, s.trace.drop state_locked_out.trace.length,
          (s.clientmem 0).connected))
      = some ([⟨5, none⟩, ⟨4, some 1⟩], [], 1) :=
  ⟨reach_run_from_start os_step (some 1) trace_locked_out state_locked_out
      (getD_of_isSome _ _ (by decide)),
   by decide, by decide, by decide, by decide, by decide, by decide, by decide⟩

/-! ## Requests before LOGIN (C16) -/

theorem dispatch_no_client (os : os_t) (s : server_t) (i : Nat) (conn : conn_t) (r : Int)
    (p : payload_t) (hc : conn.client = none) (hr : job_request r) :
    server_dispatch os s i conn r p = some (s, -EINVAL) := by
  unfold job_request at hr
  rcases hr with h | h | h | h | h | h | h | h <;> subst h <;>
    simp [server_dispatch, handle_submit, handle_status, handle_list_all, handle_signal,
      handle_set_pri, handle_expunge, handle_results, hc]

/-- C16, the claim fails: on a connection that has no client, a JOB_SUBMIT frame
is answered by nothing and the connection stays in the list. -/
theorem C16_counterexample :
    state_accepted.connlist = [⟨4, none⟩] ∧
    (server_handle_client os_demo state_accepted (some 0) frame_submit_x).map
        (fun p => (p.1.trace, p.1.connlist, p.2))
      = some ([], [⟨4, none⟩], -22) := by
  decide

/-- C16, amended: a frame of type JOB_SUBMIT, JOB_STATUS, JOB_LIST_ALL,
JOB_SIGNAL, JOB_SET_PRI, JOB_EXPUNGE, JOB_GET_STDOUT or JOB_GET_STDERR received
whole on a connection that has no client makes server_handle_client return
-EINVAL with the state unchanged: nothing is sent, the connection stays in the
list, no job is created, changed or signalled. -/
theorem C16_request_before_login_dropped (os : os_t) (s : server_t) (i : Nat) (conn : conn_t)
    (rx rest : bytes) (r : Int) (p : payload_t)
    (hi : s.connlist[i]? = some conn) (hc : conn.client = none)
    (hrx : recv_pkt rx = some (r, p, rest)) (hr : job_request r) :
    server_handle_client os s (some i) rx = some (s, -EINVAL) := by
  have h0 : ¬ r < 0 := by
    unfold job_request at hr
    rcases hr with h | h | h | h | h | h | h | h <;> subst h <;> decide
  simp only [server_handle_client, hi, hrx, h0, if_false]
  exact dispatch_no_client os s i conn r p hc hr

/-- C16, witness: JOB_STATUS for jobid 7 on the connection just accepted. -/
theorem C16_request_before_login_dropped_witness :
    server_handle_client os_demo state_accepted (some 0) frame_status_7
      = some (state_accepted, -EINVAL) :=
  C16_request_before_login_dropped os_demo state_accepted 0 ⟨4, none⟩ frame_status_7 []
    JOB_STATUS (payload_t.jobid 7) (by decide) rfl (by decide) (by decide)

/-! ## Unknown tags (C17) -/

/-- C17, the claim fails: the tag 0 and the tag 200 on an accepted connection
leave the connection in the list and close nothing. -/
theorem C17_counterexample :
    (server_handle_client os_demo state_accepted (some 0) [0]).map
        (fun p => (p.1.trace, p.1.connlist, p.2)) = some ([], [⟨4, none⟩], 0) ∧
    (server_handle_client os_demo state_accepted (some 0) [200]).map
        (fun p => (p.1.trace, p.1.connlist, p.2)) = some ([], [⟨4, none⟩], 0) := by
  decide

/-- C17, amended: for every byte t that is not one of the tags 1..16, recv_pkt
on a frame starting with t returns 0 with no payload, leaving the rest unread,
and server_handle_client on a connection of the list returns 0 with the state
unchanged: the connection is neither closed nor removed. -/
theorem C17_unknown_tag_ignored (os : os_t) (s : server_t) (i : Nat) (conn : conn_t)
    (t : Nat) (rest : bytes) (hi : s.connlist[i]? = some conn) (ht : t = 0 ∨ 16 < t) :
    recv_pkt (t :: rest) = some (0, payload_t.null, rest) ∧
    server_handle_client os s (some i) (t :: rest) = some (s, 0) := by
  have h1 : recv_pkt (t :: rest) = some (0, payload_t.null, rest) := by
    unfold recv_pkt
    have e1 : t ≠ 1 := by omega
    have e2 : t ≠ 2 := by omega
    have e3 : t ≠ 3 := by omega
    have e4 : t ≠ 4 := by omega
    have e5 : t ≠ 5 := by omega
    have e6 : t ≠ 6 := by omega
    have e7 : t ≠ 7 := by omega
    have e8 : t ≠ 8 := by omega
    have e9 : t ≠ 9 := by omega
    have e10 : t ≠ 10 := by omega
    have e11 : t ≠ 11 := by omega
    have e12 : t ≠ 12 := by omega
    have e13 : t ≠ 13 := by omega
    have e14 : t ≠ 14 := by omega
    have e15 : t ≠ 15 := by omega
    have e16 : t ≠ 16 := by omega
    simp [e1, e2, e3, e4, e5, e6, e7, e8, e9, e10, e11, e12, e13, e14, e15, e16]
  refine ⟨h1, ?_⟩
  simp [server_handle_client, hi, h1, server_dispatch]

/-- C17, witness: the tag 17 on the connection just accepted. -/
theorem C17_unknown_tag_ignored_witness :
    server_handle_client os_demo state_accepted (some 0) [17, 1, 2]
      = some (state_accepted, 0) :=
  (C17_unknown_tag_ignored os_demo state_accepted 0 ⟨4, none⟩ 17 [1, 2] (by decide)
    (by decide)).2

/-! ## Missing targets (C18) -/

theorem lookup_none (s : server_t) (c id : Nat)
    (h : ∀ j ∈ (s.clientmem c).jobs, (s.jobmem j).jobid ≠ id) :
    jobs_lookup_by_jobid s (some c) id = none := by
  simp only [jobs_lookup_by_jobid]
  rw [List.find?_eq_none]
  intro x hx
  simpa using h x hx

theorem reply_connected (s : server_t) (conn : conn_t) (c : Nat) (t : Nat) (p : payload_t)
    (hc : conn.client = some c) (hcon : (s.clientmem c).connected ≠ 0) :
    reply s conn t p = emit s (effect.send conn.fd t p) := by
  simp [reply, hc, hcon]

/-- C18: for a connection bound to a client `c` with connected not 0 and a jobid
`id` that no job of `c`'s list carries, each of JOB_STATUS, JOB_SIGNAL,
JOB_SET_PRI, JOB_EXPUNGE, JOB_GET_STDOUT and JOB_GET_STDERR makes the dispatcher
return 0 in the state that differs from the old one by one NACK appended to the
trace: nothing else is sent, neither killpg nor setpriority is called, and the
job records, both job lists and numjobs are unchanged. -/
theorem C18_missing_target_nack (os : os_t) (s : server_t) (i : Nat) (conn : conn_t)
    (c id : Nat) (sg : Nat) (pri : Int)
    (hc : conn.client = some c) (hcon : (s.clientmem c).connected ≠ 0)
    (hid : ∀ j ∈ (s.clientmem c).jobs, (s.jobmem j).jobid ≠ id) :
    server_dispatch os s i conn JOB_STATUS (payload_t.jobid id)
      = some (emit s (effect.send conn.fd NACK payload_t.null), 0) ∧
    server_dispatch os s i conn JOB_SIGNAL (payload_t.signal ⟨id, sg⟩)
      = some (emit s (effect.send conn.fd NACK payload_t.null), 0) ∧
    server_dispatch os s i conn JOB_SET_PRI (payload_t.priority ⟨id, pri⟩)
      = some (emit s (effect.send conn.fd NACK payload_t.null), 0) ∧
    server_dispatch os s i conn JOB_EXPUNGE (payload_t.jobid id)
      = some (emit s (effect.send conn.fd NACK payload_t.null), 0) ∧
    server_dispatch os s i conn JOB_GET_STDOUT (payload_t.jobid id)
      = some (emit s (effect.send conn.fd NACK payload_t.null), 0) ∧
    server_dispatch os s i conn JOB_GET_STDERR (payload_t.jobid id)
      = some (emit s (effect.send conn.fd NACK payload_t.null), 0) ∧
    (emit s (effect.send conn.fd NACK payload_t.null)).trace
      = s.trace ++ [effect.send conn.fd NACK payload_t.null] ∧
    (emit s (effect.send conn.fd NACK payload_t.null)).jobmem = s.jobmem ∧
    (emit s (effect.send conn.fd NACK payload_t.null)).joblist = s.joblist ∧
    (emit s (effect.send conn.fd NACK payload_t.null)).clientmem = s.clientmem ∧
    (emit s (effect.send conn.fd NACK payload_t.null)).numjobs = s.numjobs := by
  have hl := lookup_none s c id hid
  have hr := reply_connected s conn c NACK payload_t.null hc hcon
  refine ⟨?_, ?_, ?_, ?_, ?_, ?_, rfl, rfl, rfl, rfl, rfl⟩
  · simp [server_dispatch, handle_status, hc, hl, hr]
  · simp [server_dispatch, handle_signal, hc, hl, hr]
  · simp [server_dispatch, handle_set_pri, hc, hl, hr]
  · simp [server_dispatch, handle_expunge, hc, hl, hr]
  · simp [server_dispatch, handle_results, hc, hl, hr]
  · simp [server_dispatch, handle_results, hc, hl, hr]

/-- C18, witness: client "a" owns the job with jobid 0 only; JOB_SIGNAL for the
jobid 7 gets a NACK. -/
theorem C18_missing_target_nack_witness :
    server_dispatch os_demo state_one_running 0 ⟨4, some 0⟩ JOB_SIGNAL
        (payload_t.signal ⟨7, 9⟩)
      = some (emit state_one_running (effect.send 4 NACK payload_t.null), 0) :=
  (C18_missing_target_nack os_demo state_one_running 0 ⟨4, some 0⟩ 0 7 9 0 rfl
    (by decide) (by decide)).2.1

/-! ## Expunge (C19) -/

theorem find_of_nodup_map {α : Type} [DecidableEq α] (f : Nat → α) : ∀ (l : List Nat) (c : Nat),
    (l.map f).Nodup → c ∈ l → l.find? (fun a => decide (f a = f c)) = some c := by
  intro l
  induction l with
  | nil => intro c _ hc; simp at hc
  | cons x xs ih =>
    intro c hn hc
    rw [List.map_cons, List.nodup_cons] at hn
    by_cases hx : x = c
    · subst hx
      simp [List.find?_cons]
    · have hcx : c ∈ xs := by
        rcases List.mem_cons.mp hc with h | h
        · exact absurd h.symm hx
        · exact h
      have hne : f x ≠ f c := by
        intro e
        exact hn.1 (by rw [e]; exact List.mem_map_of_mem f hcx)
      simp only [List.find?_cons, hne, decide_False]
      exact ih c hn.2 hcx

theorem reply_eq (s : server_t) (conn : conn_t) (t : Nat) (p : payload_t) :
    reply s conn t p = { s with trace := s.trace ++ reply_frames s conn t p } := by
  unfold reply reply_frames
  cases conn.client with
  | none => simp
  | some c =>
    simp only []
    split
    · rfl
    · simp

theorem free_job_eq (s : server_t) (job : Nat) :
    free_job s job = { s with trace := s.trace ++ unlinks (s.jobmem job) } := by
  unfold free_job unlinks
  simp only []
  cases (s.jobmem job).stdoutfile <;> cases (s.jobmem job).stderrfile <;> simp [emit]

theorem jobs_remove_member (s : server_t) (c job : Nat) (h : job ∈ s.joblist) :
    jobs_remove s (some c) (some job) = some (free_job (removed s c job) job, 0) := by
  unfold jobs_remove
  simp only []
  cases hj : s.joblist with
  | nil => rw [hj] at h; simp at h
  | cons j rest =>
    simp only []
    by_cases hjj : j = job
    · simp only [hjj, if_true]
      simp [removed, hj, hjj]
    · simp only [hjj, if_false]
      have hin : job ∈ rest := by
        rw [hj] at h
        rcases List.mem_cons.mp h with e | e
        · exact absurd e.symm hjj
        · exact e
      simp only [hin, if_true]
      simp [removed, hj, List.erase_cons_tail, hjj]

/-- C19: for a connection bound to the client `c` and a job `j` of `c`'s list
that is also in the server's list (both lists without repetition, the jobids of
`c`'s list pairwise different), JOB_EXPUNGE of j's jobid returns 0 in a state
where `c`'s list and the server's list are the old lists without `j`, in the
old order, no job record has changed, jobs_lookup_by_jobid for that jobid finds
no job, and the trace has grown by the ACK (if the client is connected), then
killpg(j.pgid, SIGKILL) exactly when `j` was RUNNING or SUSPENDED, then the
unlink calls for j's output files. -/
theorem C19_expunge_removal (s : server_t) (conn : conn_t) (c j : Nat)
    (hc : conn.client = some c) (hj : j ∈ (s.clientmem c).jobs) (hg : j ∈ s.joblist)
    (hn1 : (s.clientmem c).jobs.Nodup) (hn2 : s.joblist.Nodup)
    (hid : ((s.clientmem c).jobs.map (fun a => (s.jobmem a).jobid)).Nodup) :
    ∃ s1, handle_expunge s conn (payload_t.jobid (s.jobmem j).jobid) = some (s1, 0) ∧
      (s1.clientmem c).jobs = (s.clientmem c).jobs.filter (fun a => a ≠ j) ∧
      s1.joblist = s.joblist.filter (fun a => a ≠ j) ∧
      j ∉ (s1.clientmem c).jobs ∧ j ∉ s1.joblist ∧
      s1.jobmem = s.jobmem ∧
      (∀ a, a ≠ c → s1.clientmem a = s.clientmem a) ∧
      jobs_lookup_by_jobid s1 (some c) (s.jobmem j).jobid = none ∧
      s1.trace = s.trace ++ reply_frames s conn ACK payload_t.null ++
        expunge_kill (s.jobmem j) ++ unlinks (s.jobmem j) := by
  have hl : jobs_lookup_by_jobid s (some c) (s.jobmem j).jobid = some j := by
    simp only [jobs_lookup_by_jobid]
    exact find_of_nodup_map (fun a => (s.jobmem a).jobid) _ j hid hj
  obtain ⟨s2, hs2e⟩ : ∃ x, x = expunge_sent s conn j := ⟨_, rfl⟩
  have hs2 : (if ((reply s conn ACK payload_t.null).jobmem j).status = RUNNING ∨
      ((reply s conn ACK payload_t.null).jobmem j).status = SUSPENDED then
      emit (reply s conn ACK payload_t.null)
        (effect.killpg ((reply s conn ACK payload_t.null).jobmem j).pgid SIGKILL)
      else reply s conn ACK payload_t.null) = s2 := by
    rw [reply_eq, hs2e]
    simp only [expunge_sent, expunge_kill]
    split
    · simp [emit]
    · simp
  have hrem : jobs_remove s2 (some c) (some j) = some (free_job (removed s2 c j) j, 0) :=
    jobs_remove_member s2 c j (by rw [hs2e]; exact hg)
  refine ⟨free_job (removed s2 c j) j, ?_, ?_, ?_, ?_, ?_, ?_, ?_, ?_, ?_⟩
  · simp only [handle_expunge, hc, hl, hs2, hrem]
  · rw [free_job_eq]
    simp only [removed, hs2e, expunge_sent, upd_same]
    rw [hn1.erase_eq_filter j]
    apply List.filter_congr
    intro x _
    by_cases hx : x = j <;> simp [hx]
  · rw [free_job_eq]
    simp only [removed, hs2e, expunge_sent]
    rw [hn2.erase_eq_filter j]
    apply List.filter_congr
    intro x _
    by_cases hx : x = j <;> simp [hx]
  · rw [free_job_eq]
    simp only [removed, hs2e, expunge_sent, upd_same]
    exact hn1.not_mem_erase
  · rw [free_job_eq]
    simp only [removed, hs2e, expunge_sent]
    exact hn2.not_mem_erase
  · rw [free_job_eq, hs2e]; rfl
  · intro a ha
    rw [free_job_eq]
    simp only [removed, hs2e, expunge_sent]
    exact upd_other _ _ _ _ ha
  · rw [free_job_eq]
    simp only [jobs_lookup_by_jobid, removed, hs2e, expunge_sent, upd_same]
    rw [List.find?_eq_none]
    intro x hx hxe
    have hxe2 : (s.jobmem x).jobid = (s.jobmem j).jobid := by simpa using hxe
    have hxm : x ∈ (s.clientmem c).jobs := List.mem_of_mem_erase hx
    have hinj := List.inj_on_of_nodup_map hid hxm hj hxe2
    rw [hinj] at hx
    exact hn1.not_mem_erase hx
  · rw [free_job_eq]
    simp [removed, hs2e, expunge_sent]

/-- C19, witness: the RUNNING job 0 of client "a" is expunged: its process
group 100 gets SIGKILL after the ACK, and both lists are empty afterwards. -/
theorem C19_expunge_removal_witness :
    expunge_kill (state_one_running.jobmem 0) = [effect.killpg 100 SIGKILL] ∧
    ∃ s1, handle_expunge state_one_running ⟨4, some 0⟩
        (payload_t.jobid (state_one_running.jobmem 0).jobid) = some (s1, 0) ∧
      (s1.clientmem 0).jobs = (state_one_running.clientmem 0).jobs.filter (fun a => a ≠ 0) ∧
      s1.joblist = state_one_running.joblist.filter (fun a => a ≠ 0) ∧
      0 ∉ (s1.clientmem 0).jobs ∧ 0 ∉ s1.joblist ∧
      s1.jobmem = state_one_running.jobmem ∧
      (∀ a, a ≠ 0 → s1.clientmem a = state_one_running.clientmem a) ∧
      jobs_lookup_by_jobid s1 (some 0) (state_one_running.jobmem 0).jobid = none ∧
      s1.trace = state_one_running.trace ++
        reply_frames state_one_running ⟨4, some 0⟩ ACK payload_t.null ++
        expunge_kill (state_one_running.jobmem 0) ++ unlinks (state_one_running.jobmem 0) :=
  ⟨by decide,
   C19_expunge_removal state_one_running ⟨4, some 0⟩ 0 0 rfl (by decide) (by decide)
     (by decide) (by decide) (by decide)⟩

/-! ## The order of the updates in scenario S1 (C20) -/

/-- C20, the claim fails: in scenario S1 the exit of job 0's process makes the
server send JOB_UPDATE(1, RUNNING) first and JOB_UPDATE(0, EXITED) second. -/
theorem C20_counterexample :
    scenario_S1 os_demo state_two_submitted 0 ⟨4, some 0⟩ 0 1 100 ∧
    (run_step state_two_submitted (step.child os_demo 100 ws_exited ru_zero)).map
        (fun s => s.trace.drop state_two_submitted.trace.length)
      = some [effect.fork 101,
              effect.send 4 JOB_UPDATE (payload_t.update ⟨1, RUNNING⟩),
              effect.send 4 JOB_UPDATE (payload_t.update ⟨0, EXITED⟩)] := by
  decide

/-- C20, amended: in scenario S1, when the reaper processes the exit of job 0's
process, job 0 becomes EXITED, job 1 is started by the backfill pass, and the
frames sent to the client's connection are JOB_UPDATE(1, RUNNING) followed by
JOB_UPDATE(0, EXITED), in that order, the fork coming first in the trace. -/
theorem C20_update_order_backfill_first (os : os_t) (s : server_t) (a : Nat) (conn : conn_t)
    (j0 j1 : Nat) (pid : Int) (status : wait_status) (ru : rusage)
    (hs : scenario_S1 os s a conn j0 j1 pid) (hex : exited status) :
    ∃ s1, reap os s pid status ru = some s1 ∧
      s1.trace = s.trace ++
        [effect.fork (os.fork s.nfork),
         effect.send conn.fd JOB_UPDATE (payload_t.update ⟨1, RUNNING⟩),
         effect.send conn.fd JOB_UPDATE (payload_t.update ⟨0, EXITED⟩)] ∧
      (s1.jobmem j0).status = EXITED ∧ (s1.jobmem j1).status = RUNNING := by
  obtain ⟨hmax, hnum, hlist, hne, hcon, hfind, ho0, hi0, hs0, hp0, ho1, hi1, hs1, hc1, hfork⟩ := hs
  obtain ⟨e1, e2, e3, e4⟩ := hex
  have hcl : conn.client = some a := by
    simp only [conn_find_by_client] at hfind
    simpa using List.find?_some hfind
  have hlk : jobs_lookup_by_pid s s.joblist pid = some j0 := by
    simp [jobs_lookup_by_pid, hlist, List.find?_cons, hp0]
  have hj0 : (reaped s j0 status ru).jobmem j0
      = { s.jobmem j0 with ru := ru, status := EXITED, exitcode := status.WEXITSTATUS } := by
    simp [reaped, job_update_status, e1, e2, e3, e4]
  have hj1 : (reaped s j0 status ru).jobmem j1 = s.jobmem j1 := by
    simp only [reaped]
    exact upd_other _ _ _ _ (Ne.symm hne)
  obtain ⟨s2, hs2⟩ : ∃ x, x = before_backfill s j0 status ru := ⟨_, rfl⟩
  have h2j0 : s2.jobmem j0
      = { s.jobmem j0 with ru := ru, status := EXITED, exitcode := status.WEXITSTATUS } := by
    rw [hs2]; exact hj0
  have h2j1 : s2.jobmem j1 = s.jobmem j1 := by rw [hs2]; exact hj1
  have h2num : s2.numjobs = 0 := by rw [hs2]; simp [before_backfill, hnum]
  have h2max : s2.maxjobs = 1 := by rw [hs2]; exact hmax
  have h2conn : s2.connlist = s.connlist := by rw [hs2]; rfl
  have h2fork : s2.nfork = s.nfork := by rw [hs2]; rfl
  have h2tr : s2.trace = s.trace := by rw [hs2]; rfl
  have h2cm : s2.clientmem = s.clientmem := by rw [hs2]; rfl
  have h2find : conn_find_by_client s2 (some a) = some conn := by
    simp only [conn_find_by_client, h2conn]
    exact hfind
  have hexec := exec_job_trace os s2 a j1 (by rw [h2num, h2max]; decide)
    (by rw [h2j1]; exact hs1) (by rw [h2j1]; exact hc1) (by rw [h2fork]; exact hfork)
  rw [h2find] at hexec
  simp only [] at hexec
  obtain ⟨s3, hs3⟩ : ∃ x, x = launch_state os s2 j1
    [effect.send conn.fd JOB_UPDATE (payload_t.update ⟨(s2.jobmem j1).jobid, RUNNING⟩)] :=
    ⟨_, rfl⟩
  rw [← hs3] at hexec
  have hb : backfill os s2 s.joblist = some s3 := by
    rw [hlist]
    have hn0 : ¬ (s2.jobmem j0).status = NEW := by rw [h2j0]; show ¬ (EXITED = NEW); decide
    have hlt : s2.numjobs < s2.maxjobs := by rw [h2num, h2max]; decide
    simp only [backfill, hlt, if_true, hn0, if_false]
    have hn1 : (s2.jobmem j1).status = NEW := by rw [h2j1]; exact hs1
    have hown : (s2.jobmem j1).owner = some a := by rw [h2j1]; exact ho1
    simp only [hn1, if_true, hown, hexec]
  have h3j0 : s3.jobmem j0
      = { s.jobmem j0 with ru := ru, status := EXITED, exitcode := status.WEXITSTATUS } := by
    rw [hs3]
    simp only [launch_state]
    rw [upd_other _ _ _ _ hne]
    exact h2j0
  have h3j1 : (s3.jobmem j1).status = RUNNING := by
    rw [hs3]
    simp [launch_state, launched, h2j1, hs1]
  have h3find : conn_find_by_client s3 (some a) = some conn := by
    rw [hs3]
    simp only [conn_find_by_client, launch_state, h2conn]
    exact hfind
  have h3con : (s3.clientmem a).connected ≠ 0 := by
    rw [hs3]
    simp only [launch_state, h2cm]
    exact hcon
  have h3tr : s3.trace = s.trace ++ [effect.fork (os.fork s.nfork),
      effect.send conn.fd JOB_UPDATE (payload_t.update ⟨1, RUNNING⟩)] := by
    rw [hs3]
    simp [launch_state, h2tr, h2fork, h2j1, hi1]
  have hst : ((reaped s j0 status ru).jobmem j0).status = EXITED := by rw [hj0]
  have hb2 : backfill os { reaped s j0 status ru with numjobs := (reaped s j0 status ru).numjobs - 1 }
      (reaped s j0 status ru).joblist = some s3 := by
    have := hb
    rw [hs2] at this
    exact this
  refine ⟨emit s3 (effect.send conn.fd JOB_UPDATE (payload_t.update ⟨0, EXITED⟩)), ?_, ?_, ?_, ?_⟩
  · have hnr : ¬ (EXITED = RUNNING) := by decide
    simp only [reap, hlk, hst, hnr, if_false, or_true, true_or, if_true, hb2, h3j0, ho0, h3find,
      hcl, h3con, ne_eq, not_false_eq_true, hi0]
  · simp [emit, h3tr]
  · show (s3.jobmem j0).status = EXITED
    rw [h3j0]
  · exact h3j1

/-- C20, witness: the scenario reached by accept, LOGIN "a" and two JOB_SUBMIT
with one slot. -/
theorem C20_update_order_backfill_first_witness :
    ∃ s1, reap os_demo state_two_submitted 100 ws_exited ru_zero = some s1 ∧
      s1.trace = state_two_submitted.trace ++
        [effect.fork (os_demo.fork state_two_submitted.nfork),
         effect.send 4 JOB_UPDATE (payload_t.update ⟨1, RUNNING⟩),
         effect.send 4 JOB_UPDATE (payload_t.update ⟨0, EXITED⟩)] ∧
      (s1.jobmem 0).status = EXITED ∧ (s1.jobmem 1).status = RUNNING :=
  C20_update_order_backfill_first os_demo state_two_submitted 0 ⟨4, some 0⟩ 0 1 100 ws_exited
    ru_zero (by decide) (by decide)

/-! ## The environment of a submitted job (C21) -/

/-- C21: the case JOB_SUBMIT calls exec_job in a state where the job record has
envpc equal to the submitted count and every entry of envp NULL, whatever the
submission; for the submission of "x" with the environment string "A=1" the job
is started with envpc = 1 and envp[0] = NULL. -/
theorem C21_environment_freed_before_exec :
    (∀ (os : os_t) (s : server_t) (conn : conn_t) (c : Nat) (sub : submission_t),
      conn.client = some c →
      ∃ s5 j, (s5.jobmem j).envpc = sub.envpc ∧
        (s5.jobmem j).envp = sub.envp.map (fun _ => none) ∧
        handle_submit os s conn (payload_t.submission sub) =
          match exec_job os s5 (some c) j with
          | none => none
          | some (s6, r1) =>
            if r1 < 0 then some (reply s6 conn NACK payload_t.null, -1) else some (s6, 0)) ∧
    (recv_pkt frame_submit_env).map (fun p => p.2.1)
      = some (payload_t.submission ⟨1, 1, 0, 1, [120], 1, [[65, 61, 49]]⟩) ∧
    (run_step state_logged_in (step.request os_demo 0 frame_submit_env)).map
        (fun s => ((s.jobmem 0).status, (s.jobmem 0).pgid, (s.jobmem 0).envpc, (s.jobmem 0).envp))
      = some (RUNNING, 100, 1, [none]) := by
  refine ⟨?_, by decide, by decide⟩
  intro os s conn c sub hc
  simp only [handle_submit, hc, parse_input, jobs_create, jobs_insert]
  simp only [show ¬ ((0 : Int) < 0) from by decide, if_false]
  refine ⟨_, _, ?_, ?_, rfl⟩
  · simp [reply_eq]
  · simp [reply_eq, Function.comp_def]

/-! ## Slot accounting after expunge and after a stop (C26, C27) -/

/-- C26: with one slot, after the RUNNING job 0 is expunged and the reaper is
given the termination of its process group 100, numjobs is still 1, not 0, and
the job submitted next stays NEW: it is the only job of the server's list while
numjobs = maxjobs = 1. -/
theorem C26_slot_not_released_after_expunge :
    reachable state_expunged ∧
    state_one_running.numjobs = 1 ∧ (state_one_running.jobmem 0).status = RUNNING ∧
    ((run_from_start os_step (some 1) (trace_expunged.take 5)).map
        (fun s => (s.numjobs, s.joblist))) = some (1, []) ∧
    state_expunged.maxjobs = 1 ∧ state_expunged.numjobs = 1 ∧
    state_expunged.joblist = [1] ∧ (state_expunged.jobmem 1).status = NEW :=
  ⟨reach_run_from_start os_step (some 1) trace_expunged state_expunged
      (getD_of_isSome _ _ (by decide)),
   by decide, by decide, by decide, by decide, by decide, by decide, by decide⟩

/-- C27: with one slot, after job 0 is started, stopped and then killed, the
reachable state has numjobs = -1: the stop took numjobs from 1 to 0 and the
termination of the SUSPENDED job decremented it again. Two jobs submitted then
are both started, so two jobs are RUNNING with maxjobs = 1. -/
theorem C27_numjobs_negative_after_stop_and_kill :
    reachable (state_stopped_killed 5) ∧
    (state_stopped_killed 3).numjobs = 1 ∧
    (state_stopped_killed 4).numjobs = 0 ∧
    ((state_stopped_killed 4).jobmem 0).status = SUSPENDED ∧
    (state_stopped_killed 5).numjobs = -1 ∧
    reachable (state_stopped_killed 7) ∧
    (state_stopped_killed 7).maxjobs = 1 ∧
    ((state_stopped_killed 7).jobmem 1).status = RUNNING ∧
    ((state_stopped_killed 7).jobmem 2).status = RUNNING :=
  ⟨reach_run_from_start os_step (some 1) (trace_stopped_killed.take 5) (state_stopped_killed 5)
      (getD_of_isSome _ _ (by decide)),
   by decide, by decide, by decide, by decide,
   reach_run_from_start os_step (some 1) (trace_stopped_killed.take 7) (state_stopped_killed 7)
      (getD_of_isSome _ _ (by decide)),
   by decide, by decide, by decide⟩

/-! ## Requests naming a job that was never started (C28) -/

/-- C28: job 1 of client "a" is NEW with pgid 0; JOB_SIGNAL for jobid 1 with
signal 9 makes the server call killpg(0, 9), and JOB_SET_PRI for jobid 1 with
priority 5 makes it call setpriority(PRIO_PGRP, 0, 5). -/
theorem C28_new_job_request_reaches_group_0 :
    reachable state_two_submitted ∧
    (state_two_submitted.jobmem 1).status = NEW ∧
    (state_two_submitted.jobmem 1).jobid = 1 ∧
    (state_two_submitted.jobmem 1).pgid = 0 ∧
    (run_step state_two_submitted (step.request os_demo 0 frame_signal_1_9)).map
        (fun s => s.trace.drop state_two_submitted.trace.length)
      = some [effect.send 4 ACK payload_t.null, effect.killpg 0 9] ∧
    (run_step state_two_submitted (step.request os_demo 0 frame_set_pri_1_5)).map
        (fun s => s.trace.drop state_two_submitted.trace.length)
      = some [effect.setpriority 0 5, effect.send 4 ACK payload_t.null] :=
  ⟨reach_run_from_start os_step (some 1) (trace_S1.take 4) state_two_submitted
      (getD_of_isSome _ _ (by decide)),
   by decide, by decide, by decide, by decide, by decide⟩

/-! ## Output file names (C24) -/

theorem outfile_long (name : bytes) (tv : timeval) (ext : bytes)
    (h : NAME_MAX - 2 ≤ name.length) : outfile name tv ext = name.take (NAME_MAX - 2) := by
  unfold outfile
  rw [List.append_assoc, List.append_assoc, List.append_assoc]
  exact List.take_append_of_le_length h

set_option maxRecDepth 100000 in
/-- C24: for every client name of 253 bytes or more, jobs_insert gives the job
the same stdout path and stderr path, the first 253 bytes of the name, with no
"_", time or extension; a client with a name of 253 bytes can log in, and the
job it submits has both paths equal to that name. -/
theorem C24_long_name_paths_equal :
    (∀ (os : os_t) (s : server_t) (c j : Nat), 253 ≤ (s.clientmem c).name.length →
      ((jobs_insert os s (some c) (some j)).1.jobmem j).stdoutfile
        = some ((s.clientmem c).name.take 253) ∧
      ((jobs_insert os s (some c) (some j)).1.jobmem j).stderrfile
        = some ((s.clientmem c).name.take 253)) ∧
    reachable state_long_name ∧
    (state_long_name.clientmem 0).name = long_name ∧
    (state_long_name.jobmem 0).stdoutfile = some long_name ∧
    (state_long_name.jobmem 0).stderrfile = some long_name := by
  refine ⟨?_, reach_run_from_start os_step (some 1) _ state_long_name
    (getD_of_isSome _ _ (by decide)), by decide, by decide, by decide⟩
  intro os s c j h
  simp only [jobs_insert, upd_same]
  exact ⟨congrArg some (outfile_long _ _ _ h), congrArg some (outfile_long _ _ _ h)⟩

/-! ## The cpu time shown by the client (C25) -/

/-- C25: for a status with ru_utime = 1.500000 s and ru_stime = 2.600000 s,
client_get_status computes 5 s and 200000 us, which is ru_stime + ru_stime, and
prints "5.200000", while ru_utime + ru_stime is 4 s and 100000 us; for every
status the value computed does not depend on ru_utime. -/
theorem C25_cputime_is_twice_stime :
    client_get_status_result_tv status_demo = ⟨5, 200000⟩ ∧
    timeradd status_demo.ru.ru_utime status_demo.ru.ru_stime = ⟨4, 100000⟩ ∧
    client_get_status_cputime status_demo = some [53, 46, 50, 48, 48, 48, 48, 48] ∧
    (∀ st : status_t, client_get_status_result_tv st = timeradd st.ru.ru_stime st.ru.ru_stime) ∧
    (recv_pkt ([JOB_STATUS_RESP] ++ status_bytes { status_demo with
        ru := ⟨⟨1, 500000⟩, ⟨2, 600000⟩, 0, List.replicate 104 0⟩ })).map
      (fun p => match p.2.1 with
        | payload_t.status st => some (client_get_status_result_tv st)
        | _ => none) = some (some ⟨5, 200000⟩) := by
  refine ⟨by decide, by decide, by decide, fun _ => rfl, by decide⟩

/-! ## The command splitter (C23) -/

theorem words_spec_nil : words_spec [] = [] := by
  simp [words_spec, List.splitOnP_nil]

theorem words_spec_delims (d l : bytes) (h : ∀ x ∈ d, is_delim x = true) :
    words_spec (d ++ l) = words_spec l := by
  induction d with
  | nil => rfl
  | cons x xs ih =>
    have hx : is_delim x = true := h x (List.mem_cons_self _ _)
    have hxs : ∀ y ∈ xs, is_delim y = true := fun y hy => h y (List.mem_cons_of_mem _ hy)
    have := ih hxs
    simp only [words_spec] at this ⊢
    rw [List.cons_append, List.splitOnP_cons, if_pos hx, List.filter_cons]
    simpa using this

theorem words_spec_token (tok r : bytes) (x : Nat) (ht : ∀ y ∈ tok, ¬ is_delim y = true)
    (hne : tok ≠ []) (hx : is_delim x = true) :
    words_spec (tok ++ x :: r) = tok :: words_spec r := by
  simp only [words_spec]
  rw [List.splitOnP_first is_delim tok ht x hx r, List.filter_cons]
  simp [hne]

theorem words_spec_single (tok : bytes) (ht : ∀ y ∈ tok, ¬ is_delim y = true)
    (hne : tok ≠ []) : words_spec tok = [tok] := by
  simp only [words_spec]
  rw [List.splitOnP_eq_single is_delim tok ht]
  simp [hne]

theorem components_loop_nil (n : Nat) : components_loop n [] = [] := by
  cases n with
  | zero => rfl
  | succ n => simp [components_loop, strtok_r]

theorem components_loop_eq : ∀ (n : Nat) (s : bytes), s.length < n →
    components_loop n s = words_spec s := by
  intro n
  induction n with
  | zero => intro s h; omega
  | succ n ih =>
    intro s hlen
    have hsplit := List.takeWhile_append_dropWhile is_delim s
    have hd : ∀ x ∈ s.takeWhile is_delim, is_delim x = true :=
      fun x hx => List.mem_takeWhile_imp hx
    have hw : words_spec s = words_spec (s.dropWhile is_delim) := by
      conv_lhs => rw [← hsplit]
      exact words_spec_delims _ _ hd
    rw [hw]
    have hlen1 : (s.dropWhile is_delim).length ≤ s.length := by
      have := congrArg List.length hsplit
      rw [List.length_append] at this
      omega
    cases hs1 : s.dropWhile is_delim with
    | nil =>
      simp [components_loop, strtok_r, hs1, words_spec_nil]
    | cons c q =>
      have hc : is_delim c = false := by
        have := List.head_dropWhile_not is_delim s (by rw [hs1]; simp)
        simpa [hs1] using this
      have hsplit2 := List.takeWhile_append_dropWhile (fun x => !is_delim x) (c :: q)
      have htok : ∀ y ∈ (c :: q).takeWhile (fun x => !is_delim x), ¬ is_delim y = true := by
        intro y hy
        have := List.mem_takeWhile_imp hy
        simpa using this
      have htne : (c :: q).takeWhile (fun x => !is_delim x) ≠ [] := by
        simp [List.takeWhile_cons, hc]
      simp only [components_loop, strtok_r, hs1]
      cases hr : (c :: q).dropWhile (fun x => !is_delim x) with
      | nil =>
        rw [hr, List.append_nil] at hsplit2
        simp only [List.drop_nil, components_loop_nil]
        rw [hsplit2]
        have htok2 : ∀ y ∈ c :: q, ¬ is_delim y = true := by rw [← hsplit2]; exact htok
        rw [words_spec_single (c :: q) htok2 (by simp)]
      | cons x r =>
        have hx : is_delim x = true := by
          have := List.head_dropWhile_not (fun x => !is_delim x) (c :: q) (by rw [hr]; simp)
          simpa [hr] using this
        rw [hr] at hsplit2
        have hlen2 : r.length < n := by
          have := congrArg List.length hsplit2
          rw [hs1] at hlen1
          simp only [List.length_append, List.length_cons] at this hlen1
          omega
        simp only [List.drop_succ_cons, List.drop_zero]
        rw [ih r hlen2]
        conv_rhs => rw [← hsplit2]
        rw [words_spec_token _ r x htok htne hx]

theorem components_loop_tokens : ∀ (n : Nat) (s : bytes), ∀ w ∈ components_loop n s,
    w ≠ [] ∧ ∀ x ∈ w, is_delim x = false := by
  intro n
  induction n with
  | zero => intro s w hw; simp [components_loop] at hw
  | succ n ih =>
    intro s w hw
    simp only [components_loop, strtok_r] at hw
    cases hs1 : s.dropWhile is_delim with
    | nil => simp [hs1] at hw
    | cons c q =>
      have hc : is_delim c = false := by
        have := List.head_dropWhile_not is_delim s (by rw [hs1]; simp)
        simpa [hs1] using this
      simp only [hs1, List.mem_cons] at hw
      rcases hw with e | hw
      · rw [e]
        refine ⟨by simp [List.takeWhile_cons, hc], ?_⟩
        intro x hx
        have := List.mem_takeWhile_imp hx
        simpa using this
      · exact ih _ w hw

theorem cstr_of_no_nul (s : bytes) (h : 0 ∉ s) : cstr s = s := by
  unfold cstr
  rw [List.takeWhile_eq_self_iff]
  intro x hx
  have : x ≠ 0 := fun e => h (e ▸ hx)
  simpa using this

/-- C23: for a command string `s` without NUL bytes, parse_input returns the
input `s` unchanged with one command whose components are the non-empty pieces
of `s` between the delimiters tab, carriage return, line feed and space, in
left-to-right order; no component is empty or contains a delimiter, and there
is no component if `s` has delimiters only. -/
theorem C23_command_splitter (s : bytes) (h : 0 ∉ s) :
    parse_input (some s) = some ⟨s, [⟨s, words_spec s⟩]⟩ ∧
    (∀ w ∈ words_spec s, w ≠ [] ∧ ∀ x ∈ w, is_delim x = false) ∧
    ((∀ x ∈ s, is_delim x = true) → words_spec s = []) := by
  refine ⟨?_, ?_, ?_⟩
  · simp only [parse_input, cstr_of_no_nul s h]
    rw [components_loop_eq _ s (Nat.lt_succ_self _)]
  · intro w hw
    rw [← components_loop_eq _ s (Nat.lt_succ_self _)] at hw
    exact components_loop_tokens _ s w hw
  · intro hall
    have := words_spec_delims s [] hall
    rw [List.append_nil] at this
    rw [this, words_spec_nil]

/-- C23, witness: "ls  -l" with two spaces has the components "ls" and "-l". -/
theorem C23_command_splitter_witness :
    words_spec [108, 115, 32, 32, 45, 108] = [[108, 115], [45, 108]] ∧
    parse_input (some [108, 115, 32, 32, 45, 108])
      = some ⟨[108, 115, 32, 32, 45, 108],
          [⟨[108, 115, 32, 32, 45, 108], words_spec [108, 115, 32, 32, 45, 108]⟩]⟩ :=
  ⟨by decide, (C23_command_splitter [108, 115, 32, 32, 45, 108] (by decide)).1⟩

/-! ## Registry consistency (C29) -/

theorem filter_erase_nodup {α : Type} [DecidableEq α] (p : α → Bool) (l : List α) (a : α)
    (hn : l.Nodup) : (l.filter p).erase a = (l.erase a).filter p := by
  rw [(hn.filter p).erase_eq_filter a, hn.erase_eq_filter a, List.filter_filter,
    List.filter_filter]
  apply List.filter_congr
  intro x _
  exact Bool.and_comm _ _

theorem filter_erase_not {α : Type} [DecidableEq α] (p : α → Bool) (l : List α) (a : α)
    (hn : l.Nodup) (ha : p a = false) : (l.erase a).filter p = l.filter p := by
  rw [hn.erase_eq_filter a, List.filter_filter]
  apply List.filter_congr
  intro x _
  by_cases hx : x = a
  · subst hx; simp [ha]
  · simp [hx]

theorem reg_inv_init : reg_inv server_init := by
  refine ⟨by simp [server_init], by simp [server_init], ?_⟩
  intro c
  simp [server_init, owned_by, client_zero]

theorem reg_inv_insert (os : os_t) (s : server_t) (c : Nat) (ui : user_input_t)
    (h : reg_inv s) : reg_inv (inserted os s c ui) := by
  obtain ⟨h1, h2, h3⟩ := h
  have hold : ∀ j ∈ s.joblist, (inserted os s c ui).jobmem j = s.jobmem j := by
    intro j hj
    exact inserted_job_other os s c j ui (Nat.ne_of_lt (h2 j hj).1)
  have hnew : ((inserted os s c ui).jobmem s.next_job).owner = some c := by
    rw [inserted_job_new]; rfl
  have hl : (inserted os s c ui).joblist = s.joblist ++ [s.next_job] := rfl
  refine ⟨?_, ?_, ?_⟩
  · rw [hl, List.pairwise_append]
    refine ⟨h1, by simp, ?_⟩
    intro a ha b hb
    rw [List.mem_singleton] at hb
    rw [hb]
    exact (h2 a ha).1
  · intro j hj
    rw [hl, List.mem_append, List.mem_singleton] at hj
    rw [inserted_next_job]
    rcases hj with hj | hj
    · rw [hold j hj]
      exact ⟨Nat.lt_succ_of_lt (h2 j hj).1, (h2 j hj).2⟩
    · rw [hj, hnew]
      exact ⟨Nat.lt_succ_self _, by simp⟩
  · intro c1
    have hf : s.joblist.filter (fun j => decide (((inserted os s c ui).jobmem j).owner = some c1))
        = owned_by s c1 := by
      unfold owned_by
      apply List.filter_congr
      intro j hj
      rw [hold j hj]
    unfold owned_by
    rw [hl, List.filter_append, hf, ← h3 c1]
    by_cases hc : c1 = c
    · subst hc
      rw [inserted_jobs_self]
      simp [List.filter_cons, hnew]
    · rw [inserted_client_other os s c1 c ui hc]
      have : ¬ (some c = some c1) := by
        intro e; exact hc (Option.some.inj e).symm
      simp [List.filter_cons, hnew, this]

theorem reg_inv_member (s : server_t) (c job : Nat) (h : reg_inv s)
    (hg : job ∈ (s.clientmem c).jobs) : job ∈ s.joblist ∧ (s.jobmem job).owner = some c := by
  rw [h.2.2 c] at hg
  simp only [owned_by, List.mem_filter, decide_eq_true_eq] at hg
  exact hg

theorem reg_remove_eq (s : server_t) (c job : Nat) (h : reg_inv s)
    (hg : job ∈ (s.clientmem c).jobs) :
    reg_step s (reg_op.remove c job)
      = some { removed s c job with trace := s.trace ++ unlinks (s.jobmem job) } := by
  simp only [reg_step, jobs_remove_member s c job (reg_inv_member s c job h hg).1, free_job_eq,
    Option.map_some']
  rfl

theorem reg_inv_remove (s : server_t) (c job : Nat) (h : reg_inv s)
    (hg : job ∈ (s.clientmem c).jobs) : reg_inv (removed s c job) := by
  obtain ⟨hin, hown⟩ := reg_inv_member s c job h hg
  obtain ⟨h1, h2, h3⟩ := h
  have hnd : s.joblist.Nodup := h1.imp (fun hab => Nat.ne_of_lt hab)
  refine ⟨?_, ?_, ?_⟩
  · exact h1.sublist (List.erase_sublist _ _)
  · intro j hj
    exact h2 j (List.mem_of_mem_erase hj)
  · intro c1
    show ((removed s c job).clientmem c1).jobs
      = (s.joblist.erase job).filter (fun j => decide ((s.jobmem j).owner = some c1))
    by_cases hc : c1 = c
    · subst hc
      simp only [removed, upd_same]
      rw [h3 c1]
      exact filter_erase_nodup _ _ _ hnd
    · simp only [removed]
      rw [upd_other _ _ _ _ hc, h3 c1]
      have : decide ((s.jobmem job).owner = some c1) = false := by
        rw [hown]
        simp
        intro e; exact hc e.symm
      exact (filter_erase_not _ _ _ hnd this).symm

theorem reg_inv_trace (s : server_t) (t : List effect) (h : reg_inv s) :
    reg_inv { s with trace := t } := h

theorem reg_inv_run : ∀ (ops : List reg_op) (s s1 : server_t), reg_inv s →
    reg_run_guarded s ops = some s1 → reg_inv s1 := by
  intro ops
  induction ops with
  | nil =>
    intro s s1 h hr
    simp only [reg_run_guarded, Option.some.injEq] at hr
    rw [← hr]; exact h
  | cons op rest ih =>
    intro s s1 h hr
    simp only [reg_run_guarded] at hr
    split at hr
    · rename_i hg
      cases op with
      | insert os c ui =>
        rw [reg_insert_eq] at hr
        exact ih _ s1 (reg_inv_insert os s c ui h) hr
      | remove c job =>
        rw [reg_remove_eq s c job h hg] at hr
        exact ih _ s1 (reg_inv_trace _ _ (reg_inv_remove s c job h hg)) hr
    · simp at hr

/-- C29: in every state reached from the initial server by jobs_insert calls
(each for a job just created) and jobs_remove calls (each with a job of the
given client's list): a job is in the server's list iff it is in the list of
some client; no list has a repetition and no job is in the lists of two
clients; the owner field of a job in a client's list is that client; the
server's list and every client's list are in increasing order of address, which
is the order of insertion, and every client's list is a sublist of the server's
list; and every further call made under its condition returns. -/
theorem C29_registry_consistency (ops : List reg_op) (s : server_t)
    (h : reg_run_guarded server_init ops = some s) :
    (∀ j, j ∈ s.joblist ↔ ∃ c, j ∈ (s.clientmem c).jobs) ∧
    s.joblist.Nodup ∧ (∀ c, (s.clientmem c).jobs.Nodup) ∧
    (∀ c c1 j, j ∈ (s.clientmem c).jobs → j ∈ (s.clientmem c1).jobs → c = c1) ∧
    (∀ c j, j ∈ (s.clientmem c).jobs → (s.jobmem j).owner = some c) ∧
    s.joblist.Pairwise (fun a b => a < b) ∧
    (∀ c, (s.clientmem c).jobs.Pairwise (fun a b => a < b)) ∧
    (∀ c, List.Sublist (s.clientmem c).jobs s.joblist) ∧
    (∀ os c ui, (inserted os s c ui).joblist = s.joblist ++ [s.next_job] ∧
      ((inserted os s c ui).clientmem c).jobs = (s.clientmem c).jobs ++ [s.next_job] ∧
      ∀ j ∈ s.joblist, j < s.next_job) ∧
    (∀ op, reg_guard s op → ∃ s1, reg_step s op = some s1) := by
  have hinv := reg_inv_run ops server_init s reg_inv_init h
  have hinv0 := hinv
  obtain ⟨h1, h2, h3⟩ := hinv
  have hnd : s.joblist.Nodup := h1.imp (fun hab => Nat.ne_of_lt hab)
  have hsub : ∀ c, List.Sublist (s.clientmem c).jobs s.joblist := by
    intro c; rw [h3 c]; exact List.filter_sublist _
  refine ⟨?_, hnd, ?_, ?_, ?_, h1, ?_, hsub, ?_, ?_⟩
  · intro j
    constructor
    · intro hj
      obtain ⟨c, hc⟩ := Option.ne_none_iff_exists'.mp (h2 j hj).2
      refine ⟨c, ?_⟩
      rw [h3 c]
      simp only [owned_by, List.mem_filter, decide_eq_true_eq]
      exact ⟨hj, hc⟩
    · rintro ⟨c, hc⟩
      exact (reg_inv_member s c j hinv0 hc).1
  · intro c
    exact hnd.sublist (hsub c)
  · intro c c1 j hj hj1
    have e1 := (reg_inv_member s c j hinv0 hj).2
    have e2 := (reg_inv_member s c1 j hinv0 hj1).2
    rw [e1] at e2
    exact Option.some.inj e2
  · intro c j hj
    exact (reg_inv_member s c j hinv0 hj).2
  · intro c
    exact h1.sublist (hsub c)
  · intro os c ui
    exact ⟨rfl, inserted_jobs_self os s c ui, fun j hj => (h2 j hj).1⟩
  · intro op hg
    cases op with
    | insert os c ui => exact ⟨_, reg_insert_eq os s c ui⟩
    | remove c job => exact ⟨_, reg_remove_eq s c job hinv0 hg⟩

/-- C29, witness: three inserts for client 0 with the removal of the first job
in between leave the jobs 1 and 2 in both lists. -/
theorem C29_registry_consistency_witness :
    state_ops_demo.joblist = [1, 2] ∧ (state_ops_demo.clientmem 0).jobs = [1, 2] ∧
    ∀ j, j ∈ state_ops_demo.joblist ↔ ∃ c, j ∈ (state_ops_demo.clientmem c).jobs :=
  ⟨by decide, by decide,
   (C29_registry_consistency ops_demo state_ops_demo (getD_of_isSome _ _ (by decide))).1⟩

/-! ## Client isolation (C30) -/

theorem effect_on_reply (s : server_t) (conn : conn_t) (tgt : Option Nat) (t : Nat)
    (p : payload_t) (hp : ∀ st, p ≠ payload_t.status st) :
    ∀ e ∈ reply_frames s conn t p, effect_on s conn tgt e := by
  intro e he
  unfold reply_frames at he
  split at he
  · simp at he
  · split at he
    · simp only [List.mem_singleton] at he
      rw [he]
      exact ⟨rfl, fun st hst => absurd hst (hp st)⟩
    · simp at he

theorem effect_on_unlinks (s : server_t) (conn : conn_t) (j : Nat) :
    ∀ e ∈ unlinks (s.jobmem j), effect_on s conn (some j) e := by
  intro e he
  unfold unlinks at he
  rw [List.mem_append] at he
  rcases he with he | he
  · split at he
    · rename_i f hf
      simp only [List.mem_singleton] at he
      rw [he]
      exact ⟨j, rfl, Or.inl hf⟩
    · simp at he
  · split at he
    · rename_i f hf
      simp only [List.mem_singleton] at he
      rw [he]
      exact ⟨j, rfl, Or.inr hf⟩
    · simp at he

theorem jobs_remove_exact (s s1 : server_t) (c job : Nat) (r : Int)
    (h : jobs_remove s (some c) (some job) = some (s1, r)) :
    ∃ t, s1 = { removed s c job with trace := s.trace ++ t } ∧
      (t = [] ∨ t = unlinks (s.jobmem job)) := by
  unfold jobs_remove at h
  simp only [] at h
  cases hj : s.joblist with
  | nil => simp [hj] at h
  | cons j rest =>
    simp only [hj] at h
    by_cases hjj : j = job
    · simp only [hjj, if_true] at h
      simp at h
      refine ⟨unlinks (s.jobmem job), ?_, Or.inr rfl⟩
      rw [← h.1, free_job_eq]
      simp [removed, hj, hjj]
    · simp only [hjj, if_false] at h
      by_cases hin : job ∈ rest
      · simp only [hin, if_true] at h
        simp at h
        refine ⟨unlinks (s.jobmem job), ?_, Or.inr rfl⟩
        rw [← h.1, free_job_eq]
        simp [removed, hj, List.erase_cons_tail, hjj]
      · simp only [hin, if_false] at h
        simp at h
        refine ⟨[], ?_, Or.inl rfl⟩
        rw [← h.1]
        simp [removed, hj, List.erase_cons_tail, hjj, List.erase_of_not_mem hin]

theorem lookup_mem (s : server_t) (a id j : Nat)
    (h : jobs_lookup_by_jobid s (some a) id = some j) : j ∈ (s.clientmem a).jobs := by
  simp only [jobs_lookup_by_jobid] at h
  exact List.mem_of_find?_eq_some h

theorem handle_results_reply (os : os_t) (s s1 : server_t) (conn : conn_t) (a : Nat)
    (p : payload_t) (ret : Int) (hc : conn.client = some a)
    (h : handle_results os s conn p = some (s1, ret)) :
    ∃ (t : Nat) (q : payload_t), (∀ st, q ≠ payload_t.status st) ∧ s1 = reply s conn t q := by
  have hnull : ∀ st, payload_t.null ≠ payload_t.status st := by
    intro st e; cases e
  unfold handle_results at h
  simp only [hc] at h
  split at h
  · split at h
    · simp at h; exact ⟨_, _, hnull, h.1.symm⟩
    · split at h
      · simp at h; exact ⟨_, _, hnull, h.1.symm⟩
      · split at h
        · simp at h; exact ⟨_, _, hnull, h.1.symm⟩
        · split at h
          · simp at h; exact ⟨_, _, hnull, h.1.symm⟩
          · split at h
            · simp at h; exact ⟨_, _, hnull, h.1.symm⟩
            · split at h
              · simp at h
              · simp at h
                exact ⟨JOB_RESULTS, payload_t.results _, fun st => by simp, h.1.symm⟩
  · simp at h

theorem expunge_sent_eq (s : server_t) (conn : conn_t) (j : Nat) :
    (if ((reply s conn ACK payload_t.null).jobmem j).status = RUNNING ∨
      ((reply s conn ACK payload_t.null).jobmem j).status = SUSPENDED then
      emit (reply s conn ACK payload_t.null)
        (effect.killpg ((reply s conn ACK payload_t.null).jobmem j).pgid SIGKILL)
      else reply s conn ACK payload_t.null) = expunge_sent s conn j := by
  rw [reply_eq]
  simp only [expunge_sent, expunge_kill]
  split
  · simp [emit]
  · simp

/-- At the level of the records: let the connection `conn` be bound to the
client `a`, every job of the list of `a` having `a` as its owner field, and let a
JOB_STATUS, JOB_SIGNAL, JOB_SET_PRI, JOB_EXPUNGE, JOB_GET_STDOUT or
JOB_GET_STDERR frame be dispatched. Then there is at most one job `tgt` the
handler looks up, it is in the list of `a` and owned by `a`; every effect is a
frame on `conn` (a status sent being the status of `tgt`), a killpg or
setpriority on the value of the pgid field of `tgt`, or an unlink of an output
file of `tgt`; the server's list is unchanged or loses `tgt` only; no job record
changes; and for every other client `b` the record (job list and id counter) is
unchanged, no job owned by `b` is `tgt`, and every job owned by `b` stays in the
server's list. Nothing is said about which processes have that pgid. -/
theorem names_job_record_isolation (os : os_t) (s s1 : server_t) (i : Nat) (conn : conn_t)
    (a : Nat) (r : Int) (p : payload_t) (ret : Int)
    (hc : conn.client = some a)
    (hown : ∀ j ∈ (s.clientmem a).jobs, (s.jobmem j).owner = some a)
    (hr : names_job r)
    (hd : server_dispatch os s i conn r p = some (s1, ret)) :
    ∃ (tgt : Option Nat) (t : List effect),
      (∀ j, tgt = some j → j ∈ (s.clientmem a).jobs ∧ (s.jobmem j).owner = some a) ∧
      s1.trace = s.trace ++ t ∧ (∀ e ∈ t, effect_on s conn tgt e) ∧
      (s1.joblist = s.joblist ∨ ∃ j, tgt = some j ∧ s1.joblist = s.joblist.erase j) ∧
      s1.jobmem = s.jobmem ∧
      ∀ b, b ≠ a →
        s1.clientmem b = s.clientmem b ∧
        (∀ k, (s.jobmem k).owner = some b →
          tgt ≠ some k ∧ (k ∈ s.joblist → k ∈ s1.joblist)) := by
  suffices hmain : ∃ (tgt : Option Nat) (t : List effect),
      (∀ j, tgt = some j → j ∈ (s.clientmem a).jobs) ∧
      s1.trace = s.trace ++ t ∧ (∀ e ∈ t, effect_on s conn tgt e) ∧
      (s1.joblist = s.joblist ∨ ∃ j, tgt = some j ∧ s1.joblist = s.joblist.erase j) ∧
      s1.jobmem = s.jobmem ∧ ∀ b, b ≠ a → s1.clientmem b = s.clientmem b by
    obtain ⟨tgt, t, h1, h2, h3, h4, h5, h6⟩ := hmain
    refine ⟨tgt, t, fun j hj => ⟨h1 j hj, hown j (h1 j hj)⟩, h2, h3, h4, h5, ?_⟩
    intro b hb
    refine ⟨h6 b hb, ?_⟩
    intro k hkb
    have hne : tgt ≠ some k := by
      intro e
      have := hown k (h1 k e)
      rw [hkb] at this
      exact hb (Option.some.inj this)
    refine ⟨hne, ?_⟩
    intro hin
    rcases h4 with h4 | ⟨j, hj, h4⟩
    · rw [h4]; exact hin
    · rw [h4]
      have hkj : k ≠ j := by
        intro e; rw [e] at hne; exact hne hj
      exact (List.mem_erase_of_ne hkj).mpr hin
  have hnull : ∀ st, payload_t.null ≠ payload_t.status st := by
    intro st e; cases e
  unfold names_job at hr
  rcases hr with h | h | h | h | h | h <;> subst h
  · -- JOB_STATUS
    simp only [server_dispatch, handle_status, hc] at hd
    simp at hd
    cases p <;> simp at hd
    rename_i id
    cases hl : jobs_lookup_by_jobid s (some a) id with
    | none =>
      simp only [hl, reply_eq] at hd
      simp at hd
      refine ⟨none, _, by simp, by rw [← hd.1], effect_on_reply s conn _ _ _ hnull,
        Or.inl (by rw [← hd.1]), by rw [← hd.1], fun b _ => by rw [← hd.1]⟩
    | some j =>
      simp only [hl, reply_eq] at hd
      simp at hd
      refine ⟨some j, _, ?_, by rw [← hd.1], ?_, Or.inl (by rw [← hd.1]), by rw [← hd.1],
        fun b _ => by rw [← hd.1]⟩
      · intro k hk
        rw [← Option.some.inj hk]
        exact lookup_mem s a id j hl
      · intro e he
        unfold reply_frames at he
        split at he
        · simp at he
        · split at he
          · simp only [List.mem_singleton] at he
            rw [he]
            refine ⟨rfl, ?_⟩
            intro st hst
            injection hst with hst
            rw [← hst]
            exact ⟨j, rfl, rfl, rfl, rfl⟩
          · simp at he
  · -- JOB_SIGNAL
    simp only [server_dispatch, handle_signal, hc] at hd
    simp at hd
    cases p <;> simp at hd
    rename_i sg
    cases hl : jobs_lookup_by_jobid s (some a) sg.jobid with
    | none =>
      simp only [hl, reply_eq] at hd
      simp at hd
      refine ⟨none, _, by simp, by rw [← hd.1], effect_on_reply s conn _ _ _ hnull,
        Or.inl (by rw [← hd.1]), by rw [← hd.1], fun b _ => by rw [← hd.1]⟩
    | some j =>
      simp only [hl, reply_eq, emit] at hd
      simp at hd
      refine ⟨some j, reply_frames s conn ACK payload_t.null ++
        [effect.killpg (s.jobmem j).pgid sg.signal], ?_, by rw [← hd.1], ?_,
        Or.inl (by rw [← hd.1]), by rw [← hd.1], fun b _ => by rw [← hd.1]⟩
      · intro k hk
        rw [← Option.some.inj hk]
        exact lookup_mem s a _ j hl
      · intro e he
        rw [List.mem_append] at he
        rcases he with he | he
        · exact effect_on_reply s conn _ _ _ hnull e he
        · simp only [List.mem_singleton] at he
          rw [he]
          exact ⟨j, rfl, rfl⟩
  · -- JOB_SET_PRI
    simp only [server_dispatch, handle_set_pri, hc] at hd
    simp at hd
    cases p <;> simp at hd
    rename_i pr
    cases hl : jobs_lookup_by_jobid s (some a) pr.jobid with
    | none =>
      simp only [hl, reply_eq] at hd
      simp at hd
      refine ⟨none, _, by simp, by rw [← hd.1], effect_on_reply s conn _ _ _ hnull,
        Or.inl (by rw [← hd.1]), by rw [← hd.1], fun b _ => by rw [← hd.1]⟩
    | some j =>
      simp only [hl, reply_eq, emit] at hd
      have hmem : ∀ k, some j = some k → k ∈ (s.clientmem a).jobs := by
        intro k hk
        rw [← Option.some.inj hk]
        exact lookup_mem s a _ j hl
      have hkill : effect_on s conn (some j) (effect.setpriority (s.jobmem j).pgid pr.priority) :=
        ⟨j, rfl, rfl⟩
      split at hd
      · simp at hd
        refine ⟨some j, [effect.setpriority (s.jobmem j).pgid pr.priority] ++
          reply_frames s conn ACK payload_t.null, hmem, by rw [← hd.1]; simp [reply_frames], ?_,
          Or.inl (by rw [← hd.1]), by rw [← hd.1], fun b _ => by rw [← hd.1]⟩
        intro e he
        rw [List.mem_append] at he
        rcases he with he | he
        · simp only [List.mem_singleton] at he
          rw [he]; exact hkill
        · exact effect_on_reply s conn _ _ _ hnull e he
      · simp at hd
        refine ⟨some j, [effect.setpriority (s.jobmem j).pgid pr.priority] ++
          reply_frames s conn NACK payload_t.null, hmem, by rw [← hd.1]; simp [reply_frames], ?_,
          Or.inl (by rw [← hd.1]), by rw [← hd.1], fun b _ => by rw [← hd.1]⟩
        intro e he
        rw [List.mem_append] at he
        rcases he with he | he
        · simp only [List.mem_singleton] at he
          rw [he]; exact hkill
        · exact effect_on_reply s conn _ _ _ hnull e he
  · -- JOB_EXPUNGE
    simp only [server_dispatch, handle_expunge, hc] at hd
    simp at hd
    cases p <;> simp at hd
    rename_i id
    cases hl : jobs_lookup_by_jobid s (some a) id with
    | none =>
      simp only [hl, reply_eq] at hd
      simp at hd
      refine ⟨none, _, by simp, by rw [← hd.1], effect_on_reply s conn _ _ _ hnull,
        Or.inl (by rw [← hd.1]), by rw [← hd.1], fun b _ => by rw [← hd.1]⟩
    | some j =>
      simp only [hl, expunge_sent_eq] at hd
      split at hd
      · simp at hd
      · rename_i s3 r3 hrem
        simp at hd
        obtain ⟨t, hs3, ht⟩ := jobs_remove_exact _ _ _ _ _ hrem
        rw [← hd.1, hs3]
        refine ⟨some j, reply_frames s conn ACK payload_t.null ++ expunge_kill (s.jobmem j) ++ t,
          ?_, by simp [removed, expunge_sent], ?_, Or.inr ⟨j, rfl, rfl⟩, rfl, ?_⟩
        · intro k hk
          rw [← Option.some.inj hk]
          exact lookup_mem s a id j hl
        · intro e he
          rw [List.mem_append, List.mem_append] at he
          rcases he with (he | he) | he
          · exact effect_on_reply s conn _ _ _ hnull e he
          · unfold expunge_kill at he
            split at he
            · simp only [List.mem_singleton] at he
              rw [he]
              exact ⟨j, rfl, rfl⟩
            · simp at he
          · rcases ht with ht | ht
            · rw [ht] at he; simp at he
            · rw [ht] at he
              exact effect_on_unlinks s conn j e he
        · intro b hb
          simp only [removed, expunge_sent]
          exact upd_other _ _ _ _ hb
  · -- JOB_GET_STDOUT
    simp only [server_dispatch] at hd
    simp at hd
    obtain ⟨t, q, hq, hs1⟩ := handle_results_reply os s s1 conn a p ret hc hd
    rw [hs1, reply_eq]
    exact ⟨none, _, by simp, rfl, effect_on_reply s conn _ _ _ hq, Or.inl rfl, rfl,
      fun b _ => rfl⟩
  · -- JOB_GET_STDERR
    simp only [server_dispatch] at hd
    simp at hd
    obtain ⟨t, q, hq, hs1⟩ := handle_results_reply os s s1 conn a p ret hc hd
    rw [hs1, reply_eq]
    exact ⟨none, _, by simp, rfl, effect_on_reply s conn _ _ _ hq, Or.inl rfl, rfl,
      fun b _ => rfl⟩

/-- C30: after the job of client "a" with pid 100 has exited and been reaped and
the job of client "b" has been given the pid 100, the job of "a" is EXITED, the
job of "b" is RUNNING, and both records have pgid 100. JOB_SIGNAL for jobid 0
with signal 9 on the connection of "a" makes the server call killpg(100, 9), and
JOB_SET_PRI for jobid 0 with priority 5 makes it call setpriority(PRIO_PGRP,
100, 5): the process group signalled and re-prioritised is that of the RUNNING
job owned by "b". -/
theorem C30_signal_reaches_other_clients_job :
    reachable state_pid_reused ∧
    state_pid_reused.connlist = [⟨5, some 1⟩, ⟨4, some 0⟩] ∧
    (state_pid_reused.clientmem 0).name = [97] ∧ (state_pid_reused.clientmem 1).name = [98] ∧
    (state_pid_reused.clientmem 0).jobs = [0] ∧ (state_pid_reused.clientmem 1).jobs = [1] ∧
    ((state_pid_reused.jobmem 0).owner, (state_pid_reused.jobmem 0).jobid,
      (state_pid_reused.jobmem 0).status, (state_pid_reused.jobmem 0).pgid)
      = (some 0, 0, EXITED, 100) ∧
    ((state_pid_reused.jobmem 1).owner, (state_pid_reused.jobmem 1).jobid,
      (state_pid_reused.jobmem 1).status, (state_pid_reused.jobmem 1).pgid)
      = (some 1, 0, RUNNING, 100) ∧
    (run_step state_pid_reused (step.request os_pid_reused 1 frame_signal_0_9)).map
        (fun s => s.trace.drop state_pid_reused.trace.length)
      = some [effect.send 4 ACK payload_t.null, effect.killpg 100 9] ∧
    (run_step state_pid_reused (step.request os_pid_reused 1 frame_set_pri_0_5)).map
        (fun s => s.trace.drop state_pid_reused.trace.length)
      = some [effect.setpriority 100 5, effect.send 4 ACK payload_t.null] :=
  ⟨reach_run_from_start os_step (some 2) trace_pid_reused state_pid_reused
      (getD_of_isSome _ _ (by decide)),
   by decide, by decide, by decide, by decide, by decide, by decide, by decide, by decide,
   by decide⟩

/-! ## Exact consumption (C22) -/

theorem READ_exact (b rest : bytes) (n : Nat) (hn : b.length = n) (h0 : 0 < n) :
    READ (b ++ rest) n = some (b, rest) := by
  have hne : b ≠ [] := by
    intro e; rw [e] at hn; simp at hn; omega
  rw [← hn]
  exact READ_append b rest hne

theorem READ_8 (a b rest : bytes) (ha : a.length = 4) (hb : b.length = 4) :
    READ (a ++ (b ++ rest)) 8 = some (a ++ b, rest) := by
  rw [← List.append_assoc]
  exact READ_exact (a ++ b) rest 8 (by simp [ha, hb]) (by decide)

theorem take_drop_4 (a b : bytes) (ha : a.length = 4) :
    (a ++ b).take 4 = a ∧ (a ++ b).drop 4 = b := by
  rw [← ha]
  exact ⟨List.take_left' rfl, List.drop_left' rfl⟩

theorem recv_pkt_null (t : Nat) (rest : bytes) (h : t = ACK ∨ t = NACK ∨ t = JOB_LIST_ALL) :
    send_pkt t payload_t.null = some ([t], 0) ∧
    recv_pkt (t :: rest) = some ((t : Int), payload_t.null, rest) := by
  simp [send_pkt, recv_pkt, h]

theorem recv_pkt_update (u : update_t) (rest : bytes) (h1 : u.jobid < 4294967296)
    (h2 : u.status < 4294967296) :
    send_pkt JOB_UPDATE (payload_t.update u)
      = some (wire_spec JOB_UPDATE (payload_t.update u), 0) ∧
    recv_pkt (wire_spec JOB_UPDATE (payload_t.update u) ++ rest)
      = some ((JOB_UPDATE : Int), payload_t.update u, rest) := by
  refine ⟨by simp [send_pkt, wire_spec, wire_u32, JOB_UPDATE], ?_⟩
  have hl1 := le_bytes_length 4 u.jobid
  have hl2 := le_bytes_length 4 u.status
  simp only [wire_spec, wire_u32, recv_pkt, List.cons_append, List.append_assoc]
  simp only [show ¬ ((14 : Nat) = ACK ∨ (14 : Nat) = NACK ∨ (14 : Nat) = JOB_LIST_ALL) by decide,
    if_true, if_false, READ_8 _ _ rest hl1 hl2]
  have e1 := take_drop_4 (le_bytes 4 u.jobid) (le_bytes 4 u.status) hl1
  simp only [e1.1, e1.2, le_val_le_bytes4 _ h1, le_val_le_bytes4 _ h2]

theorem recv_pkt_signal (sg : signal_t) (rest : bytes) (h1 : sg.jobid < 4294967296)
    (h2 : sg.signal < 4294967296) :
    send_pkt JOB_SIGNAL (payload_t.signal sg)
      = some (wire_spec JOB_SIGNAL (payload_t.signal sg), 0) ∧
    recv_pkt (wire_spec JOB_SIGNAL (payload_t.signal sg) ++ rest)
      = some ((JOB_SIGNAL : Int), payload_t.signal sg, rest) := by
  refine ⟨by simp [send_pkt, wire_spec, wire_u32, JOB_SIGNAL], ?_⟩
  have hl1 := le_bytes_length 4 sg.jobid
  have hl2 := le_bytes_length 4 sg.signal
  simp only [wire_spec, wire_u32, recv_pkt, List.cons_append, List.append_assoc]
  simp only [show ¬ ((6 : Nat) = ACK ∨ (6 : Nat) = NACK ∨ (6 : Nat) = JOB_LIST_ALL) by decide,
    show ¬ ((6 : Nat) = JOB_UPDATE) by decide, show ¬ ((6 : Nat) = LOGIN) by decide,
    show ¬ ((6 : Nat) = JOB_SUBMIT) by decide,
    show ¬ ((6 : Nat) = JOB_SUBMIT_SUCCESS ∨ (6 : Nat) = JOB_STATUS ∨ (6 : Nat) = JOB_EXPUNGE ∨
      (6 : Nat) = JOB_GET_STDOUT ∨ (6 : Nat) = JOB_GET_STDERR) by decide,
    show ¬ ((6 : Nat) = JOB_STATUS_RESP) by decide,
    show ¬ ((6 : Nat) = JOB_LIST_ALL_RESP) by decide,
    show ¬ ((6 : Nat) = JOB_SET_PRI) by decide,
    if_true, if_false, READ_8 _ _ rest hl1 hl2]
  have e1 := take_drop_4 (le_bytes 4 sg.jobid) (le_bytes 4 sg.signal) hl1
  simp only [e1.1, e1.2, le_val_le_bytes4 _ h1, le_val_le_bytes4 _ h2]

theorem recv_pkt_priority (pr : priority_t) (rest : bytes) (h1 : pr.jobid < 4294967296)
    (h2 : fits_i32 pr.priority) :
    send_pkt JOB_SET_PRI (payload_t.priority pr)
      = some (wire_spec JOB_SET_PRI (payload_t.priority pr), 0) ∧
    recv_pkt (wire_spec JOB_SET_PRI (payload_t.priority pr) ++ rest)
      = some ((JOB_SET_PRI : Int), payload_t.priority pr, rest) := by
  refine ⟨by simp [send_pkt, wire_spec, wire_u32, wire_i32, JOB_SET_PRI], ?_⟩
  have hl1 := le_bytes_length 4 pr.jobid
  have hl2 := le_bytes_length 4 (to_u32 pr.priority)
  simp only [wire_spec, wire_u32, wire_i32, recv_pkt, List.cons_append, List.append_assoc]
  simp only [show ¬ ((7 : Nat) = ACK ∨ (7 : Nat) = NACK ∨ (7 : Nat) = JOB_LIST_ALL) by decide,
    show ¬ ((7 : Nat) = JOB_UPDATE) by decide, show ¬ ((7 : Nat) = LOGIN) by decide,
    show ¬ ((7 : Nat) = JOB_SUBMIT) by decide,
    show ¬ ((7 : Nat) = JOB_SUBMIT_SUCCESS ∨ (7 : Nat) = JOB_STATUS ∨ (7 : Nat) = JOB_EXPUNGE ∨
      (7 : Nat) = JOB_GET_STDOUT ∨ (7 : Nat) = JOB_GET_STDERR) by decide,
    show ¬ ((7 : Nat) = JOB_STATUS_RESP) by decide,
    show ¬ ((7 : Nat) = JOB_LIST_ALL_RESP) by decide,
    if_true, if_false, READ_8 _ _ rest hl1 hl2]
  have e1 := take_drop_4 (le_bytes 4 pr.jobid) (le_bytes 4 (to_u32 pr.priority)) hl1
  simp only [e1.1, e1.2, le_val_le_bytes4 _ h1, le_val_le_bytes4 _ (to_u32_lt _),
    to_i32_to_u32 _ h2.1 h2.2]

theorem recv_pkt_jobid (t id : Nat) (rest : bytes)
    (ht : t = JOB_SUBMIT_SUCCESS ∨ t = JOB_STATUS ∨ t = JOB_EXPUNGE ∨ t = JOB_GET_STDOUT ∨
      t = JOB_GET_STDERR) (h1 : id < 4294967296) :
    send_pkt t (payload_t.jobid id) = some (wire_spec t (payload_t.jobid id), 0) ∧
    recv_pkt (wire_spec t (payload_t.jobid id) ++ rest)
      = some ((t : Int), payload_t.jobid id, rest) := by
  have hr := READ_u32_append id rest h1
  rcases ht with h | h | h | h | h <;> subst h <;>
    simp [send_pkt, recv_pkt, wire_spec, wire_u32, hr, JOB_SUBMIT_SUCCESS, JOB_STATUS,
      JOB_EXPUNGE, JOB_GET_STDOUT, JOB_GET_STDERR]

theorem recv_pkt_name (n : bytes) (rest : bytes) (h0 : 0 ∉ n)
    (hl : n.length + 1 < 2147483648) :
    send_pkt LOGIN (payload_t.name n) = some (wire_spec LOGIN (payload_t.name n), 0) ∧
    recv_pkt (wire_spec LOGIN (payload_t.name n) ++ rest)
      = some ((LOGIN : Int), payload_t.name n, rest) := by
  have hc := cstr_of_no_nul n h0
  refine ⟨by simp [send_pkt, wire_spec, wire_u32, LOGIN, hc], ?_⟩
  have hr := READ_u32_append (n.length + 1) (n ++ ([0] ++ rest)) (by omega)
  have hr2 := READ_exact (n ++ [0]) rest (n.length + 1) (by simp) (by omega)
  rw [List.append_assoc] at hr2
  have hlt : ¬ (2147483648 ≤ n.length + 1) := by omega
  have hc2 : cstr (n ++ [0]) = n := by
    unfold cstr
    rw [List.takeWhile_append_of_pos]
    · simp
    · intro x hx
      have : x ≠ 0 := fun e => h0 (e ▸ hx)
      simpa using this
  simp only [wire_spec, wire_u32, recv_pkt, List.cons_append]
  simp only [show ¬ ((3 : Nat) = ACK ∨ (3 : Nat) = NACK ∨ (3 : Nat) = JOB_LIST_ALL) by decide,
    show ¬ ((3 : Nat) = JOB_UPDATE) by decide, ↓reduceIte, List.append_assoc]
  rw [hr]
  simp only []
  rw [if_neg hlt, hr2]
  simp only [hc2]

theorem recv_pkt_results (r : results_t) (rest : bytes) (hl : r.results.length = r.length)
    (h0 : 0 < r.length) (h1 : r.length < 4294967295) :
    send_pkt JOB_RESULTS (payload_t.results r)
      = some (wire_spec JOB_RESULTS (payload_t.results r), 0) ∧
    recv_pkt (wire_spec JOB_RESULTS (payload_t.results r) ++ rest)
      = some ((JOB_RESULTS : Int), payload_t.results r, rest) := by
  have hbuf : buf r.results r.length = r.results := by
    rw [← hl]; simp [buf]
  refine ⟨by simp only [send_pkt, wire_spec, wire_u32, hbuf]; rfl, ?_⟩
  have hr := READ_u32_append r.length (r.results ++ rest) (by omega)
  have hr2 := READ_exact r.results rest r.length hl h0
  have hne : ¬ (r.length = 4294967295) := by omega
  simp only [wire_spec, wire_u32, recv_pkt, List.cons_append]
  simp only [show ¬ ((16 : Nat) = ACK ∨ (16 : Nat) = NACK ∨ (16 : Nat) = JOB_LIST_ALL) by decide,
    show ¬ ((16 : Nat) = JOB_UPDATE) by decide, show ¬ ((16 : Nat) = LOGIN) by decide,
    show ¬ ((16 : Nat) = JOB_SUBMIT) by decide,
    show ¬ ((16 : Nat) = JOB_SUBMIT_SUCCESS ∨ (16 : Nat) = JOB_STATUS ∨
      (16 : Nat) = JOB_EXPUNGE ∨ (16 : Nat) = JOB_GET_STDOUT ∨ (16 : Nat) = JOB_GET_STDERR)
      by decide,
    show ¬ ((16 : Nat) = JOB_STATUS_RESP) by decide,
    show ¬ ((16 : Nat) = JOB_LIST_ALL_RESP) by decide,
    show ¬ ((16 : Nat) = JOB_SET_PRI) by decide, show ¬ ((16 : Nat) = JOB_SIGNAL) by decide,
    ↓reduceIte, List.append_assoc]
  rw [hr]
  simp only []
  rw [if_neg hne, hr2]

theorem send_listing_spec (L : List listing_t) (hw : ∀ l ∈ L, listing_wf l) :
    send_listing L = (L.map wire_record).flatten := by
  induction L with
  | nil => rfl
  | cons l ls ih =>
    have h5 := (hw l (List.mem_cons_self _ _)).2.2.2.2.1
    have hbuf : buf l.cmdline l.cmdlen = l.cmdline := by
      rw [← h5]; simp [buf]
    simp only [send_listing, List.map_cons, List.flatten_cons, wire_record, wire_u32, wire_i32,
      hbuf, ih (fun x hx => hw x (List.mem_cons_of_mem _ hx))]

theorem recv_pkt_listing_spec (L : List listing_t) (rest : bytes) (hc : chain_ok L)
    (hw : ∀ l ∈ L, listing_wf l) :
    send_pkt JOB_LIST_ALL_RESP (payload_t.listing L)
      = some (wire_spec JOB_LIST_ALL_RESP (payload_t.listing L), 0) ∧
    recv_pkt (wire_spec JOB_LIST_ALL_RESP (payload_t.listing L) ++ rest)
      = some ((JOB_LIST_ALL_RESP : Int), payload_t.listing L, rest) := by
  have h := recv_pkt_listing L rest hc hw
  simp only [wire_spec, ← send_listing_spec L hw]
  exact h

theorem send_envp_spec (envp : List bytes) (h : ∀ e ∈ envp, 0 ∉ e) :
    send_envp envp = (envp.map wire_env).flatten := by
  induction envp with
  | nil => rfl
  | cons e es ih =>
    have hc := cstr_of_no_nul e (h e (List.mem_cons_self _ _))
    simp only [send_envp, List.map_cons, List.flatten_cons, wire_env, wire_u32, hc,
      ih (fun x hx => h x (List.mem_cons_of_mem _ hx)), List.append_assoc]

theorem recv_envp_spec (envp : List bytes) (rest : bytes)
    (h : ∀ e ∈ envp, 0 ∉ e ∧ e ≠ [] ∧ e.length < 2147483648) :
    recv_envp envp.length ((envp.map wire_env).flatten ++ rest) = rd.ok envp rest := by
  induction envp with
  | nil => rfl
  | cons e es ih =>
    obtain ⟨h0, hne, hl⟩ := h e (List.mem_cons_self _ _)
    have hc := cstr_of_no_nul e h0
    have hr := READ_u32_append e.length (e ++ ((es.map wire_env).flatten ++ rest)) (by omega)
    have hr2 := READ_append e ((es.map wire_env).flatten ++ rest) hne
    have hlt : ¬ (2147483648 ≤ e.length) := by omega
    simp only [List.length_cons, List.map_cons, List.flatten_cons, wire_env, wire_u32,
      List.append_assoc, recv_envp]
    rw [hr]
    simp only []
    rw [if_neg hlt, hr2]
    simp only []
    rw [ih (fun x hx => h x (List.mem_cons_of_mem _ hx)), hc]

theorem recv_submission_spec (sub : submission_t) (rest : bytes)
    (h1 : sub.maxcpu < 4294967296) (h2 : sub.maxmem < 4294967296) (h3 : fits_i32 sub.priority)
    (h4 : sub.cmdline.length = sub.cmdlen) (h5 : 0 < sub.cmdlen) (h6 : sub.cmdlen < 4294967295)
    (h7 : sub.envp.length = sub.envpc) (h8 : sub.envpc < 4294967295)
    (h9 : ∀ e ∈ sub.envp, 0 ∉ e ∧ e ≠ [] ∧ e.length < 2147483648) :
    recv_submission (wire_u32 sub.maxcpu ++ (wire_u32 sub.maxmem ++ (wire_i32 sub.priority ++
      (wire_u32 sub.cmdlen ++ (sub.cmdline ++ (wire_u32 sub.envpc ++
        ((sub.envp.map wire_env).flatten ++ rest)))))))
      = rd.ok sub rest := by
  have hne1 : ¬ (sub.cmdlen = 4294967295) := by omega
  have hne2 : ¬ (sub.envpc = 4294967295) := by omega
  unfold recv_submission
  simp only [wire_u32, wire_i32]
  rw [READ_u32_append _ _ h1]
  simp only []
  rw [READ_u32_append _ _ h2]
  simp only []
  rw [READ_u32_append _ _ (to_u32_lt _)]
  simp only []
  rw [READ_u32_append _ _ (by omega)]
  simp only []
  rw [if_neg hne1, READ_exact _ _ _ h4 h5]
  simp only []
  rw [READ_u32_append _ _ (by omega)]
  simp only []
  rw [if_neg hne2, ← h7, recv_envp_spec _ _ h9]
  simp only [to_i32_to_u32 _ h3.1 h3.2, h7]

theorem recv_pkt_submission (sub : submission_t) (rest : bytes)
    (h1 : sub.maxcpu < 4294967296) (h2 : sub.maxmem < 4294967296) (h3 : fits_i32 sub.priority)
    (h4 : sub.cmdline.length = sub.cmdlen) (h5 : 0 < sub.cmdlen) (h6 : sub.cmdlen < 4294967295)
    (h7 : sub.envp.length = sub.envpc) (h8 : sub.envpc < 4294967295)
    (h9 : ∀ e ∈ sub.envp, 0 ∉ e ∧ e ≠ [] ∧ e.length < 2147483648) :
    send_pkt JOB_SUBMIT (payload_t.submission sub)
      = some (wire_spec JOB_SUBMIT (payload_t.submission sub), 0) ∧
    recv_pkt (wire_spec JOB_SUBMIT (payload_t.submission sub) ++ rest)
      = some ((JOB_SUBMIT : Int), payload_t.submission sub, rest) := by
  have hbuf : buf sub.cmdline sub.cmdlen = sub.cmdline := by
    rw [← h4]; simp [buf]
  have htake : sub.envp.take sub.envpc = sub.envp := by
    rw [← h7]; exact List.take_length _
  have hlen : ¬ (sub.envp.length < sub.envpc) := by omega
  have henv := send_envp_spec sub.envp (fun e he => (h9 e he).1)
  refine ⟨?_, ?_⟩
  · simp only [send_pkt, wire_spec, wire_u32, wire_i32, hbuf, htake, henv, hlen]
    simp [JOB_SUBMIT]
  · have hs := recv_submission_spec sub rest h1 h2 h3 h4 h5 h6 h7 h8 h9
    simp only [wire_spec, recv_pkt, List.cons_append, List.append_assoc]
    simp only [show ¬ ((4 : Nat) = ACK ∨ (4 : Nat) = NACK ∨ (4 : Nat) = JOB_LIST_ALL) by decide,
      show ¬ ((4 : Nat) = JOB_UPDATE) by decide, show ¬ ((4 : Nat) = LOGIN) by decide,
      ↓reduceIte, hs]

theorem take_of_length {α : Type} (a b : List α) (n : Nat) (h : a.length = n) :
    (a ++ b).take n = a := by
  rw [← h]; exact List.take_left' rfl

theorem drop_of_length {α : Type} (a b : List α) (n : Nat) (h : a.length = n) :
    (a ++ b).drop n = b := by
  rw [← h]; exact List.drop_left' rfl

theorem rusage_layout (A B C D E R : bytes) (hA : A.length = 8) (hB : B.length = 8)
    (hC : C.length = 8) (hD : D.length = 8) (hE : E.length = 8) :
    (A ++ B ++ C ++ D ++ E ++ R).take 8 = A ∧
    ((A ++ B ++ C ++ D ++ E ++ R).drop 8).take 8 = B ∧
    ((A ++ B ++ C ++ D ++ E ++ R).drop 16).take 8 = C ∧
    ((A ++ B ++ C ++ D ++ E ++ R).drop 24).take 8 = D ∧
    ((A ++ B ++ C ++ D ++ E ++ R).drop 32).take 8 = E ∧
    (A ++ B ++ C ++ D ++ E ++ R).drop 40 = R := by
  simp only [List.append_assoc]
  have d8 : (A ++ (B ++ (C ++ (D ++ (E ++ R))))).drop 8 = B ++ (C ++ (D ++ (E ++ R))) :=
    drop_of_length _ _ 8 hA
  have d16 : (A ++ (B ++ (C ++ (D ++ (E ++ R))))).drop 16 = C ++ (D ++ (E ++ R)) := by
    rw [show (16 : Nat) = 8 + 8 from rfl, ← List.drop_drop, d8]; exact drop_of_length _ _ 8 hB
  have d24 : (A ++ (B ++ (C ++ (D ++ (E ++ R))))).drop 24 = D ++ (E ++ R) := by
    rw [show (24 : Nat) = 16 + 8 from rfl, ← List.drop_drop, d16]; exact drop_of_length _ _ 8 hC
  have d32 : (A ++ (B ++ (C ++ (D ++ (E ++ R))))).drop 32 = E ++ R := by
    rw [show (32 : Nat) = 24 + 8 from rfl, ← List.drop_drop, d24]; exact drop_of_length _ _ 8 hD
  have d40 : (A ++ (B ++ (C ++ (D ++ (E ++ R))))).drop 40 = R := by
    rw [show (40 : Nat) = 32 + 8 from rfl, ← List.drop_drop, d32]; exact drop_of_length _ _ 8 hE
  rw [d8, d16, d24, d32, d40]
  exact ⟨take_of_length _ _ 8 hA, take_of_length _ _ 8 hB, take_of_length _ _ 8 hC,
    take_of_length _ _ 8 hD, take_of_length _ _ 8 hE, rfl⟩

theorem status_layout (A B C D E P R : bytes) (hA : A.length = 4) (hB : B.length = 4)
    (hC : C.length = 4) (hD : D.length = 4) (hE : E.length = 4) (hP : P.length = 4) :
    (A ++ B ++ C ++ D ++ E ++ P ++ R).take 4 = A ∧
    ((A ++ B ++ C ++ D ++ E ++ P ++ R).drop 4).take 4 = B ∧
    ((A ++ B ++ C ++ D ++ E ++ P ++ R).drop 8).take 4 = C ∧
    ((A ++ B ++ C ++ D ++ E ++ P ++ R).drop 12).take 4 = D ∧
    ((A ++ B ++ C ++ D ++ E ++ P ++ R).drop 16).take 4 = E ∧
    (A ++ B ++ C ++ D ++ E ++ P ++ R).drop 24 = R := by
  simp only [List.append_assoc]
  have d4 : (A ++ (B ++ (C ++ (D ++ (E ++ (P ++ R)))))).drop 4
      = B ++ (C ++ (D ++ (E ++ (P ++ R)))) := drop_of_length _ _ 4 hA
  have d8 : (A ++ (B ++ (C ++ (D ++ (E ++ (P ++ R)))))).drop 8
      = C ++ (D ++ (E ++ (P ++ R))) := by
    rw [show (8 : Nat) = 4 + 4 from rfl, ← List.drop_drop, d4]; exact drop_of_length _ _ 4 hB
  have d12 : (A ++ (B ++ (C ++ (D ++ (E ++ (P ++ R)))))).drop 12 = D ++ (E ++ (P ++ R)) := by
    rw [show (12 : Nat) = 8 + 4 from rfl, ← List.drop_drop, d8]; exact drop_of_length _ _ 4 hC
  have d16 : (A ++ (B ++ (C ++ (D ++ (E ++ (P ++ R)))))).drop 16 = E ++ (P ++ R) := by
    rw [show (16 : Nat) = 12 + 4 from rfl, ← List.drop_drop, d12]; exact drop_of_length _ _ 4 hD
  have d20 : (A ++ (B ++ (C ++ (D ++ (E ++ (P ++ R)))))).drop 20 = P ++ R := by
    rw [show (20 : Nat) = 16 + 4 from rfl, ← List.drop_drop, d16]; exact drop_of_length _ _ 4 hE
  have d24 : (A ++ (B ++ (C ++ (D ++ (E ++ (P ++ R)))))).drop 24 = R := by
    rw [show (24 : Nat) = 20 + 4 from rfl, ← List.drop_drop, d20]; exact drop_of_length _ _ 4 hP
  rw [d4, d8, d12, d16, d24]
  exact ⟨take_of_length _ _ 4 hA, take_of_length _ _ 4 hB, take_of_length _ _ 4 hC,
    take_of_length _ _ 4 hD, take_of_length _ _ 4 hE, rfl⟩

theorem i64_bytes_length (x : Int) : (i64_bytes x).length = 8 := le_bytes_length 8 _

theorem i64_val_bytes (x : Int) (h : fits_i64 x) : i64_val (i64_bytes x) = x := by
  obtain ⟨h1, h2⟩ := h
  unfold i64_val i64_bytes
  rw [le_val_le_bytes]
  have h3 : 0 ≤ x % 18446744073709551616 := Int.emod_nonneg _ (by norm_num)
  have h4 : x % 18446744073709551616 < 18446744073709551616 :=
    Int.emod_lt_of_pos _ (by norm_num)
  have h5 : ((x % 18446744073709551616).toNat : Int) = x % 18446744073709551616 :=
    Int.toNat_of_nonneg h3
  have hp : (256 : Nat) ^ 8 = 18446744073709551616 := by norm_num
  have h6 : (x % 18446744073709551616).toNat % 256 ^ 8 = (x % 18446744073709551616).toNat := by
    apply Nat.mod_eq_of_lt; rw [hp]; omega
  rw [h6]
  by_cases hx : 0 ≤ x
  · have h7 : x % 18446744073709551616 = x := Int.emod_eq_of_lt hx (by omega)
    have h8 : (x % 18446744073709551616).toNat < 9223372036854775808 := by omega
    simp only [h8, if_true]
    omega
  · have h7 : x % 18446744073709551616 = x + 18446744073709551616 := by
      have : (x + 18446744073709551616) % 18446744073709551616 = x + 18446744073709551616 :=
        Int.emod_eq_of_lt (by omega) (by omega)
      rw [← this]; simp
    have h8 : ¬ (x % 18446744073709551616).toNat < 9223372036854775808 := by omega
    simp only [h8, if_false]
    omega

theorem rusage_of_bytes (ru : rusage) (h : rusage_wf ru) : rusage_of (rusage_bytes ru) = ru := by
  obtain ⟨h1, h2, h3, h4, h5, h6⟩ := h
  have hbuf : buf ru.ru_rest 104 = ru.ru_rest := by
    rw [← h6]; simp [buf]
  have hl := rusage_layout (i64_bytes ru.ru_utime.tv_sec) (i64_bytes ru.ru_utime.tv_usec)
    (i64_bytes ru.ru_stime.tv_sec) (i64_bytes ru.ru_stime.tv_usec) (i64_bytes ru.ru_maxrss)
    ru.ru_rest (i64_bytes_length _) (i64_bytes_length _) (i64_bytes_length _)
    (i64_bytes_length _) (i64_bytes_length _)
  obtain ⟨e1, e2, e3, e4, e5, e6⟩ := hl
  have ht : ru.ru_rest.take 104 = ru.ru_rest := by
    rw [← h6]; exact List.take_length _
  simp only [rusage_of, rusage_bytes, hbuf, e1, e2, e3, e4, e5, e6, ht, i64_val_bytes _ h1,
    i64_val_bytes _ h2, i64_val_bytes _ h3, i64_val_bytes _ h4, i64_val_bytes _ h5]

theorem rusage_bytes_length (ru : rusage) : (rusage_bytes ru).length = 144 := by
  simp [rusage_bytes, i64_bytes_length, buf]

theorem status_bytes_length (st : status_t) : (status_bytes st).length = 168 := by
  simp [status_bytes, le_bytes_length, rusage_bytes_length]

theorem status_of_bytes (st : status_t) (h1 : st.status < 4294967296)
    (h2 : fits_i32 st.exitcode) (h3 : st.maxcpu < 4294967296) (h4 : st.maxmem < 4294967296)
    (h5 : fits_i32 st.priority) (h6 : rusage_wf st.ru) :
    status_of (status_bytes st) = st := by
  have hl := status_layout (le_bytes 4 st.status) (le_bytes 4 (to_u32 st.exitcode))
    (le_bytes 4 st.maxcpu) (le_bytes 4 st.maxmem) (le_bytes 4 (to_u32 st.priority))
    [0, 0, 0, 0] (rusage_bytes st.ru) (le_bytes_length _ _) (le_bytes_length _ _)
    (le_bytes_length _ _) (le_bytes_length _ _) (le_bytes_length _ _) rfl
  obtain ⟨e1, e2, e3, e4, e5, e6⟩ := hl
  simp only [status_of, status_bytes, e1, e2, e3, e4, e5, e6, le_val_le_bytes4 _ h1,
    le_val_le_bytes4 _ h3, le_val_le_bytes4 _ h4, le_val_le_bytes4 _ (to_u32_lt _),
    to_i32_to_u32 _ h2.1 h2.2, to_i32_to_u32 _ h5.1 h5.2, rusage_of_bytes _ h6]

theorem recv_pkt_status (st : status_t) (rest : bytes) (h1 : st.status < 4294967296)
    (h2 : fits_i32 st.exitcode) (h3 : st.maxcpu < 4294967296) (h4 : st.maxmem < 4294967296)
    (h5 : fits_i32 st.priority) (h6 : rusage_wf st.ru) :
    send_pkt JOB_STATUS_RESP (payload_t.status st)
      = some (wire_spec JOB_STATUS_RESP (payload_t.status st), 0) ∧
    recv_pkt (wire_spec JOB_STATUS_RESP (payload_t.status st) ++ rest)
      = some ((JOB_STATUS_RESP : Int), payload_t.status st, rest) := by
  have hw : wire_spec JOB_STATUS_RESP (payload_t.status st) = JOB_STATUS_RESP :: status_bytes st := by
    simp only [wire_spec, wire_u32, wire_i32, status_bytes]
  rw [hw]
  refine ⟨by simp [send_pkt, JOB_STATUS_RESP], ?_⟩
  have hr := READ_exact (status_bytes st) rest 168 (status_bytes_length st) (by decide)
  simp only [recv_pkt, List.cons_append]
  simp only [show ¬ ((13 : Nat) = ACK ∨ (13 : Nat) = NACK ∨ (13 : Nat) = JOB_LIST_ALL) by decide,
    show ¬ ((13 : Nat) = JOB_UPDATE) by decide, show ¬ ((13 : Nat) = LOGIN) by decide,
    show ¬ ((13 : Nat) = JOB_SUBMIT) by decide,
    show ¬ ((13 : Nat) = JOB_SUBMIT_SUCCESS ∨ (13 : Nat) = JOB_STATUS ∨
      (13 : Nat) = JOB_EXPUNGE ∨ (13 : Nat) = JOB_GET_STDOUT ∨ (13 : Nat) = JOB_GET_STDERR)
      by decide,
    ↓reduceIte, hr, status_of_bytes st h1 h2 h3 h4 h5 h6]

theorem recv_pkt_valid (t : Nat) (p : payload_t) (rest : bytes) (h : valid_frame t p) :
    send_pkt t p = some (wire_spec t p, 0) ∧
    recv_pkt (wire_spec t p ++ rest) = some ((t : Int), p, rest) := by
  cases p with
  | null => exact recv_pkt_null t rest h
  | name n =>
    obtain ⟨ht, h0, hl⟩ := h
    subst ht
    exact recv_pkt_name n rest h0 hl
  | update u =>
    obtain ⟨ht, h1, h2⟩ := h
    subst ht
    exact recv_pkt_update u rest h1 h2
  | submission sub =>
    obtain ⟨ht, h1, h2, h3, h4, h5, h6, h7, h8, h9⟩ := h
    subst ht
    exact recv_pkt_submission sub rest h1 h2 h3 h4 h5 h6 h7 h8 h9
  | jobid id =>
    obtain ⟨ht, h1⟩ := h
    exact recv_pkt_jobid t id rest ht h1
  | status st =>
    obtain ⟨ht, h1, h2, h3, h4, h5, h6⟩ := h
    subst ht
    exact recv_pkt_status st rest h1 h2 h3 h4 h5 h6
  | listing l =>
    obtain ⟨ht, hc, hw⟩ := h
    subst ht
    exact recv_pkt_listing_spec l rest hc hw
  | priority pr =>
    obtain ⟨ht, h1, h2⟩ := h
    subst ht
    exact recv_pkt_priority pr rest h1 h2
  | signal sg =>
    obtain ⟨ht, h1, h2⟩ := h
    subst ht
    exact recv_pkt_signal sg rest h1 h2
  | results r =>
    obtain ⟨ht, hl, h0, h1⟩ := h
    subst ht
    exact recv_pkt_results r rest hl h0 h1

/-- C22: for a frame with a tag that goes with its payload, fields that fit
their types and byte strings that are all non-empty, send_pkt writes exactly the
encoding the specification gives and recv_pkt on that encoding followed by any
bytes returns the tag and the payload and leaves those bytes unread. For the
JOB_SUBMIT frame with an empty command line followed by an ACK frame, send_pkt
writes the encoding, but recv_pkt returns -1 with no payload and leaves the four
bytes of envpc unread before the ACK. -/
theorem C22_empty_field_not_consumed :
    (∀ (t : Nat) (p : payload_t) (rest : bytes), valid_frame t p →
      send_pkt t p = some (wire_spec t p, 0) ∧
      recv_pkt (wire_spec t p ++ rest) = some ((t : Int), p, rest)) ∧
    wire_spec JOB_SUBMIT (payload_t.submission ⟨2, 3, -1, 0, [], 0, []⟩)
      = [4, 2, 0, 0, 0, 3, 0, 0, 0, 255, 255, 255, 255, 0, 0, 0, 0, 0, 0, 0, 0] ∧
    send_pkt JOB_SUBMIT (payload_t.submission ⟨2, 3, -1, 0, [], 0, []⟩)
      = some (wire_spec JOB_SUBMIT (payload_t.submission ⟨2, 3, -1, 0, [], 0, []⟩), 0) ∧
    recv_pkt (wire_spec JOB_SUBMIT (payload_t.submission ⟨2, 3, -1, 0, [], 0, []⟩) ++ [ACK])
      = some (-1, payload_t.null, [0, 0, 0, 0, ACK]) ∧
    valid_frame JOB_SUBMIT (payload_t.submission ⟨2, 3, -1, 1, [120], 0, []⟩) ∧
    recv_pkt (wire_spec JOB_SUBMIT (payload_t.submission ⟨2, 3, -1, 1, [120], 0, []⟩) ++ [ACK])
      = some ((JOB_SUBMIT : Int), payload_t.submission ⟨2, 3, -1, 1, [120], 0, []⟩, [ACK]) := by
  refine ⟨recv_pkt_valid, by decide, by decide, by decide, ?_, by decide⟩
  simp [valid_frame, fits_i32]

end SMASH
